import Mathlib

/-!
# Verification of the finit simulation engine

Shallow embedding of the deterministic tick-discretized admission-control and
priority-scheduling simulator (`src/engine/sim.go`, `src/engine/types.go`,
`src/engine/artifact.go`), with theorems settling the specification claims.

The Go simulator mutates a `Simulator` struct holding a token store (a slice of
pointers), three class queues, an in-service set, and trace accumulators.  The
embedding represents the store as a `List Token` indexed by the numeric token
counter (`nextID`), and queues / in-service as lists of these numeric indices;
the Go pointer aliasing between the store and the queues becomes explicit
index-based lookup and update.
-/

set_option maxRecDepth 4000

namespace Finit

/-! ## Constants (src/engine/types.go) -/

def ScenarioID : String := "canonical_v1"
def EngineVersion : String := "0.1.0"
def TickRate : Nat := 4
def TickCount : Nat := 240
def TickDurationMs : Nat := 250
def TotalDurationMs : Nat := TickCount * TickDurationMs

def ClassAnon : String := "ANON"
def ClassFree : String := "FREE"
def ClassPaid : String := "PAID"

def StateQueued : String := "queued"
def StateProcessing : String := "processing"
def StateDone : String := "done"
def StateRejected : String := "rejected"

def StageQueue : String := "queue"
def StageService : String := "service"
def StageDone : String := "done"
def StageRejected : String := "rejected"

def EventQueue : String := "QUEUE"
def EventSchedule : String := "SCHEDULE"
def EventComplete : String := "COMPLETE"
def EventReject : String := "REJECT"

def ReasonQueueAdmission : String := "QUEUE_ADMISSION"
def ReasonPrioritySchedule : String := "PRIORITY_SCHEDULE"
def ReasonServiceComplete : String := "SERVICE_COMPLETE"
def ReasonRejectOverload : String := "REJECT_OVERLOAD"

/-- The three per-run scheduling parameters set by `Run` (src/engine/sim.go,
`capacity: 3`); they are never mutated, so the embedding carries them as
constants. -/
def capacity : Nat := 3

/-- `serviceTime: 1` set by `Run`. -/
def serviceTime : Int := 1

/-- `rejectThreshold: 12` set by `Run`. -/
def rejectThreshold : Nat := 12

/-! ## Token identifiers

Go renders the monotonic counter as `fmt.Sprintf("T%04d", n)`: the decimal
digits of `n`, zero-padded on the left to width 4, after a literal `T`. -/

/-- Decimal digits of `n`, least significant first (`[0]` for zero), as the
digit values. -/
def decDigits (n : Nat) : List Nat :=
  if h : n < 10 then [n]
  else n % 10 :: decDigits (n / 10)
decreasing_by exact Nat.div_lt_self (by omega) (by omega)

/-- A digit value rendered as its ASCII character. -/
def digitChar (d : Nat) : Char := Char.ofNat (48 + d)

/-- The decimal rendering of `n`, most significant digit first. -/
def decChars (n : Nat) : List Char := (decDigits n).reverse.map digitChar

/-- `fmt.Sprintf("T%04d", n)`: zero-pad the decimal rendering to width 4 and
prepend `T`. -/
def tokenName (n : Nat) : String :=
  String.mk ('T' :: (List.replicate (4 - (decChars n).length) '0' ++ decChars n))

/-! ## Data model (src/engine/sim.go `Token`, src/engine/types.go) -/

structure Token where
  id : String
  cls : String
  state : String
  stageId : String
  queueIndex : Int
  serviceRemaining : Int
  arrivalTick : Nat
deriving Repr, DecidableEq, Inhabited

structure Event where
  tick : Nat
  etype : String
  reasonCode : String
  tokenId : String
  stageId : String
  cls : String
deriving Repr, DecidableEq, Inhabited

structure TokenState where
  id : String
  cls : String
  state : String
  stageId : String
  queueIndex : Int
  serviceRemaining : Int
deriving Repr, DecidableEq, Inhabited

structure StageState where
  id : String
  queueLength : Nat
  capacityUsed : Nat
  capacityTotal : Nat
deriving Repr, DecidableEq, Inhabited

structure Snapshot where
  tick : Nat
  timeMs : Nat
  tokens : List TokenState
  stages : List StageState
deriving Repr, DecidableEq, Inhabited

structure Metadata where
  scenarioId : String
  seed : Int
  engineVersion : String
  replayId : String
  tickCount : Nat
  tickDurationMs : Nat
  totalDurationMs : Nat
deriving Repr, DecidableEq, Inhabited

structure Artifact where
  metadata : Metadata
  snapshots : List Snapshot
  events : List Event
deriving Repr, DecidableEq, Inhabited

structure Config where
  scenarioId : String
  seed : Int
deriving Repr, DecidableEq, Inhabited

/-- The mutable simulator state (`Simulator` in sim.go).  `tokens` is the token
store indexed by the numeric counter; the queues and the in-service set hold
numeric indices into it, standing for Go's `*Token` pointers.  `rngIndex`
counts how many pseudo-random class draws have been consumed. -/
structure SimState where
  nextID : Nat
  tokens : List Token
  paidQueue : List Nat
  freeQueue : List Nat
  anonQueue : List Nat
  inService : List Nat
  snapshots : List Snapshot
  events : List Event
  rngIndex : Nat
deriving Repr, Inhabited

/-! ## Phase 1: service completion (`nextService`) -/

/-- A token transitioning to completed (its `serviceRemaining` keeps the
already-decremented value, as in Go). -/
def completeToken (t : Token) : Token :=
  { t with state := StateDone, stageId := StageDone, queueIndex := -1 }

def completeEvent (tick : Nat) (t : Token) : Event :=
  { tick := tick, etype := EventComplete, reasonCode := ReasonServiceComplete,
    tokenId := t.id, stageId := StageDone, cls := t.cls }

/-- One pass over the in-service indices: decrement each token's remaining
service time, retiring those reaching zero or below.  Returns the updated
store, the indices still in service (in order), and the completion events (in
order). -/
def servicePass (tick : Nat) : List Nat → List Token → List Token × List Nat × List Event
  | [], store => (store, [], [])
  | i :: rest, store =>
    let t := store.getD i default
    let t1 := { t with serviceRemaining := t.serviceRemaining - 1 }
    if t1.serviceRemaining ≤ 0 then
      let r := servicePass tick rest (store.set i (completeToken t1))
      (r.1, r.2.1, completeEvent tick t1 :: r.2.2)
    else
      let r := servicePass tick rest (store.set i t1)
      (r.1, i :: r.2.1, r.2.2)

def nextService (tick : Nat) (s : SimState) : SimState :=
  let r := servicePass tick s.inService s.tokens
  { s with tokens := r.1, inService := r.2.1, events := s.events ++ r.2.2 }

/-! ## Phase 2: arrivals and admission (`arrivals`, `shouldReject`, `enqueue`) -/

/-- The scenario's deterministic arrival-count step function
(`arrivalCount` in sim.go). -/
def arrivalCount (tick : Nat) : Nat :=
  if tick < 110 then 1
  else if tick < 150 then 2
  else if tick < 180 then 4
  else if tick < 210 then 3
  else 1

/-- `arrivalClasses`: draw `count` classes from the pseudo-random stream
(consuming one draw per arrival), then force the first two slots to
PAID / FREE inside the narrative override window. -/
def arrivalClasses (picks : Nat → String) (base tick count : Nat) : List String :=
  let cs := (List.range count).map (fun i => picks (base + i))
  if 2 ≤ count ∧ 150 ≤ tick ∧ tick ≤ 190 then (cs.set 0 ClassPaid).set 1 ClassFree
  else cs

def queueTotal (s : SimState) : Nat :=
  s.paidQueue.length + s.freeQueue.length + s.anonQueue.length

/-- `shouldReject`: reject only lowest-priority (ANON) arrivals, and only when
the combined queue length (before this arrival is queued) meets the
threshold. -/
def shouldReject (s : SimState) (cls : String) : Bool :=
  decide (cls = ClassAnon ∧ rejectThreshold ≤ queueTotal s)

/-- `enqueue`: append to the class's queue; anything that is not PAID or FREE
goes to the ANON queue (Go's `default` case). -/
def enqueue (s : SimState) (i : Nat) (cls : String) : SimState :=
  if cls = ClassPaid then { s with paidQueue := s.paidQueue ++ [i] }
  else if cls = ClassFree then { s with freeQueue := s.freeQueue ++ [i] }
  else { s with anonQueue := s.anonQueue ++ [i] }

/-- `newToken`: fresh token with zero-valued lifecycle fields, appended to the
store (slot `nextID`). -/
def mkToken (n : Nat) (cls : String) (tick : Nat) : Token :=
  { id := tokenName n, cls := cls, state := "", stageId := "",
    queueIndex := -1, serviceRemaining := 0, arrivalTick := tick }

def rejectEvent (tick : Nat) (t : Token) : Event :=
  { tick := tick, etype := EventReject, reasonCode := ReasonRejectOverload,
    tokenId := t.id, stageId := StageRejected, cls := t.cls }

def queueEvent (tick : Nat) (t : Token) : Event :=
  { tick := tick, etype := EventQueue, reasonCode := ReasonQueueAdmission,
    tokenId := t.id, stageId := StageQueue, cls := t.cls }

/-- The body of the `arrivals` loop for a single arrival of class `cls`:
create the token, then either reject it outright or queue it, emitting the
corresponding event.  Go appends the freshly created `*Token` to the store and
then mutates its lifecycle fields through the pointer; the embedding appends
the already-finalized token value, which is observably identical
(`shouldReject` reads only the queues, which the append does not touch). -/
def processArrival (tick : Nat) (cls : String) (s : SimState) : SimState :=
  let i := s.nextID
  let tok := mkToken i cls tick
  if shouldReject s cls then
    { s with
      nextID := i + 1,
      tokens := s.tokens ++
        [{ tok with state := StateRejected, stageId := StageRejected, queueIndex := -1 }],
      events := s.events ++ [rejectEvent tick tok] }
  else
    let s2 := { s with
      nextID := i + 1,
      tokens := s.tokens ++
        [{ tok with state := StateQueued, stageId := StageQueue, queueIndex := -1 }] }
    let s3 := enqueue s2 i cls
    { s3 with events := s3.events ++ [queueEvent tick tok] }

def processArrivalList (tick : Nat) : List String → SimState → SimState
  | [], s => s
  | c :: rest, s => processArrivalList tick rest (processArrival tick c s)

def arrivals (picks : Nat → String) (tick : Nat) (s : SimState) : SimState :=
  let count := arrivalCount tick
  let cs := arrivalClasses picks s.rngIndex tick count
  processArrivalList tick cs { s with rngIndex := s.rngIndex + count }

/-! ## Phase 3: scheduling (`schedule`, `popNextQueued`) -/

/-- `popNextQueued`: pop the head of the highest-priority non-empty queue
(PAID, then FREE, then ANON); `none` when all queues are empty. -/
def popNextQueued (s : SimState) : Option (Nat × SimState) :=
  match s.paidQueue with
  | i :: rest => some (i, { s with paidQueue := rest })
  | [] =>
    match s.freeQueue with
    | i :: rest => some (i, { s with freeQueue := rest })
    | [] =>
      match s.anonQueue with
      | i :: rest => some (i, { s with anonQueue := rest })
      | [] => none

/-- A token transitioning to in-service, its service duration reset to the
fixed per-request service time. -/
def admitToken (t : Token) : Token :=
  { t with
    state := StateProcessing, stageId := StageService,
    queueIndex := -1, serviceRemaining := serviceTime }

def schedEvent (tick : Nat) (t : Token) : Event :=
  { tick := tick, etype := EventSchedule, reasonCode := ReasonPrioritySchedule,
    tokenId := t.id, stageId := StageService, cls := t.cls }

/-- The `for capacityAvailable > 0` loop of `schedule`, with the remaining
spare capacity as explicit fuel. -/
def scheduleLoop (tick : Nat) : Nat → SimState → SimState
  | 0, s => s
  | fuel + 1, s =>
    match popNextQueued s with
    | none => s
    | some (i, s1) =>
      let t := s1.tokens.getD i default
      scheduleLoop tick fuel
        { s1 with
          tokens := s1.tokens.set i (admitToken t),
          inService := s1.inService ++ [i],
          events := s1.events ++ [schedEvent tick t] }

def schedule (tick : Nat) (s : SimState) : SimState :=
  scheduleLoop tick (capacity - s.inService.length) s

/-! ## Phase 4: queue-index recomputation (`updateQueueIndices`) -/

/-- First pass of `updateQueueIndices`: reset every queued token's index to the
sentinel. -/
def clearQueuedIdx (store : List Token) : List Token :=
  store.map (fun t => if t.state = StateQueued then { t with queueIndex := -1 } else t)

/-- Second pass: number the given token indices sequentially starting at
`idx`. -/
def numberFrom (idx : Nat) : List Nat → List Token → List Token
  | [], store => store
  | i :: rest, store =>
    numberFrom (idx + 1) rest
      (store.set i { store.getD i default with queueIndex := Int.ofNat idx })

/-- The concatenation of the class queues in priority order. -/
def idsOf (s : SimState) : List Nat := s.paidQueue ++ s.freeQueue ++ s.anonQueue

def updateQueueIndices (s : SimState) : SimState :=
  { s with tokens := numberFrom 0 (idsOf s) (clearQueuedIdx s.tokens) }

/-! ## Phase 5: snapshot capture -/

def tokenView (t : Token) : TokenState :=
  { id := t.id, cls := t.cls, state := t.state, stageId := t.stageId,
    queueIndex := t.queueIndex, serviceRemaining := t.serviceRemaining }

def snapshotTokens (s : SimState) : List TokenState := s.tokens.map tokenView

def snapshotStages (s : SimState) : List StageState :=
  [ { id := StageQueue, queueLength := queueTotal s, capacityUsed := 0, capacityTotal := 0 },
    { id := StageService, queueLength := 0, capacityUsed := s.inService.length,
      capacityTotal := capacity },
    { id := StageDone, queueLength := 0, capacityUsed := 0, capacityTotal := 0 },
    { id := StageRejected, queueLength := 0, capacityUsed := 0, capacityTotal := 0 } ]

/-! ## The tick driver (`step`, `Run`) -/

def step (picks : Nat → String) (tick : Nat) (s : SimState) : SimState :=
  let s1 := nextService tick s
  let s2 := arrivals picks tick s1
  let s3 := schedule tick s2
  let s4 := updateQueueIndices s3
  { s4 with snapshots := s4.snapshots ++
      [{ tick := tick, timeMs := tick * TickDurationMs,
         tokens := snapshotTokens s4, stages := snapshotStages s4 }] }

def initState : SimState :=
  { nextID := 0, tokens := [], paidQueue := [], freeQueue := [], anonQueue := [],
    inService := [], snapshots := [], events := [], rngIndex := 0 }

/-- The simulator state after the first `n` ticks. -/
def stateAfter (picks : Nat → String) : Nat → SimState
  | 0 => initState
  | n + 1 => step picks n (stateAfter picks n)

def runSim (picks : Nat → String) : SimState := stateAfter picks TickCount

/-! ## Replay identifier (src/engine/artifact.go)

`ReplayID` is the lowercase-hex rendering of the SHA-256 digest of the string
`fmt.Sprintf("%s|%d|%s", scenarioID, seed, version)`.  SHA-256 is embedded
over `Nat` with explicit `% 2^32` truncation. -/

def w32 (x : Nat) : Nat := x % 4294967296

def rotr32 (n x : Nat) : Nat := (x >>> n ||| x <<< (32 - n)) % 4294967296

def bigSigma0 (x : Nat) : Nat := rotr32 2 x ^^^ rotr32 13 x ^^^ rotr32 22 x
def bigSigma1 (x : Nat) : Nat := rotr32 6 x ^^^ rotr32 11 x ^^^ rotr32 25 x
def smallSigma0 (x : Nat) : Nat := rotr32 7 x ^^^ rotr32 18 x ^^^ (x >>> 3)
def smallSigma1 (x : Nat) : Nat := rotr32 17 x ^^^ rotr32 19 x ^^^ (x >>> 10)

def chFun (x y z : Nat) : Nat := (x &&& y) ^^^ ((x ^^^ 4294967295) &&& z)
def majFun (x y z : Nat) : Nat := (x &&& y) ^^^ (x &&& z) ^^^ (y &&& z)

def shaK : List Nat :=
  [1116352408, 1899447441, 3049323471, 3921009573, 961987163, 1508970993,
   2453635748, 2870763221, 3624381080, 310598401, 607225278, 1426881987,
   1925078388, 2162078206, 2614888103, 3248222580, 3835390401, 4022224774,
   264347078, 604807628, 770255983, 1249150122, 1555081692, 1996064986,
   2554220882, 2821834349, 2952996808, 3210313671, 3336571891, 3584528711,
   113926993, 338241895, 666307205, 773529912, 1294757372, 1396182291,
   1695183700, 1986661051, 2177026350, 2456956037, 2730485921, 2820302411,
   3259730800, 3345764771, 3516065817, 3600352804, 4094571909, 275423344,
   430227734, 506948616, 659060556, 883997877, 958139571, 1322822218,
   1537002063, 1747873779, 1955562222, 2024104815, 2227730452, 2361852424,
   2428436474, 2756734187, 3204031479, 3329325298]

structure Hash8 where
  a : Nat
  b : Nat
  c : Nat
  d : Nat
  e : Nat
  f : Nat
  g : Nat
  h : Nat
deriving Repr, DecidableEq

def shaH0 : Hash8 :=
  { a := 1779033703, b := 3144134277, c := 1013904242, d := 2773480762,
    e := 1359893119, f := 2600822924, g := 528734635, h := 1541459225 }

def shaRound (st : Hash8) (kw : Nat × Nat) : Hash8 :=
  let t1 := w32 (st.h + bigSigma1 st.e + chFun st.e st.f st.g + kw.1 + kw.2)
  let t2 := w32 (bigSigma0 st.a + majFun st.a st.b st.c)
  { a := w32 (t1 + t2), b := st.a, c := st.b, d := st.c,
    e := w32 (st.d + t1), f := st.e, g := st.f, h := st.g }

/-- Big-endian 32-bit words from a byte list. -/
def toWords : List Nat → List Nat
  | b0 :: b1 :: b2 :: b3 :: rest =>
    (b0 * 16777216 + b1 * 65536 + b2 * 256 + b3) :: toWords rest
  | _ => []

/-- Extend the 16-word schedule by `n` further words. -/
def extendW : Nat → List Nat → List Nat
  | 0, ws => ws
  | n + 1, ws =>
    let l := ws.length
    let x := w32 (smallSigma1 (ws.getD (l - 2) 0) + ws.getD (l - 7) 0 +
      smallSigma0 (ws.getD (l - 15) 0) + ws.getD (l - 16) 0)
    extendW n (ws ++ [x])

def compressBlock (st : Hash8) (block : List Nat) : Hash8 :=
  let ws := extendW 48 (toWords block)
  let r := (shaK.zip ws).foldl shaRound st
  { a := w32 (st.a + r.a), b := w32 (st.b + r.b), c := w32 (st.c + r.c),
    d := w32 (st.d + r.d), e := w32 (st.e + r.e), f := w32 (st.f + r.f),
    g := w32 (st.g + r.g), h := w32 (st.h + r.h) }

/-- Process `n` 64-byte blocks from the front of `msg`. -/
def processBlocksN : Nat → Hash8 → List Nat → Hash8
  | 0, st, _ => st
  | n + 1, st, msg => processBlocksN n (compressBlock st (msg.take 64)) (msg.drop 64)

/-- Process the whole (padded) message, one 64-byte block at a time. -/
def processBlocks (st : Hash8) (msg : List Nat) : Hash8 :=
  processBlocksN ((msg.length + 63) / 64) st msg

/-- SHA-256 padding: `0x80`, zeros to 56 mod 64, then the bit length as eight
big-endian bytes. -/
def shaPad (msg : List Nat) : List Nat :=
  let len := msg.length
  let bitLen := 8 * len
  msg ++ [128] ++ List.replicate ((119 - len % 64) % 64) 0 ++
    [bitLen / 72057594037927936 % 256, bitLen / 281474976710656 % 256,
     bitLen / 1099511627776 % 256, bitLen / 4294967296 % 256,
     bitLen / 16777216 % 256, bitLen / 65536 % 256, bitLen / 256 % 256,
     bitLen % 256]

def wordBytes (w : Nat) : List Nat :=
  [w / 16777216 % 256, w / 65536 % 256, w / 256 % 256, w % 256]

def digestBytes (st : Hash8) : List Nat :=
  wordBytes st.a ++ wordBytes st.b ++ wordBytes st.c ++ wordBytes st.d ++
    wordBytes st.e ++ wordBytes st.f ++ wordBytes st.g ++ wordBytes st.h

def sha256 (msg : List Nat) : List Nat :=
  digestBytes (processBlocks shaH0 (shaPad msg))

/-- Lowercase hexadecimal digit, as `encoding/hex` produces. -/
def hexDigit (d : Nat) : Char := Char.ofNat (if d < 10 then 48 + d else 87 + d)

def hexChars (bs : List Nat) : List Char :=
  (bs.map (fun b => [hexDigit (b / 16), hexDigit (b % 16)])).flatten

def hexEncode (bs : List Nat) : String := String.mk (hexChars bs)

/-- UTF-8 encoding of one character (Go strings are UTF-8 byte sequences). -/
def utf8Char (c : Char) : List Nat :=
  let n := c.toNat
  if n < 128 then [n]
  else if n < 2048 then [192 + n / 64, 128 + n % 64]
  else if n < 65536 then [224 + n / 4096, 128 + n / 64 % 64, 128 + n % 64]
  else [240 + n / 262144, 128 + n / 4096 % 64, 128 + n / 64 % 64, 128 + n % 64]

def utf8Bytes (s : String) : List Nat := (s.data.map utf8Char).flatten

/-- `ReplayID` (src/engine/artifact.go): hex of the SHA-256 digest of
`scenarioID|seed|version`. -/
def ReplayID (scenarioID : String) (seed : Int) (version : String) : String :=
  hexEncode (sha256 (utf8Bytes (scenarioID ++ "|" ++ Int.repr seed ++ "|" ++ version)))

/-! ## The engine entry point (`Run`) -/

/-- Modelled from the spec: the run's deterministic pseudo-random class
sampler.  `Run` seeds Go's `math/rand` with the configuration seed and draws
one `Float64` per arrival, mapping it through the fixed categorical thresholds
0.55 / 0.85 (`pickClass` in sim.go); the generator itself (`math/rand`) is
outside the repository source.  Per §4.3 of the spec the only property the
engine relies on is that the draw sequence is a deterministic function of the
seed with values in the class set, which any concrete deterministic stream
realises; every theorem below either quantifies over the stream or does not
depend on its values. -/
def goClassStream (seed : Int) (n : Nat) : String :=
  let r := (seed.natAbs * 2654435761 + n * 2246822519 + 3266489917) % 100
  if r < 55 then ClassAnon else if r < 85 then ClassFree else ClassPaid

/-- `Run` parameterized by the class-draw stream. -/
def RunWith (picks : Nat → String) (cfg : Config) : Except String Artifact :=
  let sid := if cfg.scenarioId = "" then ScenarioID else cfg.scenarioId
  if sid = ScenarioID then
    let sim := runSim picks
    if sim.events.length = 0 then Except.error "no events produced"
    else Except.ok
      { metadata :=
          { scenarioId := sid, seed := cfg.seed, engineVersion := EngineVersion,
            replayId := ReplayID sid cfg.seed EngineVersion,
            tickCount := TickCount, tickDurationMs := TickDurationMs,
            totalDurationMs := TotalDurationMs },
        snapshots := sim.snapshots, events := sim.events }
  else Except.error ("unknown scenario_id: " ++ sid)

/-- `Run` (src/engine/sim.go). -/
def Run (cfg : Config) : Except String Artifact :=
  RunWith (goClassStream cfg.seed) cfg

/-! ## Basic lemmas: the trace is append-only -/

theorem enqueue_events (s : SimState) (i : Nat) (c : String) :
    (enqueue s i c).events = s.events := by
  unfold enqueue
  split
  · rfl
  · split <;> rfl

theorem enqueue_queueTotal (s : SimState) (i : Nat) (c : String) :
    queueTotal (enqueue s i c) = queueTotal s + 1 := by
  unfold enqueue queueTotal
  split
  · simp; omega
  · split <;> simp <;> omega

theorem processArrival_events (tick : Nat) (cls : String) (s : SimState) :
    ∃ e : Event, (processArrival tick cls s).events = s.events ++ [e] := by
  unfold processArrival
  dsimp only
  split
  · exact ⟨_, rfl⟩
  · refine ⟨queueEvent tick (mkToken s.nextID cls tick), ?_⟩
    rw [enqueue_events]

theorem processArrivalList_events (tick : Nat) (cs : List String) (s : SimState) :
    ∃ l : List Event, (processArrivalList tick cs s).events = s.events ++ l ∧
      l.length = cs.length := by
  induction cs generalizing s with
  | nil => exact ⟨[], by simp [processArrivalList]⟩
  | cons c rest ih =>
    obtain ⟨e, he⟩ := processArrival_events tick c s
    obtain ⟨l, hl, hlen⟩ := ih (processArrival tick c s)
    exact ⟨[e] ++ l, by simp [processArrivalList, hl, he, hlen]⟩

theorem nextService_events (tick : Nat) (s : SimState) :
    ∃ l : List Event, (nextService tick s).events = s.events ++ l :=
  ⟨_, rfl⟩

theorem popNextQueued_events (s : SimState) (i : Nat) (s' : SimState)
    (h : popNextQueued s = some (i, s')) : s'.events = s.events := by
  unfold popNextQueued at h
  rcases hp : s.paidQueue with _ | ⟨a, rest⟩ <;> rw [hp] at h
  · rcases hf : s.freeQueue with _ | ⟨a, rest⟩ <;> rw [hf] at h
    · rcases ha : s.anonQueue with _ | ⟨a, rest⟩ <;> rw [ha] at h
      · simp at h
      · simp at h; obtain ⟨h1, h2⟩ := h; subst h2; rfl
    · simp at h; obtain ⟨h1, h2⟩ := h; subst h2; rfl
  · simp at h; obtain ⟨h1, h2⟩ := h; subst h2; rfl

theorem scheduleLoop_events (tick : Nat) (fuel : Nat) (s : SimState) :
    ∃ l : List Event, (scheduleLoop tick fuel s).events = s.events ++ l := by
  induction fuel generalizing s with
  | zero => exact ⟨[], by simp [scheduleLoop]⟩
  | succ n ih =>
    unfold scheduleLoop
    rcases hp : popNextQueued s with _ | ⟨i, s1⟩
    · exact ⟨[], by simp⟩
    · obtain ⟨l, hl⟩ := ih _
      refine ⟨schedEvent tick (s1.tokens.getD i default) :: l, ?_⟩
      rw [hl]
      simp [popNextQueued_events s i s1 hp]

theorem arrivals_events (picks : Nat → String) (tick : Nat) (s : SimState) :
    ∃ l : List Event, (arrivals picks tick s).events = s.events ++ l ∧
      l.length = arrivalCount tick := by
  unfold arrivals
  obtain ⟨l, hl, hlen⟩ := processArrivalList_events tick
    (arrivalClasses picks s.rngIndex tick (arrivalCount tick))
    { s with rngIndex := s.rngIndex + arrivalCount tick }
  refine ⟨l, hl, ?_⟩
  rw [hlen]
  unfold arrivalClasses
  split <;> simp

theorem step_events (picks : Nat → String) (tick : Nat) (s : SimState) :
    ∃ l : List Event, (step picks tick s).events = s.events ++ l ∧
      arrivalCount tick ≤ l.length := by
  obtain ⟨l1, h1⟩ := nextService_events tick s
  obtain ⟨l2, h2, hc⟩ := arrivals_events picks tick (nextService tick s)
  obtain ⟨l3, h3⟩ := scheduleLoop_events tick
    (capacity - (arrivals picks tick (nextService tick s)).inService.length)
    (arrivals picks tick (nextService tick s))
  refine ⟨l1 ++ l2 ++ l3, ?_, ?_⟩
  · show (updateQueueIndices (schedule tick (arrivals picks tick (nextService tick s)))).events
      = s.events ++ (l1 ++ l2 ++ l3)
    unfold updateQueueIndices schedule
    dsimp only
    rw [h3, h2, h1]
    simp
  · simp [hc]
    omega

theorem stateAfter_events_mono (picks : Nat → String) (n : Nat) :
    (stateAfter picks n).events.length ≤ (stateAfter picks (n + 1)).events.length := by
  obtain ⟨l, hl, _⟩ := step_events picks n (stateAfter picks n)
  show _ ≤ (step picks n (stateAfter picks n)).events.length
  rw [hl]
  simp

theorem stateAfter_events_le (picks : Nat → String) {n m : Nat} (h : n ≤ m) :
    (stateAfter picks n).events.length ≤ (stateAfter picks m).events.length := by
  induction m with
  | zero => simp_all
  | succ k ih =>
    rcases Nat.lt_or_ge n (k + 1) with hlt | hge
    · exact le_trans (ih (by omega)) (stateAfter_events_mono picks k)
    · have : n = k + 1 := by omega
      subst this
      exact le_refl _

/-- Tick 0 records at least one event (its single arrival emits exactly one). -/
theorem stateAfter_one_events (picks : Nat → String) :
    1 ≤ (stateAfter picks 1).events.length := by
  obtain ⟨l, hl, hc⟩ := step_events picks 0 initState
  show 1 ≤ (step picks 0 initState).events.length
  rw [hl]
  have : arrivalCount 0 = 1 := rfl
  simp [initState]
  omega

theorem runSim_events_ne (picks : Nat → String) :
    (runSim picks).events.length ≠ 0 := by
  have h1 := stateAfter_one_events picks
  have h2 := stateAfter_events_le picks (show 1 ≤ TickCount by decide)
  unfold runSim
  omega

/-- On a recognized (or defaulted) scenario identifier, `RunWith` returns the
complete artifact. -/
theorem RunWith_ok (picks : Nat → String) (cfg : Config)
    (h : cfg.scenarioId = "" ∨ cfg.scenarioId = ScenarioID) :
    RunWith picks cfg = Except.ok
      { metadata :=
          { scenarioId := ScenarioID, seed := cfg.seed, engineVersion := EngineVersion,
            replayId := ReplayID ScenarioID cfg.seed EngineVersion,
            tickCount := TickCount, tickDurationMs := TickDurationMs,
            totalDurationMs := TotalDurationMs },
        snapshots := (runSim picks).snapshots, events := (runSim picks).events } := by
  unfold RunWith
  have hne := runSim_events_ne picks
  rcases h with h | h <;> simp [h, hne]

/-- On an unknown (non-empty, non-canonical) scenario identifier, `RunWith`
fails with a descriptive error. -/
theorem RunWith_error (picks : Nat → String) (cfg : Config)
    (h1 : cfg.scenarioId ≠ "") (h2 : cfg.scenarioId ≠ ScenarioID) :
    RunWith picks cfg = Except.error ("unknown scenario_id: " ++ cfg.scenarioId) := by
  unfold RunWith
  simp [h1, h2]

/-! ## Claim C1: determinism -/

/-- C1.  Determinism: `Run` is a pure function of the configuration (scenario
identifier, seed); two invocations on equal configurations produce identical
results — identical metadata (replay identifier included), snapshot sequence,
and event sequence. -/
theorem run_deterministic (cfg₁ cfg₂ : Config)
    (hs : cfg₁.scenarioId = cfg₂.scenarioId) (hd : cfg₁.seed = cfg₂.seed) :
    Run cfg₁ = Run cfg₂ ∧
    (∀ a₁ a₂ : Artifact, Run cfg₁ = Except.ok a₁ → Run cfg₂ = Except.ok a₂ →
      a₁.metadata = a₂.metadata ∧ a₁.metadata.replayId = a₂.metadata.replayId ∧
      a₁.snapshots = a₂.snapshots ∧ a₁.events = a₂.events) := by
  obtain ⟨s₁, d₁⟩ := cfg₁
  obtain ⟨s₂, d₂⟩ := cfg₂
  cases hs
  cases hd
  refine ⟨rfl, ?_⟩
  intro a₁ a₂ h₁ h₂
  rw [h₁] at h₂
  injection h₂ with h
  subst h
  exact ⟨rfl, rfl, rfl, rfl⟩

/-- Witness for C1 at a concrete configuration. -/
theorem run_deterministic_witness :
    Run { scenarioId := "canonical_v1", seed := 1 } =
      Run { scenarioId := "canonical_v1", seed := 1 } :=
  (run_deterministic { scenarioId := "canonical_v1", seed := 1 }
    { scenarioId := "canonical_v1", seed := 1 } rfl rfl).1

/-! ## Claim C2: admission/rejection policy -/

/-- C2.  Admission policy: an arrival is rejected iff it is of the
lowest-priority class (ANON) and the combined queue length, measured before
the arrival is added, is at least the rejection threshold 12; a rejection
leaves the queues untouched and emits exactly one REJECT event with reason
REJECT_OVERLOAD, while every other arrival is enqueued and emits exactly one
QUEUE event with reason QUEUE_ADMISSION. -/
theorem admission_policy (s : SimState) (cls : String) (tick : Nat) :
    rejectThreshold = 12 ∧
    (shouldReject s cls = true ↔ (cls = ClassAnon ∧ 12 ≤ queueTotal s)) ∧
    (cls = ClassAnon → 12 ≤ queueTotal s →
      processArrival tick cls s =
        { s with
          nextID := s.nextID + 1,
          tokens := s.tokens ++
            [{ mkToken s.nextID cls tick with
                state := StateRejected, stageId := StageRejected, queueIndex := -1 }],
          events := s.events ++
            [{ tick := tick, etype := EventReject, reasonCode := ReasonRejectOverload,
               tokenId := tokenName s.nextID, stageId := StageRejected, cls := cls }] }) ∧
    ((cls ≠ ClassAnon ∨ queueTotal s < 12) →
      processArrival tick cls s =
        { enqueue
            { s with
              nextID := s.nextID + 1,
              tokens := s.tokens ++
                [{ mkToken s.nextID cls tick with
                    state := StateQueued, stageId := StageQueue, queueIndex := -1 }] }
            s.nextID cls with
          events := s.events ++
            [{ tick := tick, etype := EventQueue, reasonCode := ReasonQueueAdmission,
               tokenId := tokenName s.nextID, stageId := StageQueue, cls := cls }] } ∧
      queueTotal (processArrival tick cls s) = queueTotal s + 1) := by
  refine ⟨rfl, by simp [shouldReject, rejectThreshold], ?_, ?_⟩
  · intro hc hq
    unfold processArrival
    rw [if_pos (by simp [shouldReject, rejectThreshold, hc, hq])]
    rfl
  · intro h
    have hsr : shouldReject s cls = false := by
      simp only [shouldReject, rejectThreshold, decide_eq_false_iff_not]
      intro hcq
      rcases h with h | h
      · exact h hcq.1
      · omega
    constructor
    · unfold processArrival
      rw [if_neg (by simp [hsr])]
      dsimp only
      rw [enqueue_events]
      rfl
    · unfold processArrival
      rw [if_neg (by simp [hsr])]
      dsimp only
      have hqt := enqueue_queueTotal
        { s with
          nextID := s.nextID + 1,
          tokens := s.tokens ++
            [{ mkToken s.nextID cls tick with
                state := StateQueued, stageId := StageQueue, queueIndex := -1 }] }
        s.nextID cls
      simpa [queueTotal] using hqt

/-- Witness for C2: a PAID arrival into the empty state is queued (queue total
grows by one), and an ANON arrival with twelve requests already queued is
rejected. -/
theorem admission_policy_witness :
    queueTotal (processArrival 0 ClassPaid initState) = queueTotal initState + 1 ∧
    shouldReject { initState with anonQueue := List.range 12 } ClassAnon = true :=
  ⟨((admission_policy initState ClassPaid 0).2.2.2 (Or.inl (by decide))).2,
   ((admission_policy { initState with anonQueue := List.range 12 } ClassAnon 3).2.1).2
     ⟨rfl, by decide⟩⟩

/-! ## Claims C7 and C10: failure cases of `Run` -/

/-- C7.  `Run` fails exactly on (a) an unknown non-empty scenario identifier
(the empty identifier is defaulted to the canonical scenario and accepted),
and (b) a completed run that recorded zero events; in every other case it
returns a complete artifact.  (Case (b) is stated as the code's branch; by
`runSim_events_ne` it never fires.) -/
theorem run_failure_cases :
    (∀ (picks : Nat → String) (cfg : Config),
      (∃ msg, RunWith picks cfg = Except.error msg) ↔
        ((cfg.scenarioId ≠ "" ∧ cfg.scenarioId ≠ ScenarioID) ∨
          (runSim picks).events.length = 0)) ∧
    (∀ (picks : Nat → String) (cfg : Config),
      (cfg.scenarioId = "" ∨ cfg.scenarioId = ScenarioID) →
      (runSim picks).events.length = 0 →
      RunWith picks cfg = Except.error "no events produced") ∧
    (∀ cfg : Config, cfg.scenarioId ≠ "" → cfg.scenarioId ≠ ScenarioID →
      Run cfg = Except.error ("unknown scenario_id: " ++ cfg.scenarioId)) ∧
    (∀ cfg : Config, cfg.scenarioId = "" ∨ cfg.scenarioId = ScenarioID →
      ∃ a : Artifact, Run cfg = Except.ok a) := by
  refine ⟨?_, ?_, ?_, ?_⟩
  · intro picks cfg
    constructor
    · rintro ⟨msg, hm⟩
      by_cases h : cfg.scenarioId = "" ∨ cfg.scenarioId = ScenarioID
      · rw [RunWith_ok picks cfg h] at hm
        cases hm
      · push_neg at h
        exact Or.inl h
    · rintro (⟨h1, h2⟩ | h0)
      · exact ⟨_, RunWith_error picks cfg h1 h2⟩
      · exact absurd h0 (runSim_events_ne picks)
  · intro picks cfg h h0
    unfold RunWith
    rcases h with h | h <;> simp [h, h0]
  · intro cfg h1 h2
    exact RunWith_error _ cfg h1 h2
  · intro cfg h
    exact ⟨_, RunWith_ok _ cfg h⟩

/-- Witness for C7: a concrete unknown scenario fails with the descriptive
error, and the empty identifier is defaulted and succeeds. -/
theorem run_failure_cases_witness :
    Run { scenarioId := "bogus", seed := 0 } =
      Except.error ("unknown scenario_id: " ++ "bogus") ∧
    ∃ a : Artifact, Run { scenarioId := "", seed := 3 } = Except.ok a :=
  ⟨run_failure_cases.2.2.1 _ (by decide) (by decide),
   run_failure_cases.2.2.2 _ (Or.inl rfl)⟩

/-- C10.  The zero-events failure branch is unreachable for the supported
scenario: the arrival-count function is at least 1 on every tick, every
arrival emits exactly one event, hence every run has events and `Run` on the
canonical scenario always returns an artifact, for every seed. -/
theorem canonical_zero_events_unreachable :
    (∀ t, t < TickCount → 1 ≤ arrivalCount t) ∧
    (∀ (tick : Nat) (cls : String) (s : SimState),
      ∃ e : Event, (processArrival tick cls s).events = s.events ++ [e]) ∧
    (∀ picks : Nat → String, (runSim picks).events.length ≠ 0) ∧
    (∀ seed : Int, ∃ a : Artifact,
      Run { scenarioId := ScenarioID, seed := seed } = Except.ok a) := by
  refine ⟨by decide, processArrival_events, runSim_events_ne, ?_⟩
  intro seed
  exact ⟨_, RunWith_ok _ _ (Or.inr rfl)⟩

/-- Witness for C10 at a concrete tick and seed. -/
theorem canonical_zero_events_unreachable_witness :
    1 ≤ arrivalCount 100 ∧
    ∃ a : Artifact, Run { scenarioId := ScenarioID, seed := 7 } = Except.ok a :=
  ⟨canonical_zero_events_unreachable.1 100 (by decide),
   canonical_zero_events_unreachable.2.2.2 7⟩

/-! ## Claim C8: the replay identifier -/

theorem wordBytes_lt (w : Nat) : ∀ b ∈ wordBytes w, b < 256 := by
  intro b hb
  simp only [wordBytes, List.mem_cons, List.not_mem_nil, or_false] at hb
  rcases hb with rfl | rfl | rfl | rfl <;> exact Nat.mod_lt _ (by omega)

theorem digestBytes_length (st : Hash8) : (digestBytes st).length = 32 := rfl

theorem digestBytes_lt (st : Hash8) : ∀ b ∈ digestBytes st, b < 256 := by
  intro b hb
  simp only [digestBytes, List.mem_append] at hb
  rcases hb with ((((((hb | hb) | hb) | hb) | hb) | hb) | hb) | hb <;>
    exact wordBytes_lt _ b hb

theorem sha256_length (msg : List Nat) : (sha256 msg).length = 32 :=
  digestBytes_length _

theorem sha256_lt (msg : List Nat) : ∀ b ∈ sha256 msg, b < 256 :=
  digestBytes_lt _

theorem hexChars_length (bs : List Nat) : (hexChars bs).length = 2 * bs.length := by
  induction bs with
  | nil => rfl
  | cons b rest ih =>
    simp only [hexChars, List.map_cons, List.flatten_cons, List.length_append,
      List.length_cons, List.length_nil, List.length_map] at *
    omega

theorem hexDigit_mem : ∀ d, d < 16 → hexDigit d ∈ ("0123456789abcdef").data := by
  decide

theorem hexChars_mem (bs : List Nat) (hb : ∀ b ∈ bs, b < 256) :
    ∀ c ∈ hexChars bs, c ∈ ("0123456789abcdef").data := by
  induction bs with
  | nil => intro c hc; simp [hexChars] at hc
  | cons b rest ih =>
    intro c hc
    have hblt : b < 256 := hb b (by simp)
    simp only [hexChars, List.map_cons, List.flatten_cons, List.mem_append,
      List.mem_cons, List.not_mem_nil, or_false] at hc
    rcases hc with (rfl | rfl) | hc
    · exact hexDigit_mem _ (by omega)
    · exact hexDigit_mem _ (Nat.mod_lt _ (by omega))
    · exact ih (fun x hx => hb x (by simp [hx])) c hc

/-- The digest rendered as a natural number, base 256 little-endian. -/
def bytesToNat : List Nat → Nat
  | [] => 0
  | b :: rest => b + 256 * bytesToNat rest

theorem bytesToNat_lt : ∀ l : List Nat, (∀ b ∈ l, b < 256) →
    bytesToNat l < 256 ^ l.length := by
  intro l
  induction l with
  | nil => intro _; simp [bytesToNat]
  | cons b rest ih =>
    intro h
    have hb : b < 256 := h b (by simp)
    have hr := ih (fun x hx => h x (by simp [hx]))
    simp only [bytesToNat, List.length_cons, pow_succ]
    calc b + 256 * bytesToNat rest < 256 + 256 * bytesToNat rest := by omega
    _ ≤ 256 * (bytesToNat rest + 1) := by ring_nf; omega
    _ ≤ 256 * 256 ^ rest.length := by
        have : bytesToNat rest + 1 ≤ 256 ^ rest.length := hr
        exact Nat.mul_le_mul_left _ this
    _ = 256 ^ rest.length * 256 := by ring

theorem bytesToNat_inj : ∀ l₁ l₂ : List Nat, l₁.length = l₂.length →
    (∀ b ∈ l₁, b < 256) → (∀ b ∈ l₂, b < 256) →
    bytesToNat l₁ = bytesToNat l₂ → l₁ = l₂ := by
  intro l₁
  induction l₁ with
  | nil =>
    intro l₂ hlen _ _ _
    cases l₂ with
    | nil => rfl
    | cons _ _ => simp at hlen
  | cons b rest ih =>
    intro l₂ hlen h1 h2 hval
    cases l₂ with
    | nil => simp at hlen
    | cons b' rest' =>
      have hb : b < 256 := h1 b (by simp)
      have hb' : b' < 256 := h2 b' (by simp)
      simp only [bytesToNat] at hval
      have hbe : b = b' ∧ bytesToNat rest = bytesToNat rest' := by omega
      have := ih rest' (by simpa using hlen)
        (fun x hx => h1 x (by simp [hx])) (fun x hx => h2 x (by simp [hx])) hbe.2
      rw [hbe.1, this]

/-- The SHA-256 digest of the replay-identifier preimage of `(s, 0, "")`, as
an element of the finite type `Fin (256 ^ 32)`. -/
def digestFin (s : String) : Fin (256 ^ 32) :=
  ⟨bytesToNat (sha256 (utf8Bytes (s ++ "|" ++ Int.repr 0 ++ "|" ++ ""))), by
    have h := bytesToNat_lt _ (sha256_lt (utf8Bytes (s ++ "|" ++ Int.repr 0 ++ "|" ++ "")))
    rwa [sha256_length] at h⟩

theorem digestFin_val (s : String) :
    (digestFin s).val = bytesToNat (sha256 (utf8Bytes (s ++ "|" ++ Int.repr 0 ++ "|" ++ ""))) :=
  rfl

/-- Counterexample for C8 as stated: the universal sensitivity clause
(changing the scenario identifier always changes the replay identifier) is
false — `ReplayID` maps the infinitely many scenario identifiers into the
finitely many 256-bit digests, so by pigeonhole two distinct identifiers
collide (non-constructively). -/
theorem replay_sensitivity_counterexample :
    ¬ (∀ (s₁ s₂ : String) (seed : Int) (v : String),
        s₁ ≠ s₂ → ReplayID s₁ seed v ≠ ReplayID s₂ seed v) := by
  intro H
  obtain ⟨x, y, hne, heq⟩ := Finite.exists_ne_map_eq_of_infinite digestFin
  have hv : bytesToNat (sha256 (utf8Bytes (x ++ "|" ++ Int.repr 0 ++ "|" ++ ""))) =
      bytesToNat (sha256 (utf8Bytes (y ++ "|" ++ Int.repr 0 ++ "|" ++ ""))) := by
    rw [← digestFin_val x, ← digestFin_val y]
    exact congrArg Fin.val heq
  have hbytes := bytesToNat_inj
    (sha256 (utf8Bytes (x ++ "|" ++ Int.repr 0 ++ "|" ++ "")))
    (sha256 (utf8Bytes (y ++ "|" ++ Int.repr 0 ++ "|" ++ "")))
    (by rw [sha256_length, sha256_length]) (sha256_lt _) (sha256_lt _) hv
  have hR : ReplayID x 0 "" = ReplayID y 0 "" := by
    unfold ReplayID
    rw [hbytes]
  exact H x y 0 "" hne hR

set_option maxHeartbeats 4000000 in
/-- C8 (amended).  `ReplayID` is the hex-rendered SHA-256 of
`scenario|seed|version`: it is always a 64-character string of hexadecimal
digits, equal inputs always yield equal identifiers, and sensitivity holds in
the claim's concrete instances — for the canonical scenario under the fixed
engine version, seeds 1 and 2 give different identifiers, as do a changed
scenario identifier and a changed engine version (universal sensitivity is
refuted by `replay_sensitivity_counterexample`).

Concrete digest inequalities are decided by kernel evaluation of the embedded
SHA-256, which needs a raised heartbeat budget. -/
theorem replay_id_properties :
    (∀ (sc : String) (seed : Int) (v : String),
      ReplayID sc seed v =
        hexEncode (sha256 (utf8Bytes (sc ++ "|" ++ Int.repr seed ++ "|" ++ v)))) ∧
    (∀ (sc : String) (seed : Int) (v : String), (ReplayID sc seed v).length = 64) ∧
    (∀ (sc : String) (seed : Int) (v : String),
      ∀ c ∈ (ReplayID sc seed v).data, c ∈ ("0123456789abcdef").data) ∧
    (∀ (sc₁ sc₂ : String) (seed₁ seed₂ : Int) (v₁ v₂ : String),
      sc₁ = sc₂ → seed₁ = seed₂ → v₁ = v₂ →
      ReplayID sc₁ seed₁ v₁ = ReplayID sc₂ seed₂ v₂) ∧
    ReplayID ScenarioID 1 EngineVersion ≠ ReplayID ScenarioID 2 EngineVersion ∧
    ReplayID ScenarioID 1 EngineVersion ≠ ReplayID "canonical_v2" 1 EngineVersion ∧
    ReplayID ScenarioID 1 EngineVersion ≠ ReplayID ScenarioID 1 "0.2.0" := by
  refine ⟨fun _ _ _ => rfl, ?_, ?_, ?_, ?_, ?_, ?_⟩
  · intro sc seed v
    show (hexChars (sha256 _)).length = 64
    rw [hexChars_length, sha256_length]
  · intro sc seed v c hc
    exact hexChars_mem _ (sha256_lt _) c hc
  · intro sc₁ sc₂ seed₁ seed₂ v₁ v₂ h1 h2 h3
    rw [h1, h2, h3]
  · decide
  · decide
  · decide

/-- Witness for C8 at the concrete scenario of the claim. -/
theorem replay_id_properties_witness :
    (ReplayID "canonical_v1" 1 "0.1.0").length = 64 ∧
    ReplayID ScenarioID 1 EngineVersion ≠ ReplayID ScenarioID 2 EngineVersion :=
  ⟨replay_id_properties.2.1 "canonical_v1" 1 "0.1.0",
   replay_id_properties.2.2.2.2.1⟩

/-! ## Injectivity of the token-name rendering

`fmt.Sprintf("T%04d", n)` is injective: parsing the decimal digits back
(ignoring the zero padding) recovers `n`. -/

/-- Parse a most-significant-first decimal digit string. -/
def parseDec (cs : List Char) : Nat := cs.foldl (fun acc c => 10 * acc + (c.toNat - 48)) 0

theorem parseDec_from (cs : List Char) (a : Nat) :
    List.foldl (fun acc c => 10 * acc + (c.toNat - 48)) a cs =
      a * 10 ^ cs.length + parseDec cs := by
  induction cs generalizing a with
  | nil => simp [parseDec]
  | cons c rest ih =>
    simp only [parseDec, List.foldl_cons, List.length_cons]
    rw [ih, ih (10 * 0 + (c.toNat - 48))]
    ring

theorem digitChar_toNat (d : Nat) (h : d < 10) : (digitChar d).toNat = 48 + d := by
  interval_cases d <;> decide

theorem decDigits_lt (n : Nat) : ∀ d ∈ decDigits n, d < 10 := by
  induction n using Nat.strong_induction_on with
  | _ n ih =>
    intro d hd
    unfold decDigits at hd
    by_cases h : n < 10
    · simp [h] at hd
      omega
    · simp [h] at hd
      rcases hd with rfl | hd
      · exact Nat.mod_lt _ (by omega)
      · exact ih (n / 10) (Nat.div_lt_self (by omega) (by omega)) d hd

theorem parseDec_decChars (n : Nat) : parseDec (decChars n) = n := by
  induction n using Nat.strong_induction_on with
  | _ n ih =>
    unfold decChars decDigits
    by_cases h : n < 10
    · simp only [h, dif_pos, List.reverse_cons, List.reverse_nil, List.nil_append,
        List.map_cons, List.map_nil, parseDec, List.foldl_cons, List.foldl_nil]
      rw [digitChar_toNat n h]
      omega
    · simp only [h, dif_neg, not_false_iff, List.reverse_cons, List.map_append,
        List.map_cons, List.map_nil]
      have hrec := ih (n / 10) (Nat.div_lt_self (by omega) (by omega))
      unfold parseDec
      rw [List.foldl_append]
      show List.foldl _ (parseDec (decChars (n / 10))) _ = n
      rw [hrec]
      simp only [List.foldl_cons, List.foldl_nil]
      rw [digitChar_toNat (n % 10) (Nat.mod_lt _ (by omega))]
      omega

theorem parseDec_pad (k : Nat) (cs : List Char) :
    parseDec (List.replicate k '0' ++ cs) = parseDec cs := by
  induction k with
  | zero => simp
  | succ m ih =>
    show parseDec ('0' :: (List.replicate m '0' ++ cs)) = parseDec cs
    unfold parseDec at *
    simp only [List.foldl_cons]
    have h0 : (10 * 0 + ('0'.toNat - 48)) = 0 := by decide
    rw [h0]
    exact ih

theorem tokenName_inj : Function.Injective tokenName := by
  intro a b hab
  unfold tokenName at hab
  have hdata : 'T' :: (List.replicate (4 - (decChars a).length) '0' ++ decChars a) =
      'T' :: (List.replicate (4 - (decChars b).length) '0' ++ decChars b) :=
    congrArg String.data hab
  have htail := List.tail_eq_of_cons_eq hdata
  have := congrArg parseDec htail
  rwa [parseDec_pad, parseDec_pad, parseDec_decChars, parseDec_decChars] at this

/-! ## State-machine support: store access and pop characterization -/

/-- The token stored at index `i` (Go: the `*Token` the queues alias). -/
def tokAt (s : SimState) (i : Nat) : Token := s.tokens.getD i default

/-- All indices referenced by the queues and the in-service set. -/
def allIds (s : SimState) : List Nat := idsOf s ++ s.inService

/-- The per-token effect of the completion phase: decrement, and retire at
zero or below. -/
def serviceUpd (t : Token) : Token :=
  let t1 := { t with serviceRemaining := t.serviceRemaining - 1 }
  if t1.serviceRemaining ≤ 0 then completeToken t1 else t1

theorem getD_set_ne {α : Type} [Inhabited α] (l : List α) (i j : Nat) (a : α)
    (h : i ≠ j) : (l.set i a).getD j default = l.getD j default := by
  rw [List.getD_eq_getElem?_getD, List.getD_eq_getElem?_getD, List.getElem?_set_ne h]

theorem getD_set_self {α : Type} [Inhabited α] (l : List α) (i : Nat) (a : α)
    (h : i < l.length) : (l.set i a).getD i default = a := by
  rw [List.getD_eq_getElem?_getD, List.getElem?_set_self (by simpa using h)]
  rfl

theorem popNextQueued_none_iff (s : SimState) :
    popNextQueued s = none ↔ idsOf s = [] := by
  unfold popNextQueued idsOf
  rcases s.paidQueue with _ | ⟨a, p⟩ <;> rcases s.freeQueue with _ | ⟨b, f⟩ <;>
    rcases s.anonQueue with _ | ⟨c, q⟩ <;> simp

theorem popNextQueued_fields (s : SimState) (i : Nat) (s' : SimState)
    (h : popNextQueued s = some (i, s')) :
    s'.tokens = s.tokens ∧ s'.inService = s.inService ∧ s'.events = s.events ∧
    s'.nextID = s.nextID ∧ s'.snapshots = s.snapshots ∧ s'.rngIndex = s.rngIndex := by
  unfold popNextQueued at h
  rcases hp : s.paidQueue with _ | ⟨a, p⟩ <;> rw [hp] at h
  · rcases hf : s.freeQueue with _ | ⟨b, f⟩ <;> rw [hf] at h
    · rcases ha : s.anonQueue with _ | ⟨c, q⟩ <;> rw [ha] at h
      · simp at h
      · simp at h
        obtain ⟨-, h2⟩ := h
        subst h2
        exact ⟨rfl, rfl, rfl, rfl, rfl, rfl⟩
    · simp at h
      obtain ⟨-, h2⟩ := h
      subst h2
      exact ⟨rfl, rfl, rfl, rfl, rfl, rfl⟩
  · simp at h
    obtain ⟨-, h2⟩ := h
    subst h2
    exact ⟨rfl, rfl, rfl, rfl, rfl, rfl⟩

theorem popNextQueued_queues (s : SimState) (i : Nat) (s' : SimState)
    (h : popNextQueued s = some (i, s')) :
    (s.paidQueue = i :: s'.paidQueue ∧ s'.freeQueue = s.freeQueue ∧
      s'.anonQueue = s.anonQueue) ∨
    (s.paidQueue = [] ∧ s'.paidQueue = [] ∧ s.freeQueue = i :: s'.freeQueue ∧
      s'.anonQueue = s.anonQueue) ∨
    (s.paidQueue = [] ∧ s'.paidQueue = [] ∧ s.freeQueue = [] ∧ s'.freeQueue = [] ∧
      s.anonQueue = i :: s'.anonQueue) := by
  unfold popNextQueued at h
  rcases hp : s.paidQueue with _ | ⟨a, p⟩ <;> rw [hp] at h
  · rcases hf : s.freeQueue with _ | ⟨b, f⟩ <;> rw [hf] at h
    · rcases ha : s.anonQueue with _ | ⟨c, q⟩ <;> rw [ha] at h
      · simp at h
      · simp at h
        obtain ⟨h1, h2⟩ := h
        subst h1 h2
        exact Or.inr (Or.inr ⟨rfl, rfl, rfl, rfl, rfl⟩)
    · simp at h
      obtain ⟨h1, h2⟩ := h
      subst h1 h2
      exact Or.inr (Or.inl ⟨rfl, rfl, rfl, rfl⟩)
  · simp at h
    obtain ⟨h1, h2⟩ := h
    subst h1 h2
    exact Or.inl ⟨rfl, rfl, rfl⟩

theorem popNextQueued_ids (s : SimState) (i : Nat) (s' : SimState)
    (h : popNextQueued s = some (i, s')) : idsOf s = i :: idsOf s' := by
  rcases popNextQueued_queues s i s' h with ⟨h1, h2, h3⟩ | ⟨h1, h2, h3, h4⟩ |
    ⟨h1, h2, h3, h4, h5⟩ <;> unfold idsOf <;> simp [h1, h2, h3]
  · simp [h4]
  · simp [h4, h5]

/-! ## Closed form of the scheduling loop

With `fuel` units of spare capacity, the loop pops exactly the first `fuel`
entries of the priority-ordered queue concatenation (fewer if the queues
drain), admits each into service with the fixed service time, and emits one
SCHEDULE event per admission, in pop order. -/

theorem scheduleLoop_spec (tick : Nat) (fuel : Nat) (s : SimState)
    (hnd : (idsOf s).Nodup) (hlt : ∀ i ∈ idsOf s, i < s.tokens.length) :
    (scheduleLoop tick fuel s).nextID = s.nextID ∧
    (scheduleLoop tick fuel s).rngIndex = s.rngIndex ∧
    (scheduleLoop tick fuel s).snapshots = s.snapshots ∧
    (scheduleLoop tick fuel s).paidQueue = s.paidQueue.drop fuel ∧
    (scheduleLoop tick fuel s).freeQueue = s.freeQueue.drop (fuel - s.paidQueue.length) ∧
    (scheduleLoop tick fuel s).anonQueue =
      s.anonQueue.drop (fuel - s.paidQueue.length - s.freeQueue.length) ∧
    (scheduleLoop tick fuel s).inService = s.inService ++ (idsOf s).take fuel ∧
    (scheduleLoop tick fuel s).events = s.events ++
      ((idsOf s).take fuel).map (fun j => schedEvent tick (s.tokens.getD j default)) ∧
    (scheduleLoop tick fuel s).tokens.length = s.tokens.length ∧
    (∀ j ∈ (idsOf s).take fuel,
      (scheduleLoop tick fuel s).tokens.getD j default =
        admitToken (s.tokens.getD j default)) ∧
    (∀ j, j ∉ (idsOf s).take fuel →
      (scheduleLoop tick fuel s).tokens.getD j default = s.tokens.getD j default) := by
  induction fuel generalizing s with
  | zero =>
    refine ⟨rfl, rfl, rfl, by simp [scheduleLoop], by simp [scheduleLoop],
      by simp [scheduleLoop], by simp [scheduleLoop], by simp [scheduleLoop],
      rfl, by simp, fun j _ => rfl⟩
  | succ fuel ih =>
    have hunf : scheduleLoop tick (fuel + 1) s = (match popNextQueued s with
      | none => s
      | some (i, s1) => scheduleLoop tick fuel
          { s1 with
            tokens := s1.tokens.set i (admitToken (s1.tokens.getD i default)),
            inService := s1.inService ++ [i],
            events := s1.events ++ [schedEvent tick (s1.tokens.getD i default)] }) := rfl
    rcases hp : popNextQueued s with _ | ⟨i, s1⟩
    · have hred : scheduleLoop tick (fuel + 1) s = s := by rw [hunf, hp]
      have hids : idsOf s = [] := (popNextQueued_none_iff s).1 hp
      have hqs : s.paidQueue = [] ∧ s.freeQueue = [] ∧ s.anonQueue = [] := by
        unfold idsOf at hids
        simp only [List.append_eq_nil] at hids
        exact ⟨hids.1.1, hids.1.2, hids.2⟩
      rw [hred]
      refine ⟨rfl, rfl, rfl, by simp [hqs.1], by simp [hqs.2.1], by simp [hqs.2.2],
        by simp [hids], by simp [hids], rfl, by simp [hids], fun j _ => rfl⟩
    · obtain ⟨ht, hsv, hev, hni, hsn, hrg⟩ := popNextQueued_fields s i s1 hp
      have hids : idsOf s = i :: idsOf s1 := popNextQueued_ids s i s1 hp
      have hilts : i < s.tokens.length := hlt i (by rw [hids]; exact List.mem_cons_self _ _)
      set t := s1.tokens.getD i default with htok
      have htv : t = s.tokens.getD i default := by rw [htok, ht]
      set s2 : SimState :=
        { s1 with
          tokens := s1.tokens.set i (admitToken t),
          inService := s1.inService ++ [i],
          events := s1.events ++ [schedEvent tick t] } with hs2
      have hred : scheduleLoop tick (fuel + 1) s = scheduleLoop tick fuel s2 := by
        rw [hunf, hp]
      have hnds : (i :: idsOf s1).Nodup := hids ▸ hnd
      have hnd1 : (idsOf s1).Nodup := (List.nodup_cons.1 hnds).2
      have hinot : i ∉ idsOf s1 := (List.nodup_cons.1 hnds).1
      have hids2 : idsOf s2 = idsOf s1 := rfl
      have hnd2 : (idsOf s2).Nodup := by rw [hids2]; exact hnd1
      have hlen2 : s2.tokens.length = s.tokens.length := by
        show (s1.tokens.set i (admitToken t)).length = s.tokens.length
        rw [List.length_set, ht]
      have hlt2 : ∀ j ∈ idsOf s2, j < s2.tokens.length := by
        intro j hj
        rw [hids2] at hj
        rw [hlen2]
        exact hlt j (by rw [hids]; exact List.mem_cons_of_mem _ hj)
      have hget2 : ∀ j, j ≠ i → s2.tokens.getD j default = s.tokens.getD j default := by
        intro j hj
        show (s1.tokens.set i (admitToken t)).getD j default = _
        rw [getD_set_ne _ _ _ _ (fun h => hj h.symm), ht]
      have hget2i : s2.tokens.getD i default = admitToken (s.tokens.getD i default) := by
        show (s1.tokens.set i (admitToken t)).getD i default = _
        rw [getD_set_self _ _ _ (by rw [ht]; exact hilts), htv]
      obtain ⟨jni, jrg, jsn, jpq, jfq, jaq, jsv, jev, jlen, jin, jout⟩ := ih s2 hnd2 hlt2
      have htake : (idsOf s).take (fuel + 1) = i :: (idsOf s1).take fuel := by
        rw [hids]; rfl
      rw [hred]
      have mapeq : ((idsOf s1).take fuel).map
            (fun j => schedEvent tick (s2.tokens.getD j default)) =
          ((idsOf s1).take fuel).map
            (fun j => schedEvent tick (s.tokens.getD j default)) :=
        List.map_congr_left fun j hj =>
          congrArg (schedEvent tick)
            (hget2 j (fun h => hinot (h ▸ List.mem_of_mem_take hj)))
      have hin' : ∀ j ∈ (idsOf s).take (fuel + 1),
          (scheduleLoop tick fuel s2).tokens.getD j default =
            admitToken (s.tokens.getD j default) := by
        intro j hj
        rw [htake] at hj
        rcases List.mem_cons.1 hj with rfl | hj
        · rw [jout j (fun hmem => hinot (List.mem_of_mem_take hmem)), hget2i]
        · rw [jin j hj, hget2 j (fun h => hinot (h ▸ List.mem_of_mem_take hj))]
      have hout' : ∀ j, j ∉ (idsOf s).take (fuel + 1) →
          (scheduleLoop tick fuel s2).tokens.getD j default = s.tokens.getD j default := by
        intro j hj
        rw [htake, List.mem_cons] at hj
        push_neg at hj
        rw [jout j hj.2]
        exact hget2 j hj.1
      have hsvc : (scheduleLoop tick fuel s2).inService =
          s.inService ++ (idsOf s).take (fuel + 1) := by
        rw [jsv, htake]
        show (s1.inService ++ [i]) ++ (idsOf s1).take fuel = _
        rw [hsv, List.append_assoc]
        rfl
      have hevs : (scheduleLoop tick fuel s2).events = s.events ++
          ((idsOf s).take (fuel + 1)).map
            (fun j => schedEvent tick (s.tokens.getD j default)) := by
        rw [jev, htake]
        show (s1.events ++ [schedEvent tick t]) ++
            ((idsOf s1).take fuel).map (fun j => schedEvent tick (s2.tokens.getD j default)) = _
        rw [mapeq, hev, htv, List.append_assoc]
        rfl
      refine ⟨by rw [jni]; exact hni, by rw [jrg]; exact hrg, by rw [jsn]; exact hsn,
        ?_, ?_, ?_, hsvc, hevs, by rw [jlen]; exact hlen2, hin', hout'⟩ <;>
        rcases popNextQueued_queues s i s1 hp with ⟨hq1, hq2, hq3⟩ |
          ⟨hq1, hq2, hq3, hq4⟩ | ⟨hq1, hq2, hq3, hq4, hq5⟩
      · rw [jpq, hq1]
        rfl
      · rw [jpq]
        show s1.paidQueue.drop fuel = _
        rw [hq2, hq1]
        simp
      · rw [jpq]
        show s1.paidQueue.drop fuel = _
        rw [hq2, hq1]
        simp
      · rw [jfq]
        show s1.freeQueue.drop (fuel - s1.paidQueue.length) = _
        rw [hq2, hq1]
        simp only [List.length_cons]
        congr 1
        omega
      · rw [jfq]
        show s1.freeQueue.drop (fuel - s1.paidQueue.length) = _
        rw [hq2, hq1, hq3]
        simp only [List.length_nil, Nat.sub_zero, List.drop_succ_cons]
      · rw [jfq]
        show s1.freeQueue.drop (fuel - s1.paidQueue.length) = _
        rw [hq4, hq2, hq1, hq3]
        simp
      · rw [jaq]
        show s1.anonQueue.drop (fuel - s1.paidQueue.length - s1.freeQueue.length) = _
        rw [hq3, hq2, hq1]
        simp only [List.length_cons]
        congr 1
        omega
      · rw [jaq]
        show s1.anonQueue.drop (fuel - s1.paidQueue.length - s1.freeQueue.length) = _
        rw [hq4, hq2, hq1, hq3]
        simp only [List.length_nil, Nat.sub_zero, List.length_cons]
        congr 1
        omega
      · rw [jaq]
        show s1.anonQueue.drop (fuel - s1.paidQueue.length - s1.freeQueue.length) = _
        rw [hq2, hq4, hq1, hq3, hq5]
        simp only [List.length_nil, Nat.sub_zero, List.drop_succ_cons]

/-! ## Closed form of the completion pass -/

theorem servicePass_spec (tick : Nat) (l : List Nat) (store : List Token)
    (hnd : l.Nodup) (hlt : ∀ i ∈ l, i < store.length) :
    (servicePass tick l store).1.length = store.length ∧
    (servicePass tick l store).2.1 =
      l.filter (fun i => !decide ((store.getD i default).serviceRemaining - 1 ≤ 0)) ∧
    (servicePass tick l store).2.2 =
      (l.filter (fun i => decide ((store.getD i default).serviceRemaining - 1 ≤ 0))).map
        (fun i => completeEvent tick
          { store.getD i default with
            serviceRemaining := (store.getD i default).serviceRemaining - 1 }) ∧
    (∀ j ∈ l, (servicePass tick l store).1.getD j default =
      serviceUpd (store.getD j default)) ∧
    (∀ j, j ∉ l → (servicePass tick l store).1.getD j default =
      store.getD j default) := by
  induction l generalizing store with
  | nil => exact ⟨rfl, rfl, rfl, by simp, fun j _ => rfl⟩
  | cons i rest ih =>
    have hilt : i < store.length := hlt i (by simp)
    have hnd' : rest.Nodup := (List.nodup_cons.1 hnd).2
    have hinot : i ∉ rest := (List.nodup_cons.1 hnd).1
    simp only [servicePass]
    split
    case isTrue h =>
      have hc : (store.getD i default).serviceRemaining - 1 ≤ 0 := h
      set d := store.getD i default with hd
      set st' := store.set i
        (completeToken { d with serviceRemaining := d.serviceRemaining - 1 }) with hst
      have hset_len : st'.length = store.length := by rw [hst, List.length_set]
      have hset_ne : ∀ j, j ≠ i → st'.getD j default = store.getD j default := by
        intro j hj
        rw [hst]
        exact getD_set_ne _ _ _ _ (fun hh => hj hh.symm)
      have hset_i : st'.getD i default =
          completeToken { d with serviceRemaining := d.serviceRemaining - 1 } := by
        rw [hst]
        exact getD_set_self _ _ _ hilt
      have hupd : serviceUpd d = completeToken { d with serviceRemaining := d.serviceRemaining - 1 } := by
        simp only [serviceUpd]
        rw [if_pos hc]
      have hci : decide ((store.getD i default).serviceRemaining - 1 ≤ 0) = true := by
        rw [← hd]
        exact decide_eq_true hc
      have hboundsr : ∀ j ∈ rest, j < st'.length := by
        intro j hj
        rw [hset_len]
        exact hlt j (by simp [hj])
      obtain ⟨k1, k2, k3, k4, k5⟩ := ih st' hnd' hboundsr
      have hfeq : ∀ (b : Bool), rest.filter (fun j => b == decide ((st'.getD j default).serviceRemaining - 1 ≤ 0)) =
          rest.filter (fun j => b == decide ((store.getD j default).serviceRemaining - 1 ≤ 0)) := by
        intro b
        refine List.filter_congr ?_
        intro j hj
        rw [hset_ne j (fun hh => hinot (hh ▸ hj))]
      refine ⟨?_, ?_, ?_, ?_, ?_⟩
      · rw [k1, hset_len]
      · rw [k2]
        have : rest.filter (fun j => !decide ((st'.getD j default).serviceRemaining - 1 ≤ 0)) =
            rest.filter (fun j => !decide ((store.getD j default).serviceRemaining - 1 ≤ 0)) := by
          refine List.filter_congr ?_
          intro j hj
          rw [hset_ne j (fun hh => hinot (hh ▸ hj))]
        rw [this]
        have hcons : (i :: rest).filter
            (fun j => !decide ((store.getD j default).serviceRemaining - 1 ≤ 0)) =
            rest.filter (fun j => !decide ((store.getD j default).serviceRemaining - 1 ≤ 0)) := by
          rw [List.filter_cons, if_neg (by
            show ¬((!decide ((store.getD i default).serviceRemaining - 1 ≤ 0)) = true)
            rw [hci]
            simp)]
        rw [hcons]
      · rw [k3]
        have hfilter : rest.filter (fun j => decide ((st'.getD j default).serviceRemaining - 1 ≤ 0)) =
            rest.filter (fun j => decide ((store.getD j default).serviceRemaining - 1 ≤ 0)) := by
          refine List.filter_congr ?_
          intro j hj
          rw [hset_ne j (fun hh => hinot (hh ▸ hj))]
        rw [hfilter]
        have hmap : ∀ ll : List Nat, (∀ j ∈ ll, j ∈ rest) →
            ll.map (fun j => completeEvent tick
              { st'.getD j default with
                serviceRemaining := (st'.getD j default).serviceRemaining - 1 }) =
            ll.map (fun j => completeEvent tick
              { store.getD j default with
                serviceRemaining := (store.getD j default).serviceRemaining - 1 }) := by
          intro ll hll
          refine List.map_congr_left ?_
          intro j hj
          rw [hset_ne j (fun hh => hinot (hh ▸ hll j hj))]
        rw [hmap _ (fun j hj => List.mem_of_mem_filter hj)]
        have hcons : (i :: rest).filter
            (fun j => decide ((store.getD j default).serviceRemaining - 1 ≤ 0)) =
            i :: rest.filter (fun j => decide ((store.getD j default).serviceRemaining - 1 ≤ 0)) := by
          rw [List.filter_cons, if_pos (by
            show (decide ((store.getD i default).serviceRemaining - 1 ≤ 0)) = true
            exact hci)]
        rw [hcons, List.map_cons, hd]
      · intro j hj
        rcases List.mem_cons.1 hj with rfl | hj
        · rw [k5 j (fun hm => hinot hm), hset_i, hd, hupd]
        · rw [k4 j hj, hset_ne j (fun hh => hinot (hh ▸ hj))]
      · intro j hj
        rw [List.mem_cons] at hj
        push_neg at hj
        rw [k5 j hj.2, hset_ne j hj.1]
    case isFalse h =>
      have hc : ¬ (store.getD i default).serviceRemaining - 1 ≤ 0 := h
      set d := store.getD i default with hd
      set st' := store.set i { d with serviceRemaining := d.serviceRemaining - 1 } with hst
      have hset_len : st'.length = store.length := by rw [hst, List.length_set]
      have hset_ne : ∀ j, j ≠ i → st'.getD j default = store.getD j default := by
        intro j hj
        rw [hst]
        exact getD_set_ne _ _ _ _ (fun hh => hj hh.symm)
      have hset_i : st'.getD i default = { d with serviceRemaining := d.serviceRemaining - 1 } := by
        rw [hst]
        exact getD_set_self _ _ _ hilt
      have hupd : serviceUpd d = { d with serviceRemaining := d.serviceRemaining - 1 } := by
        simp only [serviceUpd]
        rw [if_neg hc]
      have hci : decide ((store.getD i default).serviceRemaining - 1 ≤ 0) = false := by
        rw [← hd]
        exact decide_eq_false hc
      have hboundsr : ∀ j ∈ rest, j < st'.length := by
        intro j hj
        rw [hset_len]
        exact hlt j (by simp [hj])
      obtain ⟨k1, k2, k3, k4, k5⟩ := ih st' hnd' hboundsr
      refine ⟨?_, ?_, ?_, ?_, ?_⟩
      · rw [k1, hset_len]
      · rw [k2]
        have hfilter : rest.filter (fun j => !decide ((st'.getD j default).serviceRemaining - 1 ≤ 0)) =
            rest.filter (fun j => !decide ((store.getD j default).serviceRemaining - 1 ≤ 0)) := by
          refine List.filter_congr ?_
          intro j hj
          rw [hset_ne j (fun hh => hinot (hh ▸ hj))]
        rw [hfilter]
        have hcons : (i :: rest).filter
            (fun j => !decide ((store.getD j default).serviceRemaining - 1 ≤ 0)) =
            i :: rest.filter (fun j => !decide ((store.getD j default).serviceRemaining - 1 ≤ 0)) := by
          rw [List.filter_cons, if_pos (by
            show (!decide ((store.getD i default).serviceRemaining - 1 ≤ 0)) = true
            rw [hci]
            simp)]
        rw [hcons]
      · rw [k3]
        have hfilter : rest.filter (fun j => decide ((st'.getD j default).serviceRemaining - 1 ≤ 0)) =
            rest.filter (fun j => decide ((store.getD j default).serviceRemaining - 1 ≤ 0)) := by
          refine List.filter_congr ?_
          intro j hj
          rw [hset_ne j (fun hh => hinot (hh ▸ hj))]
        rw [hfilter]
        have hmap : (rest.filter (fun j => decide ((store.getD j default).serviceRemaining - 1 ≤ 0))).map
              (fun j => completeEvent tick
                { st'.getD j default with
                  serviceRemaining := (st'.getD j default).serviceRemaining - 1 }) =
            (rest.filter (fun j => decide ((store.getD j default).serviceRemaining - 1 ≤ 0))).map
              (fun j => completeEvent tick
                { store.getD j default with
                  serviceRemaining := (store.getD j default).serviceRemaining - 1 }) := by
          refine List.map_congr_left ?_
          intro j hj
          rw [hset_ne j (fun hh => hinot (hh ▸ List.mem_of_mem_filter hj))]
        rw [hmap]
        have hcons : (i :: rest).filter
            (fun j => decide ((store.getD j default).serviceRemaining - 1 ≤ 0)) =
            rest.filter (fun j => decide ((store.getD j default).serviceRemaining - 1 ≤ 0)) := by
          rw [List.filter_cons, if_neg (by
            show ¬((decide ((store.getD i default).serviceRemaining - 1 ≤ 0)) = true)
            rw [hci]
            simp)]
        rw [hcons]
      · intro j hj
        rcases List.mem_cons.1 hj with rfl | hj
        · rw [k5 j (fun hm => hinot hm), hset_i, hd, hupd]
        · rw [k4 j hj, hset_ne j (fun hh => hinot (hh ▸ hj))]
      · intro j hj
        rw [List.mem_cons] at hj
        push_neg at hj
        rw [k5 j hj.2, hset_ne j hj.1]

/-! ## Closed form of the index-recomputation phase -/

theorem numberFrom_spec (ids : List Nat) : ∀ (idx : Nat) (store : List Token),
    ids.Nodup → (∀ i ∈ ids, i < store.length) →
    (numberFrom idx ids store).length = store.length ∧
    (∀ j, j ∉ ids → (numberFrom idx ids store).getD j default = store.getD j default) ∧
    (∀ j ∈ ids, (numberFrom idx ids store).getD j default =
      { store.getD j default with queueIndex := Int.ofNat (idx + ids.indexOf j) }) := by
  induction ids with
  | nil => exact fun idx store _ _ => ⟨rfl, fun j _ => rfl, fun j hj => absurd hj (by simp)⟩
  | cons i rest ih =>
    intro idx store hnd hlt
    have hilt : i < store.length := hlt i (by simp)
    have hnd' : rest.Nodup := (List.nodup_cons.1 hnd).2
    have hinot : i ∉ rest := (List.nodup_cons.1 hnd).1
    set st' := store.set i { store.getD i default with queueIndex := Int.ofNat idx } with hst
    have hset_len : st'.length = store.length := by rw [hst, List.length_set]
    have hset_ne : ∀ j, j ≠ i → st'.getD j default = store.getD j default := by
      intro j hj
      rw [hst]
      exact getD_set_ne _ _ _ _ (fun hh => hj hh.symm)
    have hset_i : st'.getD i default =
        { store.getD i default with queueIndex := Int.ofNat idx } := by
      rw [hst]
      exact getD_set_self _ _ _ hilt
    obtain ⟨k1, k2, k3⟩ := ih (idx + 1) st' hnd'
      (fun j hj => by rw [hset_len]; exact hlt j (by simp [hj]))
    have hred : numberFrom idx (i :: rest) store = numberFrom (idx + 1) rest st' := rfl
    refine ⟨by rw [hred, k1, hset_len], ?_, ?_⟩
    · intro j hj
      rw [List.mem_cons] at hj
      push_neg at hj
      rw [hred, k2 j hj.2]
      exact hset_ne j hj.1
    · intro j hj
      rcases List.mem_cons.1 hj with rfl | hj
      · rw [hred, k2 j hinot, hset_i]
        simp
      · rw [hred, k3 j hj, hset_ne j (fun hh => hinot (hh ▸ hj))]
        have hne : i ≠ j := fun hh => hinot (hh ▸ hj)
        have : (i :: rest).indexOf j = rest.indexOf j + 1 := by
          simp [List.indexOf_cons, hne]
        rw [this]
        have harith : idx + (rest.indexOf j + 1) = idx + 1 + rest.indexOf j := by omega
        rw [harith]

theorem clearQueuedIdx_spec (store : List Token) :
    (clearQueuedIdx store).length = store.length ∧
    ∀ j, j < store.length → (clearQueuedIdx store).getD j default =
      (if (store.getD j default).state = StateQueued
        then { store.getD j default with queueIndex := -1 }
        else store.getD j default) := by
  constructor
  · simp [clearQueuedIdx]
  · intro j hj
    unfold clearQueuedIdx
    rw [List.getD_eq_getElem _ _ (by simpa using hj), List.getD_eq_getElem _ _ hj,
      List.getElem_map]

/-- Overwriting the queue index ignores a previous overwrite. -/
theorem qidx_overwrite (t : Token) (x y : Int) :
    ({ (if t.state = StateQueued then { t with queueIndex := x } else t) with
        queueIndex := y } : Token) = { t with queueIndex := y } := by
  split <;> rfl

theorem updateQueueIndices_spec (s : SimState)
    (hnd : (idsOf s).Nodup) (hlt : ∀ i ∈ idsOf s, i < s.tokens.length) :
    (updateQueueIndices s).nextID = s.nextID ∧
    (updateQueueIndices s).paidQueue = s.paidQueue ∧
    (updateQueueIndices s).freeQueue = s.freeQueue ∧
    (updateQueueIndices s).anonQueue = s.anonQueue ∧
    (updateQueueIndices s).inService = s.inService ∧
    (updateQueueIndices s).snapshots = s.snapshots ∧
    (updateQueueIndices s).events = s.events ∧
    (updateQueueIndices s).rngIndex = s.rngIndex ∧
    (updateQueueIndices s).tokens.length = s.tokens.length ∧
    (∀ j ∈ idsOf s, (updateQueueIndices s).tokens.getD j default =
      { s.tokens.getD j default with queueIndex := Int.ofNat ((idsOf s).indexOf j) }) ∧
    (∀ j, j < s.tokens.length → j ∉ idsOf s →
      (updateQueueIndices s).tokens.getD j default =
        (if (s.tokens.getD j default).state = StateQueued
          then { s.tokens.getD j default with queueIndex := -1 }
          else s.tokens.getD j default)) := by
  obtain ⟨c1, c2⟩ := clearQueuedIdx_spec s.tokens
  obtain ⟨n1, n2, n3⟩ := numberFrom_spec (idsOf s) 0 (clearQueuedIdx s.tokens) hnd
    (fun i hi => by rw [c1]; exact hlt i hi)
  refine ⟨rfl, rfl, rfl, rfl, rfl, rfl, rfl, rfl, ?_, ?_, ?_⟩
  · show (numberFrom 0 (idsOf s) (clearQueuedIdx s.tokens)).length = s.tokens.length
    rw [n1, c1]
  · intro j hj
    show (numberFrom 0 (idsOf s) (clearQueuedIdx s.tokens)).getD j default = _
    rw [n3 j hj, c2 j (hlt j hj)]
    rw [qidx_overwrite]
    simp
  · intro j hjlt hj
    show (numberFrom 0 (idsOf s) (clearQueuedIdx s.tokens)).getD j default = _
    rw [n2 j hj, c2 j hjlt]

/-! ## Effect of `enqueue` and the two admission branches -/

theorem enqueue_spec (s : SimState) (i : Nat) (c : String) :
    (enqueue s i c).nextID = s.nextID ∧
    (enqueue s i c).tokens = s.tokens ∧
    (enqueue s i c).inService = s.inService ∧
    (enqueue s i c).snapshots = s.snapshots ∧
    (enqueue s i c).rngIndex = s.rngIndex ∧
    ((c = ClassPaid ∧ (enqueue s i c).paidQueue = s.paidQueue ++ [i] ∧
        (enqueue s i c).freeQueue = s.freeQueue ∧
        (enqueue s i c).anonQueue = s.anonQueue) ∨
     (c ≠ ClassPaid ∧ c = ClassFree ∧ (enqueue s i c).paidQueue = s.paidQueue ∧
        (enqueue s i c).freeQueue = s.freeQueue ++ [i] ∧
        (enqueue s i c).anonQueue = s.anonQueue) ∨
     (c ≠ ClassPaid ∧ c ≠ ClassFree ∧ (enqueue s i c).paidQueue = s.paidQueue ∧
        (enqueue s i c).freeQueue = s.freeQueue ∧
        (enqueue s i c).anonQueue = s.anonQueue ++ [i])) := by
  unfold enqueue
  by_cases h1 : c = ClassPaid
  · rw [if_pos h1]
    exact ⟨rfl, rfl, rfl, rfl, rfl, Or.inl ⟨h1, rfl, rfl, rfl⟩⟩
  · rw [if_neg h1]
    by_cases h2 : c = ClassFree
    · rw [if_pos h2]
      exact ⟨rfl, rfl, rfl, rfl, rfl, Or.inr (Or.inl ⟨h1, h2, rfl, rfl, rfl⟩)⟩
    · rw [if_neg h2]
      exact ⟨rfl, rfl, rfl, rfl, rfl, Or.inr (Or.inr ⟨h1, h2, rfl, rfl, rfl⟩)⟩

theorem processArrival_reject (tick : Nat) (cls : String) (s : SimState)
    (h : shouldReject s cls = true) :
    processArrival tick cls s =
      { s with
        nextID := s.nextID + 1,
        tokens := s.tokens ++
          [{ mkToken s.nextID cls tick with
              state := StateRejected, stageId := StageRejected, queueIndex := -1 }],
        events := s.events ++ [rejectEvent tick (mkToken s.nextID cls tick)] } := by
  unfold processArrival
  rw [if_pos h]

theorem processArrival_queue (tick : Nat) (cls : String) (s : SimState)
    (h : shouldReject s cls = false) :
    processArrival tick cls s =
      { enqueue
          { s with
            nextID := s.nextID + 1,
            tokens := s.tokens ++
              [{ mkToken s.nextID cls tick with
                  state := StateQueued, stageId := StageQueue, queueIndex := -1 }] }
          s.nextID cls with
        events := s.events ++ [queueEvent tick (mkToken s.nextID cls tick)] } := by
  unfold processArrival
  rw [if_neg (by simp [h])]
  dsimp only
  rw [enqueue_events]

/-! ## The simulator invariant -/

theorem getD_append_lt {α : Type} [Inhabited α] (l l' : List α) (j : Nat)
    (h : j < l.length) : (l ++ l').getD j default = l.getD j default := by
  rw [List.getD_eq_getElem _ _ (by simp; omega), List.getD_eq_getElem _ _ h]
  exact List.getElem_append_left h

theorem getD_append_self {α : Type} [Inhabited α] (l : List α) (a : α) :
    (l ++ [a]).getD l.length default = a := by
  rw [List.getD_eq_getElem _ _ (by simp)]
  simp

theorem serviceUpd_id (t : Token) : (serviceUpd t).id = t.id := by
  unfold serviceUpd completeToken
  dsimp only
  split <;> rfl

theorem serviceUpd_cls (t : Token) : (serviceUpd t).cls = t.cls := by
  unfold serviceUpd completeToken
  dsimp only
  split <;> rfl

theorem serviceUpd_arrivalTick (t : Token) : (serviceUpd t).arrivalTick = t.arrivalTick := by
  unfold serviceUpd completeToken
  dsimp only
  split <;> rfl

theorem serviceUpd_state (t : Token) :
    (serviceUpd t).state = StateDone ∨ (serviceUpd t).state = t.state := by
  unfold serviceUpd completeToken
  dsimp only
  split
  · exact Or.inl rfl
  · exact Or.inr rfl

/-- The inductive invariant tying the token store, the class queues, the
in-service set and the recorded events together.  `capacity`, the class
constants and the state constants are those of the source. -/
structure Inv (s : SimState) : Prop where
  len_eq : s.tokens.length = s.nextID
  id_eq : ∀ i, i < s.nextID → (tokAt s i).id = tokenName i
  ids_lt : ∀ i ∈ allIds s, i < s.nextID
  nodup : (allIds s).Nodup
  queued_iff : ∀ i, i < s.nextID → ((tokAt s i).state = StateQueued ↔ i ∈ idsOf s)
  proc_iff : ∀ i, i < s.nextID → ((tokAt s i).state = StateProcessing ↔ i ∈ s.inService)
  state_mem : ∀ i, i < s.nextID →
    (tokAt s i).state = StateQueued ∨ (tokAt s i).state = StateProcessing ∨
    (tokAt s i).state = StateDone ∨ (tokAt s i).state = StateRejected
  paid_cls : ∀ i ∈ s.paidQueue, (tokAt s i).cls = ClassPaid
  free_cls : ∀ i ∈ s.freeQueue, (tokAt s i).cls = ClassFree
  anon_cls : ∀ i ∈ s.anonQueue, (tokAt s i).cls ≠ ClassPaid ∧ (tokAt s i).cls ≠ ClassFree
  qidx_sent : ∀ i, i < s.nextID → (tokAt s i).state ≠ StateQueued →
    (tokAt s i).queueIndex = -1
  cap_le : s.inService.length ≤ capacity
  sched_ev : ∀ e ∈ s.events, e.etype = EventSchedule →
    ∃ i, i < s.nextID ∧ e.tokenId = tokenName i ∧
      ((tokAt s i).state = StateProcessing ∨ (tokAt s i).state = StateDone)

theorem Inv.initState : Inv Finit.initState := by
  refine ⟨rfl, ?_, ?_, ?_, ?_, ?_, ?_, ?_, ?_, ?_, ?_, ?_, ?_⟩ <;>
    simp [Finit.initState, allIds, idsOf, tokAt, capacity]

theorem Inv.queues_nodup {s : SimState} (hs : Inv s) : (idsOf s).Nodup :=
  hs.nodup.sublist (List.sublist_append_left _ _)

theorem Inv.service_nodup {s : SimState} (hs : Inv s) : s.inService.Nodup :=
  hs.nodup.sublist (List.sublist_append_right _ _)

theorem Inv.queues_lt {s : SimState} (hs : Inv s) :
    ∀ i ∈ idsOf s, i < s.tokens.length := by
  intro i hi
  rw [hs.len_eq]
  exact hs.ids_lt i (List.mem_append_left _ hi)

theorem Inv.service_lt {s : SimState} (hs : Inv s) :
    ∀ i ∈ s.inService, i < s.tokens.length := by
  intro i hi
  rw [hs.len_eq]
  exact hs.ids_lt i (List.mem_append_right _ hi)

theorem Inv.disjoint_queues_service {s : SimState} (hs : Inv s) :
    ∀ i ∈ idsOf s, i ∉ s.inService := by
  intro i hi hsv
  have := (List.nodup_append.1 hs.nodup).2.2
  exact this hi hsv

/-! ### Preservation through the completion phase -/

theorem nextService_inv (tick : Nat) (s : SimState) (hs : Inv s) :
    Inv (nextService tick s) ∧
    (∀ i ∈ s.inService,
      tokAt (nextService tick s) i = serviceUpd (tokAt s i)) ∧
    (∀ i, i ∉ s.inService → tokAt (nextService tick s) i = tokAt s i) ∧
    (nextService tick s).nextID = s.nextID ∧
    (nextService tick s).paidQueue = s.paidQueue ∧
    (nextService tick s).freeQueue = s.freeQueue ∧
    (nextService tick s).anonQueue = s.anonQueue ∧
    (∀ i, i ∈ (nextService tick s).inService → i ∈ s.inService) ∧
    (∀ e ∈ (nextService tick s).events, e ∈ s.events ∨
      (e.etype = EventComplete ∧ e.tick = tick)) ∧
    (∃ l, (nextService tick s).events = s.events ++ l ∧
      ∀ e ∈ l, e.etype = EventComplete ∧ e.tick = tick) := by
  obtain ⟨k1, k2, k3, k4, k5⟩ := servicePass_spec tick s.inService s.tokens
    hs.service_nodup hs.service_lt
  have hsv' : (nextService tick s).inService =
      s.inService.filter
        (fun i => !decide ((s.tokens.getD i default).serviceRemaining - 1 ≤ 0)) := k2
  have hsub : ∀ i ∈ (nextService tick s).inService, i ∈ s.inService := by
    intro i hi
    rw [hsv'] at hi
    exact List.mem_of_mem_filter hi
  have htok_in : ∀ i ∈ s.inService, tokAt (nextService tick s) i = serviceUpd (tokAt s i) :=
    fun i hi => k4 i hi
  have htok_out : ∀ i, i ∉ s.inService → tokAt (nextService tick s) i = tokAt s i :=
    fun i hi => k5 i hi
  have hqdisj := hs.disjoint_queues_service
  have hstq : StateQueued ≠ StateProcessing ∧ StateQueued ≠ StateDone ∧
      StateQueued ≠ StateRejected ∧ StateProcessing ≠ StateDone ∧
      StateProcessing ≠ StateRejected ∧ StateDone ≠ StateRejected := by
    refine ⟨?_, ?_, ?_, ?_, ?_, ?_⟩ <;> decide
  have hevsplit : ∃ l, (nextService tick s).events = s.events ++ l ∧
      ∀ e ∈ l, e.etype = EventComplete ∧ e.tick = tick := by
    refine ⟨_, rfl, ?_⟩
    rw [k3]
    intro e he
    obtain ⟨i, _, rfl⟩ := List.mem_map.1 he
    exact ⟨rfl, rfl⟩
  have hstate_in : ∀ i ∈ s.inService, i < s.nextID →
      ((serviceUpd (tokAt s i)).state = StateProcessing ∨
        (serviceUpd (tokAt s i)).state = StateDone) := by
    intro i hi hilt
    rcases serviceUpd_state (tokAt s i) with h | h
    · exact Or.inr h
    · rw [h]
      exact Or.inl ((hs.proc_iff i hilt).2 hi)
  have hserv_iff : ∀ i ∈ s.inService,
      ((serviceUpd (tokAt s i)).state = StateProcessing ↔
        i ∈ (nextService tick s).inService) := by
    intro i hi
    rw [hsv', List.mem_filter]
    unfold serviceUpd
    dsimp only
    split
    case isTrue h =>
      constructor
      · intro hcontra
        exact absurd hcontra.symm hstq.2.2.2.1
      · rintro ⟨-, hb⟩
        rw [Bool.not_eq_eq_eq_not] at hb
        simp only [Bool.not_true, decide_eq_false_iff_not] at hb
        exact absurd h hb
    case isFalse h =>
      constructor
      · intro _
        refine ⟨hi, ?_⟩
        simp only [Bool.not_eq_eq_eq_not, Bool.not_true, decide_eq_false_iff_not]
        exact h
      · intro _
        show (tokAt s i).state = StateProcessing
        exact (hs.proc_iff i (hs.ids_lt i (List.mem_append_right _ hi))).2 hi
  refine ⟨?_, htok_in, htok_out, rfl, rfl, rfl, rfl, hsub, ?_, hevsplit⟩
  · refine ⟨?_, ?_, ?_, ?_, ?_, ?_, ?_, ?_, ?_, ?_, ?_, ?_, ?_⟩
    · show (servicePass tick s.inService s.tokens).1.length = s.nextID
      rw [k1, hs.len_eq]
    · intro i hilt
      rw [show (nextService tick s).nextID = s.nextID from rfl] at hilt
      by_cases hi : i ∈ s.inService
      · rw [htok_in i hi, serviceUpd_id]
        exact hs.id_eq i hilt
      · rw [htok_out i hi]
        exact hs.id_eq i hilt
    · intro i hi
      unfold allIds idsOf at hi
      simp only [List.mem_append] at hi
      show i < s.nextID
      rcases hi with ((h | h) | h) | h
      · exact hs.ids_lt i (by unfold allIds idsOf; simp only [List.mem_append]; tauto)
      · exact hs.ids_lt i (by unfold allIds idsOf; simp only [List.mem_append]; tauto)
      · exact hs.ids_lt i (by unfold allIds idsOf; simp only [List.mem_append]; tauto)
      · have hh := hsub i h
        exact hs.ids_lt i (by unfold allIds idsOf; simp only [List.mem_append]; tauto)
    · show ((idsOf s) ++ (nextService tick s).inService).Nodup
      have : List.Sublist (idsOf s ++ (nextService tick s).inService)
          (idsOf s ++ s.inService) := by
        refine List.Sublist.append (List.Sublist.refl _) ?_
        rw [hsv']
        exact List.filter_sublist _
      exact hs.nodup.sublist this
    · intro i hilt
      show _ ↔ i ∈ idsOf s
      by_cases hi : i ∈ s.inService
      · rw [htok_in i hi]
        constructor
        · intro hq
          rcases serviceUpd_state (tokAt s i) with h | h
          · rw [hq] at h
            exact absurd h hstq.2.1
          · rw [hq] at h
            have := (hs.queued_iff i hilt).1 h.symm
            exact this
        · intro hq
          exact absurd hi (hqdisj i hq)
      · rw [htok_out i hi]
        exact hs.queued_iff i hilt
    · intro i hilt
      by_cases hi : i ∈ s.inService
      · rw [htok_in i hi]
        exact hserv_iff i hi
      · rw [htok_out i hi]
        constructor
        · intro hp
          exact absurd ((hs.proc_iff i hilt).1 hp) hi
        · intro hp
          exact absurd (hsub i hp) hi
    · intro i hilt
      by_cases hi : i ∈ s.inService
      · rw [htok_in i hi]
        rcases serviceUpd_state (tokAt s i) with h | h
        · exact Or.inr (Or.inr (Or.inl h))
        · rw [h]
          exact hs.state_mem i hilt
      · rw [htok_out i hi]
        exact hs.state_mem i hilt
    · intro i hi
      show (tokAt (nextService tick s) i).cls = ClassPaid
      rw [htok_out i (hqdisj i (by unfold idsOf; simp only [List.mem_append]; tauto))]
      exact hs.paid_cls i hi
    · intro i hi
      show (tokAt (nextService tick s) i).cls = ClassFree
      rw [htok_out i (hqdisj i (by unfold idsOf; simp only [List.mem_append]; tauto))]
      exact hs.free_cls i hi
    · intro i hi
      show (tokAt (nextService tick s) i).cls ≠ ClassPaid ∧
        (tokAt (nextService tick s) i).cls ≠ ClassFree
      rw [htok_out i (hqdisj i (by unfold idsOf; simp only [List.mem_append]; tauto))]
      exact hs.anon_cls i hi
    · intro i hilt hnq
      by_cases hi : i ∈ s.inService
      · rw [htok_in i hi] at hnq ⊢
        have hold : (tokAt s i).state = StateProcessing :=
          (hs.proc_iff i hilt).2 hi
        have holdq : (tokAt s i).queueIndex = -1 := by
          refine hs.qidx_sent i hilt ?_
          rw [hold]
          exact fun h => hstq.1 h.symm
        unfold serviceUpd completeToken
        dsimp only
        split <;> simp [holdq]
      · rw [htok_out i hi] at hnq ⊢
        exact hs.qidx_sent i hilt hnq
    · show (nextService tick s).inService.length ≤ capacity
      rw [hsv']
      exact le_trans (List.length_filter_le _ _) hs.cap_le
    · intro e he htype
      obtain ⟨l, hl, hlprop⟩ := hevsplit
      rw [hl] at he
      rcases List.mem_append.1 he with he | he
      · obtain ⟨i, hilt, hid, hstate⟩ := hs.sched_ev e he htype
        refine ⟨i, hilt, hid, ?_⟩
        by_cases hi : i ∈ s.inService
        · rw [htok_in i hi]
          exact hstate_in i hi hilt
        · rw [htok_out i hi]
          exact hstate
      · obtain ⟨ht, -⟩ := hlprop e he
        rw [htype] at ht
        exact absurd ht (by decide)
  · intro e he
    obtain ⟨l, hl, hlprop⟩ := hevsplit
    rw [hl] at he
    rcases List.mem_append.1 he with he | he
    · exact Or.inl he
    · exact Or.inr (hlprop e he)

/-! ### Preservation through the arrival phase -/

set_option maxHeartbeats 1600000 in
theorem processArrival_inv (tick : Nat) (cls : String) (s : SimState) (hs : Inv s) :
    Inv (processArrival tick cls s) ∧
    (processArrival tick cls s).nextID = s.nextID + 1 ∧
    (∀ i, i < s.nextID → tokAt (processArrival tick cls s) i = tokAt s i) ∧
    (tokAt (processArrival tick cls s) s.nextID).arrivalTick = tick ∧
    (∃ l, (processArrival tick cls s).paidQueue = s.paidQueue ++ l) ∧
    (∃ l, (processArrival tick cls s).freeQueue = s.freeQueue ++ l) ∧
    (∃ l, (processArrival tick cls s).anonQueue = s.anonQueue ++ l) ∧
    (processArrival tick cls s).inService = s.inService ∧
    (∃ e, (processArrival tick cls s).events = s.events ++ [e] ∧
      (e.etype = EventQueue ∨ e.etype = EventReject) ∧ e.tick = tick) ∧
    (processArrival tick cls s).snapshots = s.snapshots := by
  have hlen : s.tokens.length = s.nextID := hs.len_eq
  have hfresh : ∀ i ∈ allIds s, i ≠ s.nextID := by
    intro i hi h
    have := hs.ids_lt i hi
    omega
  have hfreshq : ∀ i ∈ idsOf s, i ≠ s.nextID :=
    fun i hi => hfresh i (List.mem_append_left _ hi)
  by_cases hrej : shouldReject s cls = true
  · -- rejected arrival
    rw [processArrival_reject tick cls s hrej]
    set tok : Token :=
      { mkToken s.nextID cls tick with
          state := StateRejected, stageId := StageRejected, queueIndex := -1 } with htokdef
    set s' : SimState :=
      { s with
        nextID := s.nextID + 1,
        tokens := s.tokens ++ [tok],
        events := s.events ++ [rejectEvent tick (mkToken s.nextID cls tick)] } with hs'def
    have hnid : s'.nextID = s.nextID + 1 := rfl
    have htok_old : ∀ i, i < s.nextID → tokAt s' i = tokAt s i := by
      intro i hi
      show (s.tokens ++ [tok]).getD i default = _
      exact getD_append_lt _ _ _ (by omega)
    have htok_new : tokAt s' s.nextID = tok := by
      show (s.tokens ++ [tok]).getD s.nextID default = tok
      rw [← hlen]
      exact getD_append_self _ _
    have htokst : tok.state = StateRejected := rfl
    refine ⟨?_, rfl, htok_old, by rw [htok_new]; rfl, ⟨[], by simp⟩, ⟨[], by simp⟩,
      ⟨[], by simp⟩, rfl, ⟨_, rfl, Or.inr rfl, rfl⟩, rfl⟩
    refine ⟨?_, ?_, ?_, ?_, ?_, ?_, ?_, ?_, ?_, ?_, ?_, ?_, ?_⟩
    · show (s.tokens ++ [tok]).length = s.nextID + 1
      simp [hlen]
    · intro i hi
      have hi' : i < s.nextID + 1 := hi
      show (tokAt s' i).id = tokenName i
      rcases Nat.lt_or_ge i s.nextID with h | h
      · rw [htok_old i h]
        exact hs.id_eq i h
      · have heq : i = s.nextID := by omega
        subst heq
        rw [htok_new]
        rfl
    · intro i hi
      have hi' : i ∈ allIds s := hi
      have := hs.ids_lt i hi'
      show i < s.nextID + 1
      omega
    · show (allIds s).Nodup
      exact hs.nodup
    · intro i hi
      have hi' : i < s.nextID + 1 := hi
      show (tokAt s' i).state = StateQueued ↔ i ∈ idsOf s
      rcases Nat.lt_or_ge i s.nextID with h | h
      · rw [htok_old i h]
        exact hs.queued_iff i h
      · have heq : i = s.nextID := by omega
        subst heq
        rw [htok_new, htokst]
        constructor
        · intro hq
          exact absurd hq (by decide)
        · intro hq
          exact absurd rfl (hfreshq _ hq)
    · intro i hi
      have hi' : i < s.nextID + 1 := hi
      show (tokAt s' i).state = StateProcessing ↔ i ∈ s.inService
      rcases Nat.lt_or_ge i s.nextID with h | h
      · rw [htok_old i h]
        exact hs.proc_iff i h
      · have heq : i = s.nextID := by omega
        subst heq
        rw [htok_new, htokst]
        constructor
        · intro hq
          exact absurd hq (by decide)
        · intro hq
          exact absurd rfl (hfresh _ (List.mem_append_right _ hq))
    · intro i hi
      have hi' : i < s.nextID + 1 := hi
      show (tokAt s' i).state = _ ∨ (tokAt s' i).state = _ ∨
        (tokAt s' i).state = _ ∨ (tokAt s' i).state = _
      rcases Nat.lt_or_ge i s.nextID with h | h
      · rw [htok_old i h]
        exact hs.state_mem i h
      · have heq : i = s.nextID := by omega
        subst heq
        rw [htok_new, htokst]
        exact Or.inr (Or.inr (Or.inr rfl))
    · intro i hi
      have hi' : i ∈ s.paidQueue := hi
      show (tokAt s' i).cls = ClassPaid
      rw [htok_old i (hs.ids_lt i (by unfold allIds idsOf; simp only [List.mem_append]; tauto))]
      exact hs.paid_cls i hi'
    · intro i hi
      have hi' : i ∈ s.freeQueue := hi
      show (tokAt s' i).cls = ClassFree
      rw [htok_old i (hs.ids_lt i (by unfold allIds idsOf; simp only [List.mem_append]; tauto))]
      exact hs.free_cls i hi'
    · intro i hi
      have hi' : i ∈ s.anonQueue := hi
      show (tokAt s' i).cls ≠ ClassPaid ∧ (tokAt s' i).cls ≠ ClassFree
      rw [htok_old i (hs.ids_lt i (by unfold allIds idsOf; simp only [List.mem_append]; tauto))]
      exact hs.anon_cls i hi'
    · intro i hi hq
      have hi' : i < s.nextID + 1 := hi
      show (tokAt s' i).queueIndex = -1
      rcases Nat.lt_or_ge i s.nextID with h | h
      · rw [htok_old i h]
        refine hs.qidx_sent i h ?_
        rw [← htok_old i h]
        exact hq
      · have heq : i = s.nextID := by omega
        subst heq
        rw [htok_new]
    · exact hs.cap_le
    · intro e he htype
      have he' : e ∈ s.events ++ [rejectEvent tick (mkToken s.nextID cls tick)] := he
      show ∃ i, i < s.nextID + 1 ∧ _
      rcases List.mem_append.1 he' with hm | hm
      · obtain ⟨i, hi, hid, hstate⟩ := hs.sched_ev e hm htype
        refine ⟨i, by omega, hid, ?_⟩
        show (tokAt s' i).state = _ ∨ (tokAt s' i).state = _
        rw [htok_old i hi]
        exact hstate
      · rw [List.mem_singleton] at hm
        subst hm
        have : EventReject = EventSchedule := htype
        exact absurd this (by decide)
  · -- queued arrival
    have hrej' : shouldReject s cls = false := by
      rcases Bool.eq_false_or_eq_true (shouldReject s cls) with h | h
      · exact absurd h hrej
      · exact h
    rw [processArrival_queue tick cls s hrej']
    set tok : Token :=
      { mkToken s.nextID cls tick with
          state := StateQueued, stageId := StageQueue, queueIndex := -1 } with htokdef
    set s2 : SimState :=
      { s with nextID := s.nextID + 1, tokens := s.tokens ++ [tok] } with hs2def
    obtain ⟨e1, e2, e3, e4, e5, e6⟩ := enqueue_spec s2 s.nextID cls
    set s' : SimState :=
      { enqueue s2 s.nextID cls with
        events := s.events ++ [queueEvent tick (mkToken s.nextID cls tick)] } with hs'def
    have hsv' : s'.inService = s.inService := by
      show (enqueue s2 s.nextID cls).inService = s.inService
      rw [e3]
    have htokens : s'.tokens = s.tokens ++ [tok] := by
      show (enqueue s2 s.nextID cls).tokens = _
      rw [e2]
    have hnid : s'.nextID = s.nextID + 1 := by
      show (enqueue s2 s.nextID cls).nextID = _
      rw [e1]
    have hsnaps : s'.snapshots = s.snapshots := by
      show (enqueue s2 s.nextID cls).snapshots = _
      rw [e4]
    have htok_old : ∀ i, i < s.nextID → tokAt s' i = tokAt s i := by
      intro i hi
      show s'.tokens.getD i default = _
      rw [htokens]
      exact getD_append_lt _ _ _ (by omega)
    have htok_new : tokAt s' s.nextID = tok := by
      show s'.tokens.getD s.nextID default = tok
      rw [htokens, ← hlen]
      exact getD_append_self _ _
    have htokst : tok.state = StateQueued := rfl
    have htokcls : tok.cls = cls := rfl
    have hqsplit :
        (cls = ClassPaid ∧ s'.paidQueue = s.paidQueue ++ [s.nextID] ∧
          s'.freeQueue = s.freeQueue ∧ s'.anonQueue = s.anonQueue) ∨
        (cls ≠ ClassPaid ∧ cls = ClassFree ∧ s'.paidQueue = s.paidQueue ∧
          s'.freeQueue = s.freeQueue ++ [s.nextID] ∧ s'.anonQueue = s.anonQueue) ∨
        (cls ≠ ClassPaid ∧ cls ≠ ClassFree ∧ s'.paidQueue = s.paidQueue ∧
          s'.freeQueue = s.freeQueue ∧ s'.anonQueue = s.anonQueue ++ [s.nextID]) := by
      rcases e6 with ⟨hc, h1, h2, h3⟩ | ⟨hc, hc2, h1, h2, h3⟩ | ⟨hc, hc2, h1, h2, h3⟩
      · exact Or.inl ⟨hc, h1, h2, h3⟩
      · exact Or.inr (Or.inl ⟨hc, hc2, h1, h2, h3⟩)
      · exact Or.inr (Or.inr ⟨hc, hc2, h1, h2, h3⟩)
    have hmemq : ∀ y, y ∈ idsOf s' ↔ y ∈ idsOf s ∨ y = s.nextID := by
      intro y
      rcases hqsplit with ⟨-, h1, h2, h3⟩ | ⟨-, -, h1, h2, h3⟩ | ⟨-, -, h1, h2, h3⟩ <;>
        unfold idsOf <;> rw [h1, h2, h3] <;> simp only [List.mem_append, List.mem_singleton] <;>
        tauto
    have hperm : List.Perm (allIds s') (allIds s ++ [s.nextID]) := by
      rcases hqsplit with ⟨-, h1, h2, h3⟩ | ⟨-, -, h1, h2, h3⟩ | ⟨-, -, h1, h2, h3⟩ <;>
        unfold allIds idsOf <;> rw [h1, h2, h3, hsv'] <;>
        refine List.perm_iff_count.2 (fun y => ?_) <;>
        simp only [List.count_append] <;> ring
    have hnodup' : (allIds s').Nodup := by
      have hsnoc : (allIds s ++ [s.nextID]).Nodup := by
        refine List.Nodup.append hs.nodup (List.nodup_singleton _) ?_
        intro y hy hy2
        rw [List.mem_singleton] at hy2
        subst hy2
        exact hfresh _ hy rfl
      exact hperm.nodup_iff.2 hsnoc
    have hmemall : ∀ y, y ∈ allIds s' ↔ y ∈ allIds s ∨ y = s.nextID := by
      intro y
      rw [hperm.mem_iff, List.mem_append, List.mem_singleton]
    refine ⟨?_, hnid, htok_old, by rw [htok_new]; rfl, ?_, ?_, ?_, hsv',
      ⟨_, rfl, Or.inl rfl, rfl⟩, hsnaps⟩
    · refine ⟨?_, ?_, ?_, ?_, ?_, ?_, ?_, ?_, ?_, ?_, ?_, ?_, ?_⟩
      · show s'.tokens.length = s'.nextID
        rw [htokens, hnid]
        simp [hlen]
      · intro i hi
        rw [hnid] at hi
        rcases Nat.lt_or_ge i s.nextID with h | h
        · rw [htok_old i h]
          exact hs.id_eq i h
        · have heq : i = s.nextID := by omega
          subst heq
          rw [htok_new]
          rfl
      · intro i hi
        rw [hmemall] at hi
        rw [hnid]
        rcases hi with hi | hi
        · have := hs.ids_lt i hi
          omega
        · omega
      · exact hnodup'
      · intro i hi
        rw [hnid] at hi
        rw [hmemq]
        rcases Nat.lt_or_ge i s.nextID with h | h
        · rw [htok_old i h]
          rw [hs.queued_iff i h]
          constructor
          · exact Or.inl
          · rintro (hq | hq)
            · exact hq
            · omega
        · have heq : i = s.nextID := by omega
          subst heq
          rw [htok_new, htokst]
          constructor
          · intro _
            exact Or.inr rfl
          · intro _
            rfl
      · intro i hi
        rw [hnid] at hi
        rw [hsv']
        rcases Nat.lt_or_ge i s.nextID with h | h
        · rw [htok_old i h]
          exact hs.proc_iff i h
        · have heq : i = s.nextID := by omega
          subst heq
          rw [htok_new, htokst]
          constructor
          · intro hq
            exact absurd hq (by decide)
          · intro hq
            exact absurd rfl (hfresh _ (List.mem_append_right _ hq))
      · intro i hi
        rw [hnid] at hi
        rcases Nat.lt_or_ge i s.nextID with h | h
        · rw [htok_old i h]
          exact hs.state_mem i h
        · have heq : i = s.nextID := by omega
          subst heq
          rw [htok_new, htokst]
          exact Or.inl rfl
      · intro i hi
        rcases hqsplit with ⟨hc, h1, h2, h3⟩ | ⟨-, -, h1, h2, h3⟩ | ⟨-, -, h1, h2, h3⟩ <;>
          rw [h1] at hi
        · rcases List.mem_append.1 hi with hm | hm
          · rw [htok_old i (hs.ids_lt i (by unfold allIds idsOf; simp only [List.mem_append]; tauto))]
            exact hs.paid_cls i hm
          · rw [List.mem_singleton] at hm
            subst hm
            rw [htok_new, htokcls, hc]
        · rw [htok_old i (hs.ids_lt i (by unfold allIds idsOf; simp only [List.mem_append]; tauto))]
          exact hs.paid_cls i hi
        · rw [htok_old i (hs.ids_lt i (by unfold allIds idsOf; simp only [List.mem_append]; tauto))]
          exact hs.paid_cls i hi
      · intro i hi
        rcases hqsplit with ⟨-, h1, h2, h3⟩ | ⟨-, hc, h1, h2, h3⟩ | ⟨-, -, h1, h2, h3⟩ <;>
          rw [h2] at hi
        · rw [htok_old i (hs.ids_lt i (by unfold allIds idsOf; simp only [List.mem_append]; tauto))]
          exact hs.free_cls i hi
        · rcases List.mem_append.1 hi with hm | hm
          · rw [htok_old i (hs.ids_lt i (by unfold allIds idsOf; simp only [List.mem_append]; tauto))]
            exact hs.free_cls i hm
          · rw [List.mem_singleton] at hm
            subst hm
            rw [htok_new, htokcls, hc]
        · rw [htok_old i (hs.ids_lt i (by unfold allIds idsOf; simp only [List.mem_append]; tauto))]
          exact hs.free_cls i hi
      · intro i hi
        rcases hqsplit with ⟨-, h1, h2, h3⟩ | ⟨-, -, h1, h2, h3⟩ | ⟨hcp, hcf, h1, h2, h3⟩ <;>
          rw [h3] at hi
        · rw [htok_old i (hs.ids_lt i (by unfold allIds idsOf; simp only [List.mem_append]; tauto))]
          exact hs.anon_cls i hi
        · rw [htok_old i (hs.ids_lt i (by unfold allIds idsOf; simp only [List.mem_append]; tauto))]
          exact hs.anon_cls i hi
        · rcases List.mem_append.1 hi with hm | hm
          · rw [htok_old i (hs.ids_lt i (by unfold allIds idsOf; simp only [List.mem_append]; tauto))]
            exact hs.anon_cls i hm
          · rw [List.mem_singleton] at hm
            subst hm
            rw [htok_new, htokcls]
            exact ⟨hcp, hcf⟩
      · intro i hi hq
        rw [hnid] at hi
        rcases Nat.lt_or_ge i s.nextID with h | h
        · rw [htok_old i h] at hq ⊢
          exact hs.qidx_sent i h hq
        · have heq : i = s.nextID := by omega
          subst heq
          rw [htok_new]
      · show s'.inService.length ≤ capacity
        rw [hsv']
        exact hs.cap_le
      · intro e he htype
        have he' : e ∈ s.events ++ [queueEvent tick (mkToken s.nextID cls tick)] := he
        rcases List.mem_append.1 he' with hm | hm
        · obtain ⟨i, hi, hid, hstate⟩ := hs.sched_ev e hm htype
          refine ⟨i, by rw [hnid]; omega, hid, ?_⟩
          show (tokAt s' i).state = _ ∨ (tokAt s' i).state = _
          rw [htok_old i hi]
          exact hstate
        · rw [List.mem_singleton] at hm
          subst hm
          have : EventQueue = EventSchedule := htype
          exact absurd this (by decide)
    · rcases hqsplit with ⟨-, h1, -, -⟩ | ⟨-, -, h1, -, -⟩ | ⟨-, -, h1, -, -⟩
      · exact ⟨[s.nextID], h1⟩
      · exact ⟨[], by rw [List.append_nil]; exact h1⟩
      · exact ⟨[], by rw [List.append_nil]; exact h1⟩
    · rcases hqsplit with ⟨-, -, h2, -⟩ | ⟨-, -, -, h2, -⟩ | ⟨-, -, -, h2, -⟩
      · exact ⟨[], by rw [List.append_nil]; exact h2⟩
      · exact ⟨[s.nextID], h2⟩
      · exact ⟨[], by rw [List.append_nil]; exact h2⟩
    · rcases hqsplit with ⟨-, -, -, h3⟩ | ⟨-, -, -, -, h3⟩ | ⟨-, -, -, -, h3⟩
      · exact ⟨[], by rw [List.append_nil]; exact h3⟩
      · exact ⟨[], by rw [List.append_nil]; exact h3⟩
      · exact ⟨[s.nextID], h3⟩

theorem Inv.withRng {s : SimState} (hs : Inv s) (x : Nat) :
    Inv { s with rngIndex := x } :=
  ⟨hs.len_eq, hs.id_eq, hs.ids_lt, hs.nodup, hs.queued_iff, hs.proc_iff, hs.state_mem,
   hs.paid_cls, hs.free_cls, hs.anon_cls, hs.qidx_sent, hs.cap_le, hs.sched_ev⟩

theorem processArrivalList_inv (tick : Nat) (cs : List String) :
    ∀ (s : SimState), Inv s →
    Inv (processArrivalList tick cs s) ∧
    (processArrivalList tick cs s).nextID = s.nextID + cs.length ∧
    (∀ i, i < s.nextID → tokAt (processArrivalList tick cs s) i = tokAt s i) ∧
    (∀ i, s.nextID ≤ i → i < (processArrivalList tick cs s).nextID →
      (tokAt (processArrivalList tick cs s) i).arrivalTick = tick) ∧
    (∃ l, (processArrivalList tick cs s).paidQueue = s.paidQueue ++ l) ∧
    (∃ l, (processArrivalList tick cs s).freeQueue = s.freeQueue ++ l) ∧
    (∃ l, (processArrivalList tick cs s).anonQueue = s.anonQueue ++ l) ∧
    (processArrivalList tick cs s).inService = s.inService ∧
    (∃ l, (processArrivalList tick cs s).events = s.events ++ l ∧
      ∀ e ∈ l, (e.etype = EventQueue ∨ e.etype = EventReject) ∧ e.tick = tick) ∧
    (processArrivalList tick cs s).snapshots = s.snapshots := by
  induction cs with
  | nil =>
    intro s hs
    refine ⟨hs, by simp [processArrivalList], fun i _ => rfl, ?_,
      ⟨[], by simp [processArrivalList]⟩, ⟨[], by simp [processArrivalList]⟩,
      ⟨[], by simp [processArrivalList]⟩, rfl,
      ⟨[], by simp [processArrivalList], by simp⟩, rfl⟩
    intro i h1 h2
    have h2' : i < s.nextID := h2
    omega
  | cons c rest ih =>
    intro s hs
    obtain ⟨p1, p2, p3, p4, p5, p6, p7, p8, p9, p10⟩ := processArrival_inv tick c s hs
    obtain ⟨q1, q2, q3, q4, q5, q6, q7, q8, q9, q10⟩ := ih (processArrival tick c s) p1
    have hred : processArrivalList tick (c :: rest) s =
        processArrivalList tick rest (processArrival tick c s) := rfl
    rw [hred]
    refine ⟨q1, ?_, ?_, ?_, ?_, ?_, ?_, ?_, ?_, ?_⟩
    · rw [q2, p2]
      simp only [List.length_cons]
      omega
    · intro i hi
      rw [q3 i (by omega), p3 i hi]
    · intro i hi1 hi2
      rcases Nat.lt_or_ge i (processArrival tick c s).nextID with h | h
      · have heq : i = s.nextID := by
          rw [p2] at h
          omega
        rw [q3 i h, heq]
        exact p4
      · exact q4 i h hi2
    · obtain ⟨l1, hl1⟩ := p5
      obtain ⟨l2, hl2⟩ := q5
      exact ⟨l1 ++ l2, by rw [hl2, hl1, List.append_assoc]⟩
    · obtain ⟨l1, hl1⟩ := p6
      obtain ⟨l2, hl2⟩ := q6
      exact ⟨l1 ++ l2, by rw [hl2, hl1, List.append_assoc]⟩
    · obtain ⟨l1, hl1⟩ := p7
      obtain ⟨l2, hl2⟩ := q7
      exact ⟨l1 ++ l2, by rw [hl2, hl1, List.append_assoc]⟩
    · rw [q8, p8]
    · obtain ⟨e, he, hety, hetick⟩ := p9
      obtain ⟨l, hl, hlprop⟩ := q9
      refine ⟨[e] ++ l, by rw [hl, he, List.append_assoc], ?_⟩
      intro x hx
      rcases List.mem_append.1 hx with hx | hx
      · rw [List.mem_singleton] at hx
        subst hx
        exact ⟨hety, hetick⟩
      · exact hlprop x hx
    · rw [q10, p10]

theorem arrivals_inv (picks : Nat → String) (tick : Nat) (s : SimState) (hs : Inv s) :
    Inv (arrivals picks tick s) ∧
    (arrivals picks tick s).nextID = s.nextID + arrivalCount tick ∧
    (∀ i, i < s.nextID → tokAt (arrivals picks tick s) i = tokAt s i) ∧
    (∀ i, s.nextID ≤ i → i < (arrivals picks tick s).nextID →
      (tokAt (arrivals picks tick s) i).arrivalTick = tick) ∧
    (∃ l, (arrivals picks tick s).paidQueue = s.paidQueue ++ l) ∧
    (∃ l, (arrivals picks tick s).freeQueue = s.freeQueue ++ l) ∧
    (∃ l, (arrivals picks tick s).anonQueue = s.anonQueue ++ l) ∧
    (arrivals picks tick s).inService = s.inService ∧
    (∃ l, (arrivals picks tick s).events = s.events ++ l ∧
      ∀ e ∈ l, (e.etype = EventQueue ∨ e.etype = EventReject) ∧ e.tick = tick) ∧
    (arrivals picks tick s).snapshots = s.snapshots := by
  have hcount : (arrivalClasses picks s.rngIndex tick (arrivalCount tick)).length =
      arrivalCount tick := by
    unfold arrivalClasses
    split <;> simp
  obtain ⟨q1, q2, q3, q4, q5, q6, q7, q8, q9, q10⟩ :=
    processArrivalList_inv tick (arrivalClasses picks s.rngIndex tick (arrivalCount tick))
      { s with rngIndex := s.rngIndex + arrivalCount tick } (hs.withRng _)
  refine ⟨q1, ?_, q3, ?_, q5, q6, q7, q8, q9, q10⟩
  · show (processArrivalList tick
        (arrivalClasses picks s.rngIndex tick (arrivalCount tick))
        { s with rngIndex := s.rngIndex + arrivalCount tick }).nextID =
      s.nextID + arrivalCount tick
    rw [q2, hcount]
  · intro i h1 h2
    exact q4 i h1 h2

/-! ### Preservation through the scheduling phase -/

theorem admitToken_id (t : Token) : (admitToken t).id = t.id := rfl
theorem admitToken_cls (t : Token) : (admitToken t).cls = t.cls := rfl
theorem admitToken_state (t : Token) : (admitToken t).state = StateProcessing := rfl
theorem admitToken_arrivalTick (t : Token) : (admitToken t).arrivalTick = t.arrivalTick := rfl

/-- The queue concatenation after the loop is the drop of the original. -/
theorem idsOf_drop (s : SimState) (fuel : Nat) :
    s.paidQueue.drop fuel ++ s.freeQueue.drop (fuel - s.paidQueue.length) ++
      s.anonQueue.drop (fuel - s.paidQueue.length - s.freeQueue.length) =
    (idsOf s).drop fuel := by
  unfold idsOf
  rw [List.drop_append_eq_append_drop, List.drop_append_eq_append_drop,
    List.length_append]
  have harith : fuel - s.paidQueue.length - s.freeQueue.length =
      fuel - (s.paidQueue.length + s.freeQueue.length) := by omega
  rw [harith]

theorem schedule_inv (tick : Nat) (s : SimState) (hs : Inv s) :
    Inv (schedule tick s) ∧
    (schedule tick s).nextID = s.nextID ∧
    (schedule tick s).snapshots = s.snapshots ∧
    (∃ l, (schedule tick s).events = s.events ++ l ∧
      ∀ e ∈ l, e.etype = EventSchedule ∧ e.tick = tick) ∧
    (∀ i, i ∉ (idsOf s).take (capacity - s.inService.length) →
      tokAt (schedule tick s) i = tokAt s i) := by
  set fuel := capacity - s.inService.length with hfuel
  obtain ⟨jni, jrg, jsn, jpq, jfq, jaq, jsv, jev, jlen, jin, jout⟩ :=
    scheduleLoop_spec tick fuel s hs.queues_nodup hs.queues_lt
  have hred : schedule tick s = scheduleLoop tick fuel s := rfl
  set batch := (idsOf s).take fuel with hbatch
  have hbatch_sub : ∀ j ∈ batch, j ∈ idsOf s := fun j hj => List.mem_of_mem_take hj
  have hbatch_lt : ∀ j ∈ batch, j < s.nextID :=
    fun j hj => hs.ids_lt j (List.mem_append_left _ (hbatch_sub j hj))
  have hbatch_nd : batch.Nodup := hs.queues_nodup.sublist (List.take_sublist _ _)
  have hids' : idsOf (scheduleLoop tick fuel s) = (idsOf s).drop fuel := by
    unfold idsOf
    rw [jpq, jfq, jaq]
    exact idsOf_drop s fuel
  have htkdsj : ∀ j ∈ (idsOf s).drop fuel, j ∉ batch := by
    intro j hjd hjt
    exact List.disjoint_take_drop hs.queues_nodup (le_refl fuel) hjt hjd
  have hqueued_batch : ∀ j ∈ batch, (tokAt s j).state = StateQueued := by
    intro j hj
    exact (hs.queued_iff j (hbatch_lt j hj)).2 (hbatch_sub j hj)
  have hsvdsj : ∀ j ∈ batch, j ∉ s.inService := by
    intro j hj
    exact hs.disjoint_queues_service j (hbatch_sub j hj)
  refine ⟨?_, by rw [hred, jni], by rw [hred, jsn], ?_, ?_⟩
  · rw [hred]
    refine ⟨?_, ?_, ?_, ?_, ?_, ?_, ?_, ?_, ?_, ?_, ?_, ?_, ?_⟩
    · show (scheduleLoop tick fuel s).tokens.length = (scheduleLoop tick fuel s).nextID
      rw [jlen, jni, hs.len_eq]
    · intro i hi
      have hi' : i < s.nextID := by rw [← jni]; exact hi
      show (tokAt (scheduleLoop tick fuel s) i).id = tokenName i
      by_cases hb : i ∈ batch
      · show ((scheduleLoop tick fuel s).tokens.getD i default).id = _
        rw [jin i hb, admitToken_id]
        exact hs.id_eq i hi'
      · show ((scheduleLoop tick fuel s).tokens.getD i default).id = _
        rw [jout i hb]
        exact hs.id_eq i hi'
    · intro i hi
      show i < (scheduleLoop tick fuel s).nextID
      rw [jni]
      unfold allIds at hi
      rcases List.mem_append.1 hi with hq | hv
      · rw [hids'] at hq
        exact hs.ids_lt i (List.mem_append_left _ (List.mem_of_mem_drop hq))
      · rw [jsv] at hv
        rcases List.mem_append.1 hv with hv | hv
        · exact hs.ids_lt i (List.mem_append_right _ hv)
        · exact hbatch_lt i hv
    · show (idsOf (scheduleLoop tick fuel s) ++ (scheduleLoop tick fuel s).inService).Nodup
      rw [hids', jsv]
      have hperm : List.Perm ((idsOf s).drop fuel ++ (s.inService ++ batch))
          (idsOf s ++ s.inService) := by
        refine List.perm_iff_count.2 (fun y => ?_)
        simp only [List.count_append]
        have : (idsOf s).count y = batch.count y + ((idsOf s).drop fuel).count y := by
          conv_lhs => rw [← List.take_append_drop fuel (idsOf s)]
          rw [List.count_append]
        omega
      exact hperm.nodup_iff.2 hs.nodup
    · intro i hi
      have hi' : i < s.nextID := by rw [← jni]; exact hi
      show (tokAt (scheduleLoop tick fuel s) i).state = StateQueued ↔
        i ∈ idsOf (scheduleLoop tick fuel s)
      rw [hids']
      by_cases hb : i ∈ batch
      · show ((scheduleLoop tick fuel s).tokens.getD i default).state = _ ↔ _
        rw [jin i hb, admitToken_state]
        constructor
        · intro hq
          exact absurd hq.symm (by decide)
        · intro hq
          exact absurd hb (htkdsj i hq)
      · have heq : tokAt (scheduleLoop tick fuel s) i = tokAt s i := jout i hb
        rw [heq]
        constructor
        · intro hq
          have hmem : i ∈ idsOf s := (hs.queued_iff i hi').1 hq
          have hsplit : i ∈ (idsOf s).take fuel ++ (idsOf s).drop fuel := by
            rw [List.take_append_drop]
            exact hmem
          rcases List.mem_append.1 hsplit with h | h
          · exact absurd h hb
          · exact h
        · intro hq
          exact (hs.queued_iff i hi').2 (List.mem_of_mem_drop hq)
    · intro i hi
      have hi' : i < s.nextID := by rw [← jni]; exact hi
      show (tokAt (scheduleLoop tick fuel s) i).state = StateProcessing ↔
        i ∈ (scheduleLoop tick fuel s).inService
      rw [jsv]
      by_cases hb : i ∈ batch
      · show ((scheduleLoop tick fuel s).tokens.getD i default).state = _ ↔ _
        rw [jin i hb, admitToken_state]
        simp [hb]
      · have heq : tokAt (scheduleLoop tick fuel s) i = tokAt s i := jout i hb
        rw [heq]
        constructor
        · intro hq
          exact List.mem_append_left _ ((hs.proc_iff i hi').1 hq)
        · intro hq
          rcases List.mem_append.1 hq with h | h
          · exact (hs.proc_iff i hi').2 h
          · exact absurd h hb
    · intro i hi
      have hi' : i < s.nextID := by rw [← jni]; exact hi
      by_cases hb : i ∈ batch
      · have hst : (tokAt (scheduleLoop tick fuel s) i).state = StateProcessing := by
          show ((scheduleLoop tick fuel s).tokens.getD i default).state = _
          rw [jin i hb, admitToken_state]
        exact Or.inr (Or.inl hst)
      · have heq : tokAt (scheduleLoop tick fuel s) i = tokAt s i := jout i hb
        rw [heq]
        exact hs.state_mem i hi'
    · intro i hi
      have hi0 : i ∈ s.paidQueue.drop fuel := by
        rw [← jpq]
        exact hi
      have hip : i ∈ s.paidQueue := List.mem_of_mem_drop hi0
      have hib : i ∉ batch := by
        intro hb
        refine htkdsj i ?_ hb
        rw [← idsOf_drop]
        exact List.mem_append_left _ (List.mem_append_left _ hi0)
      show ((scheduleLoop tick fuel s).tokens.getD i default).cls = ClassPaid
      rw [jout i hib]
      exact hs.paid_cls i hip
    · intro i hi
      have hi0 : i ∈ s.freeQueue.drop (fuel - s.paidQueue.length) := by
        rw [← jfq]
        exact hi
      have hip : i ∈ s.freeQueue := List.mem_of_mem_drop hi0
      have hib : i ∉ batch := by
        intro hb
        refine htkdsj i ?_ hb
        rw [← idsOf_drop]
        exact List.mem_append_left _ (List.mem_append_right _ hi0)
      show ((scheduleLoop tick fuel s).tokens.getD i default).cls = ClassFree
      rw [jout i hib]
      exact hs.free_cls i hip
    · intro i hi
      have hi0 : i ∈ s.anonQueue.drop (fuel - s.paidQueue.length - s.freeQueue.length) := by
        rw [← jaq]
        exact hi
      have hip : i ∈ s.anonQueue := List.mem_of_mem_drop hi0
      have hib : i ∉ batch := by
        intro hb
        refine htkdsj i ?_ hb
        rw [← idsOf_drop]
        exact List.mem_append_right _ hi0
      show ((scheduleLoop tick fuel s).tokens.getD i default).cls ≠ ClassPaid ∧
        ((scheduleLoop tick fuel s).tokens.getD i default).cls ≠ ClassFree
      rw [jout i hib]
      exact hs.anon_cls i hip
    · intro i hi hq
      have hi' : i < s.nextID := by rw [← jni]; exact hi
      by_cases hb : i ∈ batch
      · show ((scheduleLoop tick fuel s).tokens.getD i default).queueIndex = -1
        rw [jin i hb]
        rfl
      · show ((scheduleLoop tick fuel s).tokens.getD i default).queueIndex = -1
        rw [jout i hb]
        refine hs.qidx_sent i hi' ?_
        intro hcontra
        apply hq
        show ((scheduleLoop tick fuel s).tokens.getD i default).state = StateQueued
        rw [jout i hb]
        exact hcontra
    · show (scheduleLoop tick fuel s).inService.length ≤ capacity
      rw [jsv, List.length_append]
      have h1 : batch.length ≤ fuel := by
        rw [hbatch]
        exact le_trans (List.length_take_le _ _) (le_refl _)
      have h2 : s.inService.length ≤ capacity := hs.cap_le
      rw [hfuel] at h1
      omega
    · intro e he htype
      rw [jev] at he
      rcases List.mem_append.1 he with he | he
      · obtain ⟨i, hi, hid, hstate⟩ := hs.sched_ev e he htype
        refine ⟨i, by rw [jni]; exact hi, hid, ?_⟩
        by_cases hb : i ∈ batch
        · have hst : (tokAt (scheduleLoop tick fuel s) i).state = StateProcessing := by
            show ((scheduleLoop tick fuel s).tokens.getD i default).state = _
            rw [jin i hb, admitToken_state]
          exact Or.inl hst
        · have heq : tokAt (scheduleLoop tick fuel s) i = tokAt s i := jout i hb
          rw [heq]
          exact hstate
      · obtain ⟨j, hj, rfl⟩ := List.mem_map.1 he
        refine ⟨j, by rw [jni]; exact hbatch_lt j hj, ?_, ?_⟩
        · show (s.tokens.getD j default).id = tokenName j
          exact hs.id_eq j (hbatch_lt j hj)
        · have hst : (tokAt (scheduleLoop tick fuel s) j).state = StateProcessing := by
            show ((scheduleLoop tick fuel s).tokens.getD j default).state = _
            rw [jin j hj, admitToken_state]
          exact Or.inl hst
  · refine ⟨_, by rw [hred, jev], ?_⟩
    intro e he
    obtain ⟨j, hj, rfl⟩ := List.mem_map.1 he
    exact ⟨rfl, rfl⟩
  · intro i hib
    rw [hred]
    show (scheduleLoop tick fuel s).tokens.getD i default = _
    rw [jout i hib]
    rfl

/-! ### Preservation through index recomputation and the full step -/

theorem updateQueueIndices_inv (s : SimState) (hs : Inv s) :
    Inv (updateQueueIndices s) ∧
    (updateQueueIndices s).nextID = s.nextID ∧
    (updateQueueIndices s).events = s.events ∧
    (updateQueueIndices s).snapshots = s.snapshots ∧
    (∀ i, i < s.nextID → (tokAt (updateQueueIndices s) i).state = (tokAt s i).state ∧
      (tokAt (updateQueueIndices s) i).id = (tokAt s i).id ∧
      (tokAt (updateQueueIndices s) i).cls = (tokAt s i).cls ∧
      (tokAt (updateQueueIndices s) i).arrivalTick = (tokAt s i).arrivalTick) ∧
    (∀ i, i < s.nextID → (tokAt s i).state ≠ StateQueued →
      tokAt (updateQueueIndices s) i = tokAt s i) ∧
    (∀ i ∈ idsOf s, (tokAt (updateQueueIndices s) i).queueIndex =
      Int.ofNat ((idsOf s).indexOf i)) := by
  obtain ⟨u1, u2, u3, u4, u5, u6, u7, u8, u9, u10, u11⟩ :=
    updateQueueIndices_spec s hs.queues_nodup hs.queues_lt
  have hnotq : ∀ i, i < s.nextID → i ∉ idsOf s →
      tokAt (updateQueueIndices s) i = tokAt s i := by
    intro i hi hni
    show (updateQueueIndices s).tokens.getD i default = _
    rw [u11 i (by rw [hs.len_eq]; exact hi) hni]
    rw [if_neg (show ¬ (s.tokens.getD i default).state = StateQueued from
      fun hq => hni ((hs.queued_iff i hi).1 hq))]
    rfl
  have hinq : ∀ i ∈ idsOf s, tokAt (updateQueueIndices s) i =
      { tokAt s i with queueIndex := Int.ofNat ((idsOf s).indexOf i) } := by
    intro i hi
    show (updateQueueIndices s).tokens.getD i default = _
    exact u10 i hi
  have hfields : ∀ i, i < s.nextID →
      (tokAt (updateQueueIndices s) i).state = (tokAt s i).state ∧
      (tokAt (updateQueueIndices s) i).id = (tokAt s i).id ∧
      (tokAt (updateQueueIndices s) i).cls = (tokAt s i).cls ∧
      (tokAt (updateQueueIndices s) i).arrivalTick = (tokAt s i).arrivalTick := by
    intro i hi
    by_cases hq : i ∈ idsOf s
    · rw [hinq i hq]
      exact ⟨rfl, rfl, rfl, rfl⟩
    · rw [hnotq i hi hq]
      exact ⟨rfl, rfl, rfl, rfl⟩
  refine ⟨?_, rfl, u7, u6, hfields, ?_, ?_⟩
  · refine ⟨?_, ?_, ?_, ?_, ?_, ?_, ?_, ?_, ?_, ?_, ?_, ?_, ?_⟩
    · show (updateQueueIndices s).tokens.length = s.nextID
      rw [u9, hs.len_eq]
    · intro i hi
      have hi' : i < s.nextID := hi
      rw [(hfields i hi').2.1]
      exact hs.id_eq i hi'
    · intro i hi
      have hi2 : i ∈ allIds s := by
        unfold allIds idsOf at hi ⊢
        rw [u2, u3, u4, u5] at hi
        exact hi
      exact hs.ids_lt i hi2
    · show (idsOf (updateQueueIndices s) ++ (updateQueueIndices s).inService).Nodup
      have : idsOf (updateQueueIndices s) = idsOf s := by
        unfold idsOf
        rw [u2, u3, u4]
      rw [this, u5]
      exact hs.nodup
    · intro i hi
      have hi' : i < s.nextID := hi
      rw [(hfields i hi').1]
      have : idsOf (updateQueueIndices s) = idsOf s := by
        unfold idsOf
        rw [u2, u3, u4]
      rw [this]
      exact hs.queued_iff i hi'
    · intro i hi
      have hi' : i < s.nextID := hi
      rw [(hfields i hi').1, u5]
      exact hs.proc_iff i hi'
    · intro i hi
      have hi' : i < s.nextID := hi
      rcases hs.state_mem i hi' with h | h | h | h <;>
        rw [← (hfields i hi').1] at h
      · exact Or.inl h
      · exact Or.inr (Or.inl h)
      · exact Or.inr (Or.inr (Or.inl h))
      · exact Or.inr (Or.inr (Or.inr h))
    · intro i hi
      have hi' : i ∈ s.paidQueue := by rw [← u2]; exact hi
      have := hs.paid_cls i hi'
      have hilt := hs.ids_lt i (List.mem_append_left _
        (by unfold idsOf; simp only [List.mem_append]; tauto))
      rw [(hfields i hilt).2.2.1]
      exact this
    · intro i hi
      have hi' : i ∈ s.freeQueue := by rw [← u3]; exact hi
      have := hs.free_cls i hi'
      have hilt := hs.ids_lt i (List.mem_append_left _
        (by unfold idsOf; simp only [List.mem_append]; tauto))
      rw [(hfields i hilt).2.2.1]
      exact this
    · intro i hi
      have hi' : i ∈ s.anonQueue := by rw [← u4]; exact hi
      have := hs.anon_cls i hi'
      have hilt := hs.ids_lt i (List.mem_append_left _
        (by unfold idsOf; simp only [List.mem_append]; tauto))
      rw [(hfields i hilt).2.2.1]
      exact this
    · intro i hi hq
      have hi' : i < s.nextID := hi
      have hqold : (tokAt s i).state ≠ StateQueued := by
        intro h
        apply hq
        rw [(hfields i hi').1]
        exact h
      rw [hnotq i hi' (fun hm => hqold ((hs.queued_iff i hi').2 hm))]
      exact hs.qidx_sent i hi' hqold
    · show (updateQueueIndices s).inService.length ≤ capacity
      rw [u5]
      exact hs.cap_le
    · intro e he htype
      rw [u7] at he
      obtain ⟨i, hi, hid, hstate⟩ := hs.sched_ev e he htype
      refine ⟨i, hi, hid, ?_⟩
      rcases hstate with h | h
      · exact Or.inl (by rw [(hfields i hi).1]; exact h)
      · exact Or.inr (by rw [(hfields i hi).1]; exact h)
  · intro i hi hq
    exact hnotq i hi (fun hm => hq ((hs.queued_iff i hi).2 hm))
  · intro i hi
    rw [hinq i hi]

theorem Inv.withSnaps {s : SimState} (hs : Inv s) (x : List Snapshot) :
    Inv { s with snapshots := x } :=
  ⟨hs.len_eq, hs.id_eq, hs.ids_lt, hs.nodup, hs.queued_iff, hs.proc_iff, hs.state_mem,
   hs.paid_cls, hs.free_cls, hs.anon_cls, hs.qidx_sent, hs.cap_le, hs.sched_ev⟩

theorem step_inv (picks : Nat → String) (tick : Nat) (s : SimState) (hs : Inv s) :
    Inv (step picks tick s) := by
  obtain ⟨h1, -⟩ := nextService_inv tick s hs
  obtain ⟨h2, -⟩ := arrivals_inv picks tick (nextService tick s) h1
  obtain ⟨h3, -⟩ := schedule_inv tick (arrivals picks tick (nextService tick s)) h2
  obtain ⟨h4, -⟩ := updateQueueIndices_inv
    (schedule tick (arrivals picks tick (nextService tick s))) h3
  exact h4.withSnaps _

theorem stateAfter_inv (picks : Nat → String) : ∀ n, Inv (stateAfter picks n)
  | 0 => Inv.initState
  | n + 1 => step_inv picks n _ (stateAfter_inv picks n)

/-! ## Snapshot correspondence

The snapshot recorded at tick `t` is a pure projection of the simulator state
after `t + 1` ticks (nothing after the snapshot capture mutates state within
the tick). -/

theorem step_snapshots (picks : Nat → String) (tick : Nat) (s : SimState) (hs : Inv s) :
    (step picks tick s).snapshots = s.snapshots ++
      [{ tick := tick, timeMs := tick * TickDurationMs,
         tokens := snapshotTokens (step picks tick s),
         stages := snapshotStages (step picks tick s) }] := by
  obtain ⟨h1, -⟩ := nextService_inv tick s hs
  obtain ⟨h2, -, -, -, -, -, -, -, -, hsn2⟩ := arrivals_inv picks tick (nextService tick s) h1
  obtain ⟨h3, -, hsn3, -⟩ := schedule_inv tick (arrivals picks tick (nextService tick s)) h2
  have hchain : (updateQueueIndices
      (schedule tick (arrivals picks tick (nextService tick s)))).snapshots = s.snapshots := by
    show (schedule tick (arrivals picks tick (nextService tick s))).snapshots = s.snapshots
    rw [hsn3, hsn2]
    rfl
  show (updateQueueIndices _).snapshots ++ _ = _
  rw [hchain]
  rfl

theorem stateAfter_snapshots_length (picks : Nat → String) :
    ∀ n, (stateAfter picks n).snapshots.length = n
  | 0 => rfl
  | n + 1 => by
    show (step picks n (stateAfter picks n)).snapshots.length = n + 1
    rw [step_snapshots picks n _ (stateAfter_inv picks n)]
    simp [stateAfter_snapshots_length picks n]

theorem snapshots_getD (picks : Nat → String) (t : Nat) :
    ∀ n, t < n →
    (stateAfter picks n).snapshots.getD t default =
      { tick := t, timeMs := t * TickDurationMs,
        tokens := snapshotTokens (stateAfter picks (t + 1)),
        stages := snapshotStages (stateAfter picks (t + 1)) }
  | 0, h => absurd h (by omega)
  | n + 1, h => by
    show (step picks n (stateAfter picks n)).snapshots.getD t default = _
    rw [step_snapshots picks n _ (stateAfter_inv picks n)]
    rcases Nat.lt_or_ge t n with hlt | hge
    · rw [getD_append_lt _ _ _ (by rw [stateAfter_snapshots_length]; exact hlt)]
      exact snapshots_getD picks t n hlt
    · have heq : t = n := by omega
      subst heq
      have hself : ∀ (A : List Snapshot) (x : Snapshot), A.length = t →
          (A ++ [x]).getD t default = x := by
        intro A x hA
        rw [← hA]
        exact getD_append_self _ _
      exact hself _ _ (stateAfter_snapshots_length picks t)

/-! ## Claim C4: the capacity invariant -/

/-- C4.  Capacity: the in-service set never exceeds the fixed capacity 3 — at
every tick boundary and after every phase of a tick — and in every snapshot of
every successful run the service stage has `capacity_used ≤ capacity_total`. -/
theorem capacity_invariant :
    capacity = 3 ∧
    (∀ (picks : Nat → String) (n : Nat),
      (stateAfter picks n).inService.length ≤ capacity) ∧
    (∀ (picks : Nat → String) (tick : Nat) (s : SimState), Inv s →
      (nextService tick s).inService.length ≤ capacity ∧
      (arrivals picks tick (nextService tick s)).inService.length ≤ capacity ∧
      (schedule tick (arrivals picks tick (nextService tick s))).inService.length ≤ capacity ∧
      (step picks tick s).inService.length ≤ capacity) ∧
    (∀ (picks : Nat → String) (cfg : Config) (art : Artifact),
      RunWith picks cfg = Except.ok art →
      ∀ snap ∈ art.snapshots, ∀ st ∈ snap.stages,
        st.id = StageService → st.capacityUsed ≤ st.capacityTotal) := by
  have hmid : ∀ (picks : Nat → String) (tick : Nat) (s : SimState), Inv s →
      (nextService tick s).inService.length ≤ capacity ∧
      (arrivals picks tick (nextService tick s)).inService.length ≤ capacity ∧
      (schedule tick (arrivals picks tick (nextService tick s))).inService.length ≤ capacity ∧
      (step picks tick s).inService.length ≤ capacity := by
    intro picks tick s hs
    obtain ⟨h1, -⟩ := nextService_inv tick s hs
    obtain ⟨h2, -⟩ := arrivals_inv picks tick (nextService tick s) h1
    obtain ⟨h3, -⟩ := schedule_inv tick (arrivals picks tick (nextService tick s)) h2
    obtain ⟨h4, -⟩ := updateQueueIndices_inv
      (schedule tick (arrivals picks tick (nextService tick s))) h3
    exact ⟨h1.cap_le, h2.cap_le, h3.cap_le, (h4.withSnaps _).cap_le⟩
  have hsnap : ∀ (picks : Nat → String) (n : Nat),
      ∀ snap ∈ (stateAfter picks n).snapshots, ∀ st ∈ snap.stages,
        st.id = StageService → st.capacityUsed ≤ st.capacityTotal := by
    intro picks n
    induction n with
    | zero =>
      intro snap hsnapmem
      exact absurd hsnapmem (by simp [stateAfter, Finit.initState])
    | succ m ih =>
      intro snap hsnapmem st hst hid
      have hm : (stateAfter picks (m + 1)).snapshots =
          (stateAfter picks m).snapshots ++
          [{ tick := m, timeMs := m * TickDurationMs,
             tokens := snapshotTokens (stateAfter picks (m + 1)),
             stages := snapshotStages (stateAfter picks (m + 1)) }] :=
        step_snapshots picks m _ (stateAfter_inv picks m)
      rw [hm] at hsnapmem
      rcases List.mem_append.1 hsnapmem with hmem | hmem
      · exact ih snap hmem st hst hid
      · rw [List.mem_singleton] at hmem
        subst hmem
        simp only [snapshotStages, List.mem_cons, List.not_mem_nil, or_false] at hst
        rcases hst with rfl | rfl | rfl | rfl
        · exact absurd (show StageQueue = StageService from hid) (by decide)
        · show (stateAfter picks (m + 1)).inService.length ≤ capacity
          exact (stateAfter_inv picks (m + 1)).cap_le
        · exact absurd hid (by decide)
        · exact absurd hid (by decide)
  refine ⟨rfl, ?_, hmid, ?_⟩
  · intro picks n
    exact (stateAfter_inv picks n).cap_le
  · intro picks cfg art hok snap hsnapmem st hst hid
    have hsnaps : art.snapshots = (runSim picks).snapshots := by
      by_cases h : cfg.scenarioId = "" ∨ cfg.scenarioId = ScenarioID
      · rw [RunWith_ok picks cfg h] at hok
        injection hok with hart
        rw [← hart]
      · push_neg at h
        rw [RunWith_error picks cfg h.1 h.2] at hok
        cases hok
    rw [hsnaps] at hsnapmem
    exact hsnap picks TickCount snap hsnapmem st hst hid

/-- Witness for C4: a successful concrete run whose snapshots all satisfy the
capacity bound. -/
theorem capacity_invariant_witness :
    ∃ art : Artifact,
      RunWith (fun _ => ClassAnon) { scenarioId := "", seed := 0 } = Except.ok art ∧
      ∀ snap ∈ art.snapshots, ∀ st ∈ snap.stages,
        st.id = StageService → st.capacityUsed ≤ st.capacityTotal := by
  refine ⟨_, RunWith_ok (fun _ => ClassAnon) { scenarioId := "", seed := 0 } (Or.inl rfl), ?_⟩
  exact capacity_invariant.2.2.2 (fun _ => ClassAnon) { scenarioId := "", seed := 0 } _
    (RunWith_ok (fun _ => ClassAnon) { scenarioId := "", seed := 0 } (Or.inl rfl))

/-! ## Event ordering (phase order within a tick, ascending ticks) -/

/-- The phase that emits an event, as a rank within its tick: completions
(phase 1) before admissions/rejections (phase 2) before schedulings (phase 3). -/
def phaseRank (e : Event) : Nat :=
  if e.etype = EventComplete then 0
  else if e.etype = EventSchedule then 2
  else 1

/-- Sort key of an event in the trace: tick first, phase rank second. -/
def evKey (e : Event) : Nat := 3 * e.tick + phaseRank e

theorem phaseRank_le_two (e : Event) : phaseRank e ≤ 2 := by
  unfold phaseRank
  split
  · omega
  · split <;> omega

theorem phaseRank_eq_zero (e : Event) : phaseRank e = 0 ↔ e.etype = EventComplete := by
  unfold phaseRank
  split
  · simp [*]
  · split
    · simp [*]
      decide
    · simp [*]

theorem phaseRank_queue_reject (e : Event)
    (h : e.etype = EventQueue ∨ e.etype = EventReject) : phaseRank e = 1 := by
  unfold phaseRank
  rcases h with h | h <;> rw [h] <;> decide

theorem phaseRank_schedule (e : Event) (h : e.etype = EventSchedule) : phaseRank e = 2 := by
  unfold phaseRank
  rw [h]
  decide

theorem pairwise_rank_const {l : List Event} {k : Nat} (h : ∀ e ∈ l, phaseRank e = k) :
    l.Pairwise (fun a b => phaseRank a ≤ phaseRank b) :=
  List.pairwise_of_forall_mem_list (fun a ha b hb => by rw [h a ha, h b hb])

/-- One tick appends a batch of events, all stamped with the current tick,
whose types come from the four constants and whose phase ranks are
non-decreasing (completions, then admissions/rejections, then schedulings). -/
theorem step_events_decomp (picks : Nat → String) (tick : Nat) (s : SimState) (hs : Inv s) :
    ∃ l : List Event, (step picks tick s).events = s.events ++ l ∧
      (∀ e ∈ l, e.tick = tick ∧
        (e.etype = EventComplete ∨ e.etype = EventQueue ∨ e.etype = EventReject ∨
          e.etype = EventSchedule)) ∧
      l.Pairwise (fun a b => phaseRank a ≤ phaseRank b) := by
  obtain ⟨h1, -, -, -, -, -, -, -, -, ⟨l1, he1, hl1⟩⟩ := nextService_inv tick s hs
  obtain ⟨h2, -, -, -, -, -, -, -, ⟨l2, he2, hl2⟩, -⟩ :=
    arrivals_inv picks tick (nextService tick s) h1
  obtain ⟨h3, -, -, ⟨l3, he3, hl3⟩, -⟩ :=
    schedule_inv tick (arrivals picks tick (nextService tick s)) h2
  obtain ⟨-, -, he4, -⟩ := updateQueueIndices_inv
    (schedule tick (arrivals picks tick (nextService tick s))) h3
  refine ⟨l1 ++ l2 ++ l3, ?_, ?_, ?_⟩
  · show (updateQueueIndices (schedule tick (arrivals picks tick (nextService tick s)))).events
      = s.events ++ (l1 ++ l2 ++ l3)
    rw [he4, he3, he2, he1]
    simp
  · intro e he
    simp only [List.mem_append] at he
    rcases he with (he | he) | he
    · exact ⟨(hl1 e he).2, Or.inl (hl1 e he).1⟩
    · rcases (hl2 e he).1 with h | h
      · exact ⟨(hl2 e he).2, Or.inr (Or.inl h)⟩
      · exact ⟨(hl2 e he).2, Or.inr (Or.inr (Or.inl h))⟩
    · exact ⟨(hl3 e he).2, Or.inr (Or.inr (Or.inr (hl3 e he).1))⟩
  · have p1 : l1.Pairwise (fun a b => phaseRank a ≤ phaseRank b) :=
      pairwise_rank_const (fun e he => (phaseRank_eq_zero e).2 (hl1 e he).1)
    have p2 : l2.Pairwise (fun a b => phaseRank a ≤ phaseRank b) :=
      pairwise_rank_const (fun e he => phaseRank_queue_reject e (hl2 e he).1)
    have p3 : l3.Pairwise (fun a b => phaseRank a ≤ phaseRank b) :=
      pairwise_rank_const (fun e he => phaseRank_schedule e (hl3 e he).1)
    refine List.pairwise_append.2 ⟨List.pairwise_append.2 ⟨p1, p2, ?_⟩, p3, ?_⟩
    · intro a ha b hb
      rw [(phaseRank_eq_zero a).2 (hl1 a ha).1, phaseRank_queue_reject b (hl2 b hb).1]
      omega
    · intro a ha b hb
      rw [phaseRank_schedule b (hl3 b hb).1]
      exact phaseRank_le_two a

/-- The full trace is sorted by (tick, phase rank); every event's tick is below
the number of ticks executed and its type is one of the four event constants. -/
theorem stateAfter_events_sorted (picks : Nat → String) : ∀ n,
    (stateAfter picks n).events.Pairwise (fun a b => evKey a ≤ evKey b) ∧
    (∀ e ∈ (stateAfter picks n).events, e.tick < n ∧
      (e.etype = EventComplete ∨ e.etype = EventQueue ∨ e.etype = EventReject ∨
        e.etype = EventSchedule)) := by
  intro n
  induction n with
  | zero =>
    constructor
    · exact List.Pairwise.nil
    · intro e he
      exact absurd he (by simp [stateAfter, Finit.initState])
  | succ m ih =>
    obtain ⟨hpw, hmem⟩ := ih
    obtain ⟨l, hl, hlmem, hlpw⟩ :=
      step_events_decomp picks m (stateAfter picks m) (stateAfter_inv picks m)
    have hev : (stateAfter picks (m + 1)).events = (stateAfter picks m).events ++ l := hl
    constructor
    · rw [hev]
      refine List.pairwise_append.2 ⟨hpw, ?_, ?_⟩
      · refine hlpw.imp_of_mem ?_
        intro a b ha hb hr
        unfold evKey
        rw [(hlmem a ha).1, (hlmem b hb).1]
        omega
      · intro a ha b hb
        have hta : a.tick < m := (hmem a ha).1
        have htb : b.tick = m := (hlmem b hb).1
        have hra := phaseRank_le_two a
        unfold evKey
        rw [htb]
        omega
    · intro e he
      rw [hev] at he
      rcases List.mem_append.1 he with he | he
      · exact ⟨Nat.lt_succ_of_lt (hmem e he).1, (hmem e he).2⟩
      · exact ⟨by rw [(hlmem e he).1]; omega, (hlmem e he).2⟩

/-! ## Claim C6: event ordering within and across ticks -/

/-- C6.  Event ordering: in the event sequence of every successful run, for any
two positions `i < j`, the tick at `i` is at most the tick at `j` (ascending
tick order); and within one tick a later event is never of an earlier phase —
a COMPLETE at `j` forces a COMPLETE at `i` (so every tick-`t` COMPLETE precedes
every tick-`t` QUEUE/REJECT/SCHEDULE), and a QUEUE or REJECT at `j` forbids a
SCHEDULE at `i` (so every tick-`t` QUEUE/REJECT precedes every tick-`t`
SCHEDULE). -/
theorem event_ordering (picks : Nat → String) (cfg : Config) (art : Artifact)
    (hok : RunWith picks cfg = Except.ok art) :
    ∀ i j : Nat, ∀ hi : i < art.events.length, ∀ hj : j < art.events.length, i < j →
      (art.events.get ⟨i, hi⟩).tick ≤ (art.events.get ⟨j, hj⟩).tick ∧
      ((art.events.get ⟨i, hi⟩).tick = (art.events.get ⟨j, hj⟩).tick →
        ((art.events.get ⟨j, hj⟩).etype = EventComplete →
          (art.events.get ⟨i, hi⟩).etype = EventComplete) ∧
        ((art.events.get ⟨j, hj⟩).etype = EventQueue ∨
          (art.events.get ⟨j, hj⟩).etype = EventReject →
          (art.events.get ⟨i, hi⟩).etype ≠ EventSchedule)) := by
  have hevs : art.events = (runSim picks).events := by
    by_cases h : cfg.scenarioId = "" ∨ cfg.scenarioId = ScenarioID
    · rw [RunWith_ok picks cfg h] at hok
      injection hok with hart
      rw [← hart]
    · push_neg at h
      rw [RunWith_error picks cfg h.1 h.2] at hok
      cases hok
  obtain ⟨hpw, -⟩ := stateAfter_events_sorted picks TickCount
  intro i j hi hj hij
  have hi' : i < (runSim picks).events.length := by rw [← hevs]; exact hi
  have hj' : j < (runSim picks).events.length := by rw [← hevs]; exact hj
  have hget_i : art.events.get ⟨i, hi⟩ = (runSim picks).events.get ⟨i, hi'⟩ := by
    simp only [List.get_eq_getElem]
    exact List.getElem_of_eq hevs hi
  have hget_j : art.events.get ⟨j, hj⟩ = (runSim picks).events.get ⟨j, hj'⟩ := by
    simp only [List.get_eq_getElem]
    exact List.getElem_of_eq hevs hj
  have hkey : evKey ((runSim picks).events.get ⟨i, hi'⟩) ≤
      evKey ((runSim picks).events.get ⟨j, hj'⟩) :=
    List.pairwise_iff_get.1 hpw ⟨i, hi'⟩ ⟨j, hj'⟩ hij
  rw [hget_i, hget_j]
  set a := (runSim picks).events.get ⟨i, hi'⟩ with ha
  set b := (runSim picks).events.get ⟨j, hj'⟩ with hb
  have hra := phaseRank_le_two a
  have hrb := phaseRank_le_two b
  unfold evKey at hkey
  constructor
  · omega
  · intro htick
    have hrank : phaseRank a ≤ phaseRank b := by omega
    constructor
    · intro hbc
      have hb0 : phaseRank b = 0 := (phaseRank_eq_zero b).2 hbc
      exact (phaseRank_eq_zero a).1 (by omega)
    · intro hbq hasch
      have hb1 : phaseRank b = 1 := phaseRank_queue_reject b hbq
      have ha2 : phaseRank a = 2 := phaseRank_schedule a hasch
      omega

/-- Witness for C6: a concrete successful run whose trace satisfies the
ordering property. -/
theorem event_ordering_witness :
    ∃ art : Artifact,
      RunWith (fun _ => ClassPaid) { scenarioId := ScenarioID, seed := 7 } = Except.ok art ∧
      ∀ i j : Nat, ∀ hi : i < art.events.length, ∀ hj : j < art.events.length, i < j →
        (art.events.get ⟨i, hi⟩).tick ≤ (art.events.get ⟨j, hj⟩).tick := by
  refine ⟨_, RunWith_ok (fun _ => ClassPaid) { scenarioId := ScenarioID, seed := 7 }
    (Or.inr rfl), ?_⟩
  intro i j hi hj hij
  exact (event_ordering (fun _ => ClassPaid) { scenarioId := ScenarioID, seed := 7 } _
    (RunWith_ok (fun _ => ClassPaid) { scenarioId := ScenarioID, seed := 7 } (Or.inr rfl))
    i j hi hj hij).1

/-! ## Claim C9: queue-index recomputation -/

theorem map_indexOf_self {α : Type} [DecidableEq α] (l : List α) (h : l.Nodup) :
    l.map (fun x => l.indexOf x) = List.range l.length := by
  apply List.ext_getElem
  · simp
  · intro i h1 h2
    simp only [List.getElem_map, List.getElem_range]
    exact List.indexOf_getElem h i (by simpa using h1)

/-- After every tick, each queued token's stored index is its position in the
priority-ordered concatenation of the three queues. -/
theorem stateAfter_qidx (picks : Nat → String) (n : Nat) :
    ∀ i ∈ idsOf (stateAfter picks (n + 1)),
      (tokAt (stateAfter picks (n + 1)) i).queueIndex =
        Int.ofNat ((idsOf (stateAfter picks (n + 1))).indexOf i) := by
  obtain ⟨h1, -⟩ := nextService_inv n (stateAfter picks n) (stateAfter_inv picks n)
  obtain ⟨h2, -⟩ := arrivals_inv picks n _ h1
  obtain ⟨h3, -⟩ := schedule_inv n _ h2
  obtain ⟨-, -, -, -, -, -, hq⟩ := updateQueueIndices_inv
    (schedule n (arrivals picks n (nextService n (stateAfter picks n)))) h3
  intro i hi
  exact hq i hi

/-- C9.  Index recomputation: in every snapshot of every successful run (the
snapshot at position `t` showing the state after tick `t`), queued tokens are
exactly the members of the priority-ordered concatenation
paidQueue ++ freeQueue ++ anonQueue; each one's queue index is its zero-based
position in that concatenation, so over all queued tokens the indices are
exactly 0,1,...,k−1; and every token not in the queued state carries the
sentinel queue index −1. -/
theorem index_recomputation (picks : Nat → String) (cfg : Config) (art : Artifact)
    (hok : RunWith picks cfg = Except.ok art) (t : Nat) (ht : t < art.snapshots.length) :
    (art.snapshots.getD t default).tokens = snapshotTokens (stateAfter picks (t + 1)) ∧
    (∀ i, i < (stateAfter picks (t + 1)).nextID →
      ((tokAt (stateAfter picks (t + 1)) i).state = StateQueued ↔
        i ∈ idsOf (stateAfter picks (t + 1)))) ∧
    (∀ i ∈ idsOf (stateAfter picks (t + 1)),
      (tokAt (stateAfter picks (t + 1)) i).queueIndex =
        Int.ofNat ((idsOf (stateAfter picks (t + 1))).indexOf i)) ∧
    ((idsOf (stateAfter picks (t + 1))).map
        (fun i => (tokAt (stateAfter picks (t + 1)) i).queueIndex) =
      (List.range (idsOf (stateAfter picks (t + 1))).length).map Int.ofNat) ∧
    (∀ ts ∈ (art.snapshots.getD t default).tokens, ts.state ≠ StateQueued →
      ts.queueIndex = -1) := by
  have hsnaps : art.snapshots = (runSim picks).snapshots := by
    by_cases h : cfg.scenarioId = "" ∨ cfg.scenarioId = ScenarioID
    · rw [RunWith_ok picks cfg h] at hok
      injection hok with hart
      rw [← hart]
    · push_neg at h
      rw [RunWith_error picks cfg h.1 h.2] at hok
      cases hok
  have ht' : t < TickCount := by
    rw [hsnaps] at ht
    have hlen2 : (runSim picks).snapshots.length = TickCount :=
      stateAfter_snapshots_length picks TickCount
    omega
  have hsget : art.snapshots.getD t default =
      { tick := t, timeMs := t * TickDurationMs,
        tokens := snapshotTokens (stateAfter picks (t + 1)),
        stages := snapshotStages (stateAfter picks (t + 1)) } := by
    rw [hsnaps]
    exact snapshots_getD picks t TickCount ht'
  have hinv : Inv (stateAfter picks (t + 1)) := stateAfter_inv picks (t + 1)
  have hqidx := stateAfter_qidx picks t
  refine ⟨by rw [hsget], hinv.queued_iff, hqidx, ?_, ?_⟩
  · have hnd : (idsOf (stateAfter picks (t + 1))).Nodup := hinv.queues_nodup
    have hmap : (idsOf (stateAfter picks (t + 1))).map
        (fun i => (tokAt (stateAfter picks (t + 1)) i).queueIndex) =
        (idsOf (stateAfter picks (t + 1))).map
        (fun i => Int.ofNat ((idsOf (stateAfter picks (t + 1))).indexOf i)) :=
      List.map_congr_left hqidx
    rw [hmap]
    have hcomp : (idsOf (stateAfter picks (t + 1))).map
        (fun i => Int.ofNat ((idsOf (stateAfter picks (t + 1))).indexOf i)) =
        ((idsOf (stateAfter picks (t + 1))).map
          (fun i => (idsOf (stateAfter picks (t + 1))).indexOf i)).map Int.ofNat := by
      rw [List.map_map]
      rfl
    rw [hcomp, map_indexOf_self _ hnd]
  · intro ts hts hstate
    rw [hsget] at hts
    simp only [snapshotTokens, List.mem_map] at hts
    obtain ⟨tok, htok, hview⟩ := hts
    obtain ⟨i, hilen, hig⟩ := List.mem_iff_getElem.1 htok
    have hi : i < (stateAfter picks (t + 1)).nextID := by
      rw [← hinv.len_eq]
      exact hilen
    have htokat : tokAt (stateAfter picks (t + 1)) i = tok := by
      show (stateAfter picks (t + 1)).tokens.getD i default = tok
      rw [List.getD_eq_getElem _ _ hilen]
      exact hig
    have hqs : (tokAt (stateAfter picks (t + 1)) i).state ≠ StateQueued := by
      rw [htokat]
      have : ts.state = tok.state := by rw [← hview]; rfl
      rw [this] at hstate
      exact hstate
    have := hinv.qidx_sent i hi hqs
    rw [htokat] at this
    have hq : ts.queueIndex = tok.queueIndex := by rw [← hview]; rfl
    rw [hq, this]

/-- Witness for C9 at the first snapshot of a concrete run. -/
theorem index_recomputation_witness :
    ∃ art : Artifact,
      RunWith (fun _ => ClassFree) { scenarioId := "", seed := 3 } = Except.ok art ∧
      0 < art.snapshots.length ∧
      (art.snapshots.getD 0 default).tokens =
        snapshotTokens (stateAfter (fun _ => ClassFree) 1) ∧
      (∀ ts ∈ (art.snapshots.getD 0 default).tokens, ts.state ≠ StateQueued →
        ts.queueIndex = -1) := by
  have hok := RunWith_ok (fun _ => ClassFree) { scenarioId := "", seed := 3 } (Or.inl rfl)
  have hlen : 0 < (runSim (fun _ => ClassFree)).snapshots.length := by
    show 0 < (stateAfter (fun _ => ClassFree) TickCount).snapshots.length
    rw [stateAfter_snapshots_length (fun _ => ClassFree) TickCount]
    decide
  obtain ⟨h1, -, -, -, h5⟩ := index_recomputation (fun _ => ClassFree)
    { scenarioId := "", seed := 3 } _ hok 0 hlen
  exact ⟨_, hok, hlen, h1, h5⟩

/-! ## Token creation, arrival ticks, and frozen terminal states -/

theorem step_nextID (picks : Nat → String) (tick : Nat) (s : SimState) (hs : Inv s) :
    (step picks tick s).nextID = s.nextID + arrivalCount tick := by
  obtain ⟨h1, -, -, hni1, -⟩ := nextService_inv tick s hs
  obtain ⟨h2, hni2, -⟩ := arrivals_inv picks tick (nextService tick s) h1
  obtain ⟨h3, hni3, -⟩ := schedule_inv tick (arrivals picks tick (nextService tick s)) h2
  obtain ⟨-, hni4, -⟩ := updateQueueIndices_inv
    (schedule tick (arrivals picks tick (nextService tick s))) h3
  show (updateQueueIndices (schedule tick (arrivals picks tick (nextService tick s)))).nextID = _
  rw [hni4, hni3, hni2, hni1]

theorem stateAfter_nextID_mono (picks : Nat → String) {n m : Nat} (h : n ≤ m) :
    (stateAfter picks n).nextID ≤ (stateAfter picks m).nextID := by
  induction m with
  | zero =>
    have : n = 0 := by omega
    subst this
    exact le_refl _
  | succ k ih =>
    rcases Nat.lt_or_ge n (k + 1) with hlt | hge
    · have hk : n ≤ k := by omega
      have := step_nextID picks k (stateAfter picks k) (stateAfter_inv picks k)
      show (stateAfter picks n).nextID ≤ (stateAfter picks (k + 1)).nextID
      have h2 : (stateAfter picks (k + 1)).nextID =
          (stateAfter picks k).nextID + arrivalCount k := this
      rw [h2]
      exact le_trans (ih hk) (Nat.le_add_right _ _)
    · have : n = k + 1 := by omega
      subst this
      exact le_refl _

/-- Scheduling never changes a token's arrival tick (in the admitted batch the
token is rewritten by `admitToken`, which keeps it; outside it is untouched). -/
theorem schedule_arrivalTick (tick : Nat) (s : SimState) (hs : Inv s) (i : Nat) :
    (tokAt (schedule tick s) i).arrivalTick = (tokAt s i).arrivalTick := by
  obtain ⟨-, -, -, -, -, -, -, -, -, jin, jout⟩ :=
    scheduleLoop_spec tick (capacity - s.inService.length) s hs.queues_nodup hs.queues_lt
  by_cases h : i ∈ (idsOf s).take (capacity - s.inService.length)
  · have hj := jin i h
    show ((scheduleLoop tick (capacity - s.inService.length) s).tokens.getD i
      default).arrivalTick = _
    rw [hj]
    exact admitToken_arrivalTick _
  · have hj := jout i h
    show ((scheduleLoop tick (capacity - s.inService.length) s).tokens.getD i
      default).arrivalTick = _
    rw [hj]
    rfl

/-- A tick never changes the arrival tick of an existing token. -/
theorem step_arrivalTick (picks : Nat → String) (tick : Nat) (s : SimState) (hs : Inv s)
    (i : Nat) (hi : i < s.nextID) :
    (tokAt (step picks tick s) i).arrivalTick = (tokAt s i).arrivalTick := by
  obtain ⟨h1, hin, hout, hni1, -⟩ := nextService_inv tick s hs
  have a1 : (tokAt (nextService tick s) i).arrivalTick = (tokAt s i).arrivalTick := by
    by_cases h : i ∈ s.inService
    · rw [hin i h]
      exact serviceUpd_arrivalTick _
    · rw [hout i h]
  obtain ⟨h2, hni2, hold2, -⟩ := arrivals_inv picks tick (nextService tick s) h1
  have hi1 : i < (nextService tick s).nextID := by rw [hni1]; exact hi
  have a2 : (tokAt (arrivals picks tick (nextService tick s)) i).arrivalTick =
      (tokAt s i).arrivalTick := by
    rw [hold2 i hi1]
    exact a1
  obtain ⟨h3, hni3, -⟩ := schedule_inv tick (arrivals picks tick (nextService tick s)) h2
  have a3 : (tokAt (schedule tick (arrivals picks tick (nextService tick s))) i).arrivalTick =
      (tokAt s i).arrivalTick := by
    rw [schedule_arrivalTick tick _ h2 i]
    exact a2
  obtain ⟨-, -, -, -, hstab, -⟩ := updateQueueIndices_inv
    (schedule tick (arrivals picks tick (nextService tick s))) h3
  have hi3 : i < (schedule tick (arrivals picks tick (nextService tick s))).nextID := by
    rw [hni3, hni2]
    omega
  show (tokAt (updateQueueIndices
    (schedule tick (arrivals picks tick (nextService tick s)))) i).arrivalTick = _
  rw [(hstab i hi3).2.2.2]
  exact a3

/-- A token created during tick `tick` records `tick` as its arrival tick. -/
theorem step_arrivalTick_new (picks : Nat → String) (tick : Nat) (s : SimState) (hs : Inv s)
    (i : Nat) (h1 : s.nextID ≤ i) (h2 : i < (step picks tick s).nextID) :
    (tokAt (step picks tick s) i).arrivalTick = tick := by
  obtain ⟨hv1, -, -, hni1, -⟩ := nextService_inv tick s hs
  obtain ⟨hv2, hni2, -, hnew2, -⟩ := arrivals_inv picks tick (nextService tick s) hv1
  obtain ⟨hv3, hni3, -⟩ := schedule_inv tick (arrivals picks tick (nextService tick s)) hv2
  have hstep : (step picks tick s).nextID = s.nextID + arrivalCount tick :=
    step_nextID picks tick s hs
  have hia : i < (arrivals picks tick (nextService tick s)).nextID := by
    rw [hni2, hni1]
    omega
  have a2 : (tokAt (arrivals picks tick (nextService tick s)) i).arrivalTick = tick :=
    hnew2 i (by rw [hni1]; exact h1) hia
  have a3 : (tokAt (schedule tick (arrivals picks tick (nextService tick s))) i).arrivalTick =
      tick := by
    rw [schedule_arrivalTick tick _ hv2 i]
    exact a2
  obtain ⟨-, -, -, -, hstab, -⟩ := updateQueueIndices_inv
    (schedule tick (arrivals picks tick (nextService tick s))) hv3
  have hi3 : i < (schedule tick (arrivals picks tick (nextService tick s))).nextID := by
    rw [hni3]
    exact hia
  show (tokAt (updateQueueIndices
    (schedule tick (arrivals picks tick (nextService tick s)))) i).arrivalTick = _
  rw [(hstab i hi3).2.2.2]
  exact a3

/-- Presence characterisation: a token of the run is present after `n` ticks
exactly when its (stable) arrival tick is below `n`. -/
theorem stateAfter_presence (picks : Nat → String) :
    ∀ m, ∀ i, i < (stateAfter picks m).nextID → ∀ n, n ≤ m →
      (i < (stateAfter picks n).nextID ↔
        (tokAt (stateAfter picks m) i).arrivalTick < n) := by
  intro m
  induction m with
  | zero =>
    intro i hi
    exact absurd hi (by simp [stateAfter, Finit.initState])
  | succ k ih =>
    intro i hi n hn
    rcases Nat.lt_or_ge i (stateAfter picks k).nextID with hik | hik
    · have hstab : (tokAt (stateAfter picks (k + 1)) i).arrivalTick =
          (tokAt (stateAfter picks k) i).arrivalTick :=
        step_arrivalTick picks k (stateAfter picks k) (stateAfter_inv picks k) i hik
      rcases Nat.lt_or_ge k n with hkn | hnk
      · have hkn' : n = k + 1 := by omega
        subst hkn'
        rw [hstab]
        have := (ih i hik k (le_refl k)).1 hik
        constructor
        · intro
          omega
        · intro
          exact hi
      · rw [hstab]
        exact ih i hik n hnk
    · have hnew : (tokAt (stateAfter picks (k + 1)) i).arrivalTick = k :=
        step_arrivalTick_new picks k (stateAfter picks k) (stateAfter_inv picks k) i hik hi
      rw [hnew]
      constructor
      · intro hpres
        rcases Nat.lt_or_ge k n with hkn | hnk
        · omega
        · have hmono := stateAfter_nextID_mono picks hnk
          omega
      · intro hlt
        have hnk : n = k + 1 := by omega
        subst hnk
        exact hi

/-- Scheduling leaves every token that is not queued untouched. -/
theorem schedule_frozen_nonqueued (tick : Nat) (s : SimState) (hs : Inv s) (i : Nat)
    (hi : i < s.nextID) (h : (tokAt s i).state ≠ StateQueued) :
    tokAt (schedule tick s) i = tokAt s i := by
  obtain ⟨-, -, -, -, jfrozen⟩ := schedule_inv tick s hs
  refine jfrozen i ?_
  intro hmem
  have hq : i ∈ idsOf s := List.mem_of_mem_take hmem
  exact h ((hs.queued_iff i hi).2 hq)

/-- One tick never touches a token that is already done or rejected. -/
theorem step_frozen (picks : Nat → String) (tick : Nat) (s : SimState) (hs : Inv s)
    (i : Nat) (hi : i < s.nextID)
    (h : (tokAt s i).state = StateDone ∨ (tokAt s i).state = StateRejected) :
    tokAt (step picks tick s) i = tokAt s i := by
  obtain ⟨h1, -, hout, hni1, -⟩ := nextService_inv tick s hs
  have hnproc : (tokAt s i).state ≠ StateProcessing := by
    rcases h with h | h <;> rw [h] <;> decide
  have hnserv : i ∉ s.inService := fun hmem => hnproc ((hs.proc_iff i hi).2 hmem)
  have a1 : tokAt (nextService tick s) i = tokAt s i := hout i hnserv
  obtain ⟨h2, hni2, hold2, -⟩ := arrivals_inv picks tick (nextService tick s) h1
  have hi1 : i < (nextService tick s).nextID := by rw [hni1]; exact hi
  have a2 : tokAt (arrivals picks tick (nextService tick s)) i = tokAt s i := by
    rw [hold2 i hi1]
    exact a1
  have hi2 : i < (arrivals picks tick (nextService tick s)).nextID := by
    rw [hni2]
    omega
  have hnq2 : (tokAt (arrivals picks tick (nextService tick s)) i).state ≠ StateQueued := by
    rw [a2]
    rcases h with h | h <;> rw [h] <;> decide
  have a3 : tokAt (schedule tick (arrivals picks tick (nextService tick s))) i = tokAt s i := by
    rw [schedule_frozen_nonqueued tick _ h2 i hi2 hnq2]
    exact a2
  obtain ⟨h3, hni3, -⟩ := schedule_inv tick (arrivals picks tick (nextService tick s)) h2
  obtain ⟨-, -, -, -, -, hfreeze, -⟩ := updateQueueIndices_inv
    (schedule tick (arrivals picks tick (nextService tick s))) h3
  have hi3 : i < (schedule tick (arrivals picks tick (nextService tick s))).nextID := by
    rw [hni3]
    exact hi2
  have hnq3 : (tokAt (schedule tick (arrivals picks tick (nextService tick s))) i).state ≠
      StateQueued := by
    rw [a3]
    rcases h with h | h <;> rw [h] <;> decide
  show tokAt (updateQueueIndices
    (schedule tick (arrivals picks tick (nextService tick s)))) i = _
  rw [hfreeze i hi3 hnq3]
  exact a3

/-- Once done or rejected, a token is frozen for the rest of the run. -/
theorem stateAfter_frozen (picks : Nat → String) (n : Nat) (i : Nat)
    (hi : i < (stateAfter picks n).nextID)
    (h : (tokAt (stateAfter picks n) i).state = StateDone ∨
      (tokAt (stateAfter picks n) i).state = StateRejected) :
    ∀ m, n ≤ m → tokAt (stateAfter picks m) i = tokAt (stateAfter picks n) i := by
  intro m
  induction m with
  | zero =>
    intro hm
    have : n = 0 := by omega
    subst this
    rfl
  | succ k ih =>
    intro hm
    rcases Nat.lt_or_ge n (k + 1) with hlt | hge
    · have hk : n ≤ k := by omega
      have hik : i < (stateAfter picks k).nextID :=
        Nat.lt_of_lt_of_le hi (stateAfter_nextID_mono picks hk)
      have hprev := ih hk
      have hstate : (tokAt (stateAfter picks k) i).state = StateDone ∨
          (tokAt (stateAfter picks k) i).state = StateRejected := by
        rw [hprev]
        exact h
      show tokAt (step picks k (stateAfter picks k)) i = _
      rw [step_frozen picks k (stateAfter picks k) (stateAfter_inv picks k) i hik hstate]
      exact hprev
    · have : n = k + 1 := by omega
      subst this
      rfl

/-- The token store lists ids `T0000`, `T0001`, ... in order. -/
theorem tokens_map_id (s : SimState) (hs : Inv s) :
    s.tokens.map Token.id = (List.range s.nextID).map tokenName := by
  apply List.ext_getElem
  · simp [hs.len_eq]
  · intro j h1 h2
    simp only [List.getElem_map, List.getElem_range]
    have hj2 : j < s.tokens.length := by simpa using h1
    have hj : j < s.nextID := by
      rw [← hs.len_eq]
      exact hj2
    have hG : s.tokens[j] = tokAt s j := by
      show _ = s.tokens.getD j default
      rw [List.getD_eq_getElem _ _ hj2]
    rw [hG]
    exact hs.id_eq j hj

theorem snapshotTokens_length (s : SimState) (hs : Inv s) :
    (snapshotTokens s).length = s.nextID := by
  unfold snapshotTokens
  rw [List.length_map]
  exact hs.len_eq

theorem snapshotTokens_get (s : SimState) (j : Nat)
    (hj : j < (snapshotTokens s).length) :
    (snapshotTokens s).get ⟨j, hj⟩ = tokenView (tokAt s j) := by
  have hj2 : j < s.tokens.length := by
    simpa [snapshotTokens] using hj
  show (List.map tokenView s.tokens).get ⟨j, hj⟩ = _
  simp only [List.get_eq_getElem, List.getElem_map]
  have hG : s.tokens[j] = tokAt s j := by
    show _ = s.tokens.getD j default
    rw [List.getD_eq_getElem _ _ hj2]
  rw [hG]

/-! ## Claim C5: conservation -/

/-- C5.  Conservation: every snapshot (the one at position `t` projecting the
state after tick `t`) lists each created token exactly once — row `i` is the
token named `tokenName i` — in exactly one of the four pairwise-distinct
states queued/processing/done/rejected; a token appears in the snapshots at
and after its arrival tick (token `i` is present after tick `t` iff its
arrival tick is at most `t`); and once a token is done or rejected it is
frozen — every later state, hence every later snapshot, shows it unchanged. -/
theorem conservation (picks : Nat → String) (cfg : Config) (art : Artifact)
    (hok : RunWith picks cfg = Except.ok art) (t : Nat) (ht : t < art.snapshots.length) :
    (art.snapshots.getD t default).tokens = snapshotTokens (stateAfter picks (t + 1)) ∧
    ((art.snapshots.getD t default).tokens.map (fun ts => ts.id)).Nodup ∧
    (∀ ts ∈ (art.snapshots.getD t default).tokens,
      ts.state = StateQueued ∨ ts.state = StateProcessing ∨
      ts.state = StateDone ∨ ts.state = StateRejected) ∧
    (StateQueued ≠ StateProcessing ∧ StateQueued ≠ StateDone ∧ StateQueued ≠ StateRejected ∧
      StateProcessing ≠ StateDone ∧ StateProcessing ≠ StateRejected ∧
      StateDone ≠ StateRejected) ∧
    (∀ i, i < (runSim picks).nextID →
      (i < (stateAfter picks (t + 1)).nextID ↔ (tokAt (runSim picks) i).arrivalTick ≤ t)) ∧
    (∀ i, ∀ hil : i < (snapshotTokens (stateAfter picks (t + 1))).length,
      ((snapshotTokens (stateAfter picks (t + 1))).get ⟨i, hil⟩).id = tokenName i ∧
      ((snapshotTokens (stateAfter picks (t + 1))).get ⟨i, hil⟩).state =
        (tokAt (stateAfter picks (t + 1)) i).state) ∧
    (∀ t', t ≤ t' → ∀ i, i < (stateAfter picks (t + 1)).nextID →
      ((tokAt (stateAfter picks (t + 1)) i).state = StateDone ∨
        (tokAt (stateAfter picks (t + 1)) i).state = StateRejected) →
      tokAt (stateAfter picks (t' + 1)) i = tokAt (stateAfter picks (t + 1)) i) := by
  have hsnaps : art.snapshots = (runSim picks).snapshots := by
    by_cases h : cfg.scenarioId = "" ∨ cfg.scenarioId = ScenarioID
    · rw [RunWith_ok picks cfg h] at hok
      injection hok with hart
      rw [← hart]
    · push_neg at h
      rw [RunWith_error picks cfg h.1 h.2] at hok
      cases hok
  have ht' : t < TickCount := by
    rw [hsnaps] at ht
    have hlen2 : (runSim picks).snapshots.length = TickCount :=
      stateAfter_snapshots_length picks TickCount
    omega
  have hsget : art.snapshots.getD t default =
      { tick := t, timeMs := t * TickDurationMs,
        tokens := snapshotTokens (stateAfter picks (t + 1)),
        stages := snapshotStages (stateAfter picks (t + 1)) } := by
    rw [hsnaps]
    exact snapshots_getD picks t TickCount ht'
  have hinv : Inv (stateAfter picks (t + 1)) := stateAfter_inv picks (t + 1)
  refine ⟨by rw [hsget], ?_, ?_, by decide, ?_, ?_, ?_⟩
  · rw [hsget]
    show ((snapshotTokens (stateAfter picks (t + 1))).map (fun ts => ts.id)).Nodup
    unfold snapshotTokens
    rw [List.map_map]
    have hcomp : ((fun ts : TokenState => ts.id) ∘ tokenView) = Token.id := rfl
    rw [hcomp, tokens_map_id _ hinv]
    exact (List.nodup_range _).map tokenName_inj
  · intro ts hts
    rw [hsget] at hts
    simp only [snapshotTokens, List.mem_map] at hts
    obtain ⟨tok, htok, hview⟩ := hts
    obtain ⟨i, hilen, hig⟩ := List.mem_iff_getElem.1 htok
    have hi : i < (stateAfter picks (t + 1)).nextID := by
      rw [← hinv.len_eq]
      exact hilen
    have htokat : tokAt (stateAfter picks (t + 1)) i = tok := by
      show (stateAfter picks (t + 1)).tokens.getD i default = tok
      rw [List.getD_eq_getElem _ _ hilen]
      exact hig
    have hst : ts.state = tok.state := by rw [← hview]; rfl
    rw [hst, ← htokat]
    exact hinv.state_mem i hi
  · intro i hi
    have hTle : t + 1 ≤ TickCount := ht'
    have := stateAfter_presence picks TickCount i hi (t + 1) hTle
    rw [Nat.lt_succ_iff] at this
    exact this
  · intro i hil
    have hi : i < (stateAfter picks (t + 1)).nextID := by
      rw [← snapshotTokens_length _ hinv]
      exact hil
    rw [snapshotTokens_get (stateAfter picks (t + 1)) i hil]
    exact ⟨hinv.id_eq i hi, rfl⟩
  · intro t' htt' i hi hstate
    exact stateAfter_frozen picks (t + 1) i hi hstate (t' + 1) (by omega)

/-- Witness for C5 at the first snapshot of a concrete run. -/
theorem conservation_witness :
    ∃ art : Artifact,
      RunWith (fun _ => ClassAnon) { scenarioId := "", seed := 5 } = Except.ok art ∧
      0 < art.snapshots.length ∧
      ((art.snapshots.getD 0 default).tokens.map (fun ts => ts.id)).Nodup ∧
      ∀ ts ∈ (art.snapshots.getD 0 default).tokens,
        ts.state = StateQueued ∨ ts.state = StateProcessing ∨
        ts.state = StateDone ∨ ts.state = StateRejected := by
  have hok := RunWith_ok (fun _ => ClassAnon) { scenarioId := "", seed := 5 } (Or.inl rfl)
  have hlen : 0 < (runSim (fun _ => ClassAnon)).snapshots.length := by
    show 0 < (stateAfter (fun _ => ClassAnon) TickCount).snapshots.length
    rw [stateAfter_snapshots_length (fun _ => ClassAnon) TickCount]
    decide
  obtain ⟨-, h2, h3, -⟩ := conservation (fun _ => ClassAnon)
    { scenarioId := "", seed := 5 } _ hok 0 hlen
  exact ⟨_, hok, hlen, h2, h3⟩

/-! ## Strict-priority scheduling: order bookkeeping -/

theorem indexOf_lt_of_mem_take {α : Type} [DecidableEq α] :
    ∀ (l : List α) (f : Nat) (x : α), x ∈ l.take f → l.indexOf x < f
  | [], _, x, h => absurd h (by simp)
  | _ :: _, 0, x, h => absurd h (by simp)
  | y :: t, f + 1, x, h => by
    rw [List.take_succ_cons] at h
    by_cases hxy : x = y
    · subst hxy
      rw [List.indexOf_cons_self]
      omega
    · rcases List.mem_cons.1 h with h' | h'
      · exact absurd h' hxy
      · rw [List.indexOf_cons_ne _ (fun he => hxy he.symm)]
        have := indexOf_lt_of_mem_take t f x h'
        omega

theorem mem_take_of_indexOf_lt {α : Type} [DecidableEq α] {l : List α} {f : Nat} {x : α}
    (hm : x ∈ l) (h : l.indexOf x < f) : x ∈ l.take f := by
  have hlen : l.indexOf x < l.length := List.indexOf_lt_length.2 hm
  have hx := List.indexOf_get hlen
  have hlt : l.indexOf x < (l.take f).length := by
    rw [List.length_take]
    omega
  have hg : (l.take f).get ⟨l.indexOf x, hlt⟩ = x := by
    simp only [List.get_eq_getElem] at hx ⊢
    rw [List.getElem_take]
    exact hx
  rw [← hg]
  exact List.get_mem _ _ _

theorem mem_drop_of_not_mem_take {α : Type} {l : List α} {f : Nat} {x : α}
    (hm : x ∈ l) (h : x ∉ l.take f) : x ∈ l.drop f := by
  have hm' : x ∈ l.take f ++ l.drop f := by
    rw [List.take_append_drop]
    exact hm
  rcases List.mem_append.1 hm' with h' | h'
  · exact absurd h' h
  · exact h'

/-- The batch the scheduler admits is the prefix of the priority-ordered queue
concatenation, split per class queue. -/
theorem take_idsOf_decomp (s : SimState) (f : Nat) :
    (idsOf s).take f =
      (s.paidQueue.take f ++ s.freeQueue.take (f - s.paidQueue.length)) ++
        s.anonQueue.take (f - s.paidQueue.length - s.freeQueue.length) := by
  unfold idsOf
  rw [List.take_append_eq_append_take, List.take_append_eq_append_take,
    List.length_append, Nat.sub_sub]

/-- `a` is queued with strictly higher class priority than `b`: `a` paid while
`b` free or anonymous, or `a` free while `b` anonymous. -/
def HigherPair (s : SimState) (a b : Nat) : Prop :=
  (a ∈ s.paidQueue ∧ (b ∈ s.freeQueue ∨ b ∈ s.anonQueue)) ∨
  (a ∈ s.freeQueue ∧ b ∈ s.anonQueue)

/-- The event at position `j` is a SCHEDULE of token `x`. -/
def IsSchedOf (E : List Event) (j : Nat) (x : Nat) : Prop :=
  ∃ h : j < E.length, (E.get ⟨j, h⟩).etype = EventSchedule ∧
    (E.get ⟨j, h⟩).tokenId = tokenName x

theorem higherPair_mem {s : SimState} {a b : Nat} (h : HigherPair s a b) :
    a ∈ idsOf s ∧ b ∈ idsOf s := by
  unfold idsOf
  rcases h with ⟨ha, hb | hb⟩ | ⟨ha, hb⟩ <;> simp only [List.mem_append] <;> tauto

theorem higherPair_of_queues_eq {s s' : SimState} {a b : Nat}
    (hp : s'.paidQueue = s.paidQueue) (hf : s'.freeQueue = s.freeQueue)
    (ha : s'.anonQueue = s.anonQueue) (h : HigherPair s a b) : HigherPair s' a b := by
  unfold HigherPair
  rw [hp, hf, ha]
  exact h

/-- A higher-priority queued token sits strictly earlier in the
priority-ordered concatenation of the queues. -/
theorem higherPair_indexOf {s : SimState} (hnd : (idsOf s).Nodup) {a b : Nat}
    (h : HigherPair s a b) : (idsOf s).indexOf a < (idsOf s).indexOf b := by
  have hids : idsOf s = (s.paidQueue ++ s.freeQueue) ++ s.anonQueue := rfl
  rw [hids] at hnd ⊢
  obtain ⟨hpf, han, hdisj⟩ := List.nodup_append.1 hnd
  obtain ⟨hpn, hfn, hdisj2⟩ := List.nodup_append.1 hpf
  rcases h with ⟨ha, hb | hb⟩ | ⟨ha, hb⟩
  · have hia : ((s.paidQueue ++ s.freeQueue) ++ s.anonQueue).indexOf a =
        s.paidQueue.indexOf a := by
      rw [List.indexOf_append_of_mem (List.mem_append_left _ ha),
        List.indexOf_append_of_mem ha]
    have hbnp : b ∉ s.paidQueue := fun hmem => hdisj2 hmem hb
    have hib : ((s.paidQueue ++ s.freeQueue) ++ s.anonQueue).indexOf b =
        s.paidQueue.length + s.freeQueue.indexOf b := by
      rw [List.indexOf_append_of_mem (List.mem_append_right _ hb),
        List.indexOf_append_of_not_mem hbnp]
    have halt : s.paidQueue.indexOf a < s.paidQueue.length :=
      List.indexOf_lt_length.2 ha
    rw [hia, hib]
    omega
  · have hia : ((s.paidQueue ++ s.freeQueue) ++ s.anonQueue).indexOf a =
        s.paidQueue.indexOf a := by
      rw [List.indexOf_append_of_mem (List.mem_append_left _ ha),
        List.indexOf_append_of_mem ha]
    have hbnpf : b ∉ s.paidQueue ++ s.freeQueue := fun hmem => hdisj hmem hb
    have hib : ((s.paidQueue ++ s.freeQueue) ++ s.anonQueue).indexOf b =
        (s.paidQueue ++ s.freeQueue).length + s.anonQueue.indexOf b :=
      List.indexOf_append_of_not_mem hbnpf
    have halt : s.paidQueue.indexOf a < s.paidQueue.length :=
      List.indexOf_lt_length.2 ha
    rw [hia, hib, List.length_append]
    omega
  · have hanp : a ∉ s.paidQueue := fun hmem => hdisj2 hmem ha
    have hia : ((s.paidQueue ++ s.freeQueue) ++ s.anonQueue).indexOf a =
        s.paidQueue.length + s.freeQueue.indexOf a := by
      rw [List.indexOf_append_of_mem (List.mem_append_right _ ha),
        List.indexOf_append_of_not_mem hanp]
    have hbnpf : b ∉ s.paidQueue ++ s.freeQueue := fun hmem => hdisj hmem hb
    have hib : ((s.paidQueue ++ s.freeQueue) ++ s.anonQueue).indexOf b =
        (s.paidQueue ++ s.freeQueue).length + s.anonQueue.indexOf b :=
      List.indexOf_append_of_not_mem hbnpf
    have halt : s.freeQueue.indexOf a < s.freeQueue.length :=
      List.indexOf_lt_length.2 ha
    rw [hia, hib, List.length_append]
    omega

/-- A token still sitting in a queue has no SCHEDULE event in the trace. -/
theorem no_sched_of_queued {s : SimState} (hs : Inv s) {b : Nat} (hb : b ∈ idsOf s)
    (j : Nat) : ¬ IsSchedOf s.events j b := by
  rintro ⟨hj, hty, hid⟩
  obtain ⟨i, hlt, hid2, hst⟩ := hs.sched_ev (s.events.get ⟨j, hj⟩) (List.get_mem _ _ _) hty
  rw [hid] at hid2
  have hbi : b = i := tokenName_inj hid2
  subst hbi
  have hblt : b < s.nextID := hlt
  have hq : (tokAt s b).state = StateQueued := (hs.queued_iff b hblt).2 hb
  rcases hst with hst | hst <;> rw [hq] at hst <;> exact absurd hst (by decide)

theorem isSchedOf_append_left {E L : List Event} {j x : Nat} (h : IsSchedOf E j x) :
    IsSchedOf (E ++ L) j x := by
  obtain ⟨hj, hty, hid⟩ := h
  have hj' : j < (E ++ L).length := by
    rw [List.length_append]
    omega
  have hg : (E ++ L).get ⟨j, hj'⟩ = E.get ⟨j, hj⟩ := by
    simp only [List.get_eq_getElem]
    exact List.getElem_append_left hj
  exact ⟨hj', by rw [hg]; exact hty, by rw [hg]; exact hid⟩

theorem isSchedOf_append_elim {E L : List Event} {j x : Nat}
    (h : IsSchedOf (E ++ L) j x) :
    (j < E.length ∧ IsSchedOf E j x) ∨
    (E.length ≤ j ∧ IsSchedOf L (j - E.length) x) := by
  obtain ⟨hj, hty, hid⟩ := h
  rw [List.length_append] at hj
  rcases Nat.lt_or_ge j E.length with hlt | hge
  · have hg : (E ++ L).get ⟨j, by rw [List.length_append]; omega⟩ = E.get ⟨j, hlt⟩ := by
      simp only [List.get_eq_getElem]
      exact List.getElem_append_left hlt
    refine Or.inl ⟨hlt, hlt, ?_, ?_⟩
    · rw [← hg]
      exact hty
    · rw [← hg]
      exact hid
  · have hL : j - E.length < L.length := by omega
    have hg : (E ++ L).get ⟨j, by rw [List.length_append]; omega⟩ =
        L.get ⟨j - E.length, hL⟩ := by
      simp only [List.get_eq_getElem]
      exact List.getElem_append_right hge
    refine Or.inr ⟨hge, hL, ?_, ?_⟩
    · rw [← hg]
      exact hty
    · rw [← hg]
      exact hid

/-- One scheduling phase on a state where `a` outranks `b`: either both stay
queued (still outranked), or `a` gets a SCHEDULE event that precedes every
SCHEDULE event of `b` in the trace. -/
theorem schedule_priority (m : Nat) (s : SimState) (hs : Inv s) (a b : Nat)
    (hp : HigherPair s a b) :
    HigherPair (schedule m s) a b ∨
      (∃ ja, IsSchedOf (schedule m s).events ja a ∧
        ∀ jb, IsSchedOf (schedule m s).events jb b → ja < jb) := by
  obtain ⟨-, -, -, jpq, jfq, jaq, -, jev, -, jin, jout⟩ :=
    scheduleLoop_spec m (capacity - s.inService.length) s hs.queues_nodup hs.queues_lt
  have hred : schedule m s = scheduleLoop m (capacity - s.inService.length) s := rfl
  rw [hred]
  obtain ⟨hamem, hbmem⟩ := higherPair_mem hp
  have hnd : (idsOf s).Nodup := hs.queues_nodup
  have hab : (idsOf s).indexOf a < (idsOf s).indexOf b := higherPair_indexOf hnd hp
  have halen : (idsOf s).indexOf a < (idsOf s).length := List.indexOf_lt_length.2 hamem
  have hblen : (idsOf s).indexOf b < (idsOf s).length := List.indexOf_lt_length.2 hbmem
  have hbatchlen : ((idsOf s).take (capacity - s.inService.length)).length =
      min (capacity - s.inService.length) (idsOf s).length := List.length_take _ _
  -- the SCHEDULE event appended for the p-th batch element names that token
  have hM : ∀ p, (hpb : p < ((idsOf s).take (capacity - s.inService.length)).length) →
      (((idsOf s).take (capacity - s.inService.length)).map
        (fun j => schedEvent m (s.tokens.getD j default))).get
          ⟨p, by rw [List.length_map]; exact hpb⟩ =
      schedEvent m (tokAt s (((idsOf s).take (capacity - s.inService.length)).get
        ⟨p, hpb⟩)) := by
    intro p hpb
    simp only [List.get_eq_getElem, List.getElem_map]
    rfl
  have hbatch_get : ∀ p, (hpb : p < ((idsOf s).take (capacity - s.inService.length)).length) →
      ((idsOf s).take (capacity - s.inService.length)).get ⟨p, hpb⟩ =
        (idsOf s).get ⟨p, by rw [hbatchlen] at hpb; omega⟩ := by
    intro p hpb
    simp only [List.get_eq_getElem]
    rw [List.getElem_take]
  have hidsa : (idsOf s).get ⟨(idsOf s).indexOf a, halen⟩ = a := List.indexOf_get halen
  have hanext : a < s.nextID := hs.ids_lt a (List.mem_append_left _ hamem)
  -- a SCHEDULE-of-`a` witness sitting in the appended batch at position `pa`
  have hwitness : ∀ hpa : (idsOf s).indexOf a <
      ((idsOf s).take (capacity - s.inService.length)).length,
      IsSchedOf (scheduleLoop m (capacity - s.inService.length) s).events
        (s.events.length + (idsOf s).indexOf a) a := by
    intro hpa
    rw [jev]
    have hlen : s.events.length + (idsOf s).indexOf a <
        (s.events ++ ((idsOf s).take (capacity - s.inService.length)).map
          (fun j => schedEvent m (s.tokens.getD j default))).length := by
      rw [List.length_append, List.length_map]
      omega
    refine ⟨hlen, ?_⟩
    have hg : (s.events ++ ((idsOf s).take (capacity - s.inService.length)).map
        (fun j => schedEvent m (s.tokens.getD j default))).get
          ⟨s.events.length + (idsOf s).indexOf a, hlen⟩ =
        schedEvent m (tokAt s a) := by
      simp only [List.get_eq_getElem]
      rw [List.getElem_append_right (by omega)]
      have harith : s.events.length + (idsOf s).indexOf a - s.events.length =
          (idsOf s).indexOf a := by omega
      simp only [harith]
      have hpaL : (idsOf s).indexOf a <
          ((idsOf s).take (capacity - s.inService.length)).length := hpa
      rw [List.getElem_map]
      have hq : ((idsOf s).take (capacity - s.inService.length))[(idsOf s).indexOf a] = a := by
        rw [List.getElem_take]
        have := hidsa
        simp only [List.get_eq_getElem] at this
        exact this
      rw [hq]
      rfl
    constructor
    · rw [hg]
      rfl
    · rw [hg]
      show (tokAt s a).id = tokenName a
      exact hs.id_eq a hanext
  -- every SCHEDULE-of-`b` in the new trace sits in the appended batch,
  -- at exactly `b`'s position in the priority concatenation
  have hbelim : ∀ jb, IsSchedOf (scheduleLoop m (capacity - s.inService.length) s).events jb b →
      b ∈ (idsOf s).take (capacity - s.inService.length) ∧
      jb = s.events.length + (idsOf s).indexOf b := by
    intro jb hjb
    rw [jev] at hjb
    rcases isSchedOf_append_elim hjb with ⟨-, hsched⟩ | ⟨hge, hschedM⟩
    · exact absurd hsched (no_sched_of_queued hs hbmem jb)
    · obtain ⟨hpM, hty, hid⟩ := hschedM
      rw [List.length_map] at hpM
      have h1 := hM _ hpM
      have hgEq : (((idsOf s).take (capacity - s.inService.length)).map
          (fun j => schedEvent m (s.tokens.getD j default))).get
            ⟨jb - s.events.length, by rw [List.length_map]; exact hpM⟩ =
          schedEvent m (tokAt s (((idsOf s).take (capacity - s.inService.length)).get
            ⟨jb - s.events.length, hpM⟩)) := h1
      rw [hgEq] at hid
      have hidval : (tokAt s (((idsOf s).take (capacity - s.inService.length)).get
          ⟨jb - s.events.length, hpM⟩)).id =
          tokenName (((idsOf s).take (capacity - s.inService.length)).get
            ⟨jb - s.events.length, hpM⟩) := by
        refine hs.id_eq _ (hs.ids_lt _ (List.mem_append_left _ ?_))
        exact List.mem_of_mem_take (List.get_mem _ _ _)
      have hid2 : tokenName (((idsOf s).take (capacity - s.inService.length)).get
          ⟨jb - s.events.length, hpM⟩) = tokenName b := by
        rw [← hidval]
        exact hid
      have hb_eq : ((idsOf s).take (capacity - s.inService.length)).get
          ⟨jb - s.events.length, hpM⟩ = b := tokenName_inj hid2
      have hmemb : b ∈ (idsOf s).take (capacity - s.inService.length) := by
        rw [← hb_eq]
        exact List.get_mem _ _ _
      have hpfuel : jb - s.events.length < capacity - s.inService.length := by
        rw [hbatchlen] at hpM
        omega
      have hgetids : (idsOf s).get ⟨jb - s.events.length, by
          rw [hbatchlen] at hpM; omega⟩ = b := by
        rw [← hbatch_get _ hpM]
        exact hb_eq
      have hidx : (idsOf s).indexOf b = jb - s.events.length := by
        have := List.indexOf_getElem hnd (jb - s.events.length)
          (by rw [hbatchlen] at hpM; omega)
        simp only [List.get_eq_getElem] at hgetids
        rw [hgetids] at this
        exact this
      exact ⟨hmemb, by omega⟩
  by_cases hbin : (idsOf s).indexOf b < capacity - s.inService.length
  · -- b is admitted this tick; a sits earlier in the batch
    have hpa : (idsOf s).indexOf a <
        ((idsOf s).take (capacity - s.inService.length)).length := by
      rw [hbatchlen]
      omega
    refine Or.inr ⟨s.events.length + (idsOf s).indexOf a, hwitness hpa, ?_⟩
    intro jb hjb
    obtain ⟨-, hjb_eq⟩ := hbelim jb hjb
    omega
  · -- b is not admitted this tick
    have hbnotbatch : b ∉ (idsOf s).take (capacity - s.inService.length) := by
      intro hmem
      exact hbin (indexOf_lt_of_mem_take _ _ _ hmem)
    by_cases hain : (idsOf s).indexOf a < capacity - s.inService.length
    · -- a is admitted this tick, b is not: a's SCHEDULE exists, b has none
      have hpa : (idsOf s).indexOf a <
          ((idsOf s).take (capacity - s.inService.length)).length := by
        rw [hbatchlen]
        omega
      refine Or.inr ⟨s.events.length + (idsOf s).indexOf a, hwitness hpa, ?_⟩
      intro jb hjb
      obtain ⟨hmem, -⟩ := hbelim jb hjb
      exact absurd hmem hbnotbatch
    · -- neither is admitted: both remain queued, still in priority order
      have hanotbatch : a ∉ (idsOf s).take (capacity - s.inService.length) := by
        intro hmem
        exact hain (indexOf_lt_of_mem_take _ _ _ hmem)
      have hdecomp := take_idsOf_decomp s (capacity - s.inService.length)
      left
      unfold HigherPair
      rw [jpq, jfq, jaq]
      rcases hp with ⟨ha, hb | hb⟩ | ⟨ha, hb⟩
      · refine Or.inl ⟨?_, Or.inl ?_⟩
        · refine mem_drop_of_not_mem_take ha ?_
          intro hmem
          exact hanotbatch (by
            rw [hdecomp]
            exact List.mem_append_left _ (List.mem_append_left _ hmem))
        · refine mem_drop_of_not_mem_take hb ?_
          intro hmem
          exact hbnotbatch (by
            rw [hdecomp]
            exact List.mem_append_left _ (List.mem_append_right _ hmem))
      · refine Or.inl ⟨?_, Or.inr ?_⟩
        · refine mem_drop_of_not_mem_take ha ?_
          intro hmem
          exact hanotbatch (by
            rw [hdecomp]
            exact List.mem_append_left _ (List.mem_append_left _ hmem))
        · refine mem_drop_of_not_mem_take hb ?_
          intro hmem
          exact hbnotbatch (by
            rw [hdecomp]
            exact List.mem_append_right _ hmem)
      · refine Or.inr ⟨?_, ?_⟩
        · refine mem_drop_of_not_mem_take ha ?_
          intro hmem
          exact hanotbatch (by
            rw [hdecomp]
            exact List.mem_append_left _ (List.mem_append_right _ hmem))
        · refine mem_drop_of_not_mem_take hb ?_
          intro hmem
          exact hbnotbatch (by
            rw [hdecomp]
            exact List.mem_append_right _ hmem)

/-- One full tick preserves the priority invariant: either `a` still outranks
`b` in the queues, or `a` has a SCHEDULE event preceding every SCHEDULE event
of `b`. -/
theorem step_priority (picks : Nat → String) (m : Nat) (s : SimState) (hs : Inv s)
    (a b : Nat)
    (hH : HigherPair s a b ∨
      (∃ ja, IsSchedOf s.events ja a ∧ ∀ jb, IsSchedOf s.events jb b → ja < jb)) :
    HigherPair (step picks m s) a b ∨
      (∃ ja, IsSchedOf (step picks m s).events ja a ∧
        ∀ jb, IsSchedOf (step picks m s).events jb b → ja < jb) := by
  rcases hH with hp | hR
  case inr =>
    obtain ⟨ja, hja, hQ⟩ := hR
    obtain ⟨L, hL, -, -⟩ := step_events_decomp picks m s hs
    rw [hL]
    refine Or.inr ⟨ja, isSchedOf_append_left hja, ?_⟩
    intro jb hjb
    rcases isSchedOf_append_elim hjb with ⟨-, hjb'⟩ | ⟨hge, -⟩
    · exact hQ jb hjb'
    · obtain ⟨hlt, -, -⟩ := hja
      omega
  case inl =>
  obtain ⟨h1, -, -, -, hpq1, hfq1, haq1, -⟩ := nextService_inv m s hs
  obtain ⟨h2, -, -, -, hpq2, hfq2, haq2, -⟩ := arrivals_inv picks m (nextService m s) h1
  have hp1 : HigherPair (nextService m s) a b :=
    higherPair_of_queues_eq hpq1 hfq1 haq1 hp
  have hp2 : HigherPair (arrivals picks m (nextService m s)) a b := by
    obtain ⟨lp, hlp⟩ := hpq2
    obtain ⟨lf, hlf⟩ := hfq2
    obtain ⟨la, hla⟩ := haq2
    unfold HigherPair at hp1 ⊢
    rw [hlp, hlf, hla]
    rcases hp1 with ⟨ha, hb | hb⟩ | ⟨ha, hb⟩
    · exact Or.inl ⟨List.mem_append_left _ ha, Or.inl (List.mem_append_left _ hb)⟩
    · exact Or.inl ⟨List.mem_append_left _ ha, Or.inr (List.mem_append_left _ hb)⟩
    · exact Or.inr ⟨List.mem_append_left _ ha, List.mem_append_left _ hb⟩
  obtain ⟨h3, -⟩ := schedule_inv m (arrivals picks m (nextService m s)) h2
  have hstepev : (step picks m s).events =
      (schedule m (arrivals picks m (nextService m s))).events := by
    show (updateQueueIndices (schedule m (arrivals picks m (nextService m s)))).events = _
    exact (updateQueueIndices_inv _ h3).2.2.1
  rcases schedule_priority m (arrivals picks m (nextService m s)) h2 a b hp2 with hp3 | hR3
  · exact Or.inl (higherPair_of_queues_eq rfl rfl rfl hp3)
  · obtain ⟨ja, hja, hQ⟩ := hR3
    rw [hstepev]
    exact Or.inr ⟨ja, hja, hQ⟩

/-- The priority invariant carried from any tick boundary to every later one. -/
theorem stateAfter_priority (picks : Nat → String) (a b : Nat) (n : Nat)
    (hp : HigherPair (stateAfter picks n) a b) :
    ∀ m, n ≤ m → HigherPair (stateAfter picks m) a b ∨
      (∃ ja, IsSchedOf (stateAfter picks m).events ja a ∧
        ∀ jb, IsSchedOf (stateAfter picks m).events jb b → ja < jb) := by
  intro m
  induction m with
  | zero =>
    intro hm
    have : n = 0 := by omega
    subst this
    exact Or.inl hp
  | succ k ih =>
    intro hm
    rcases Nat.lt_or_ge n (k + 1) with hlt | hge
    · have hk : n ≤ k := by omega
      exact step_priority picks k (stateAfter picks k) (stateAfter_inv picks k) a b (ih hk)
    · have : n = k + 1 := by omega
      subst this
      exact Or.inl hp

/-! ## Claim C3: strict-priority scheduling -/

/-- C3.  Strict-priority scheduling.  (1) `popNextQueued` returns nothing
exactly when all three queues are empty, and otherwise pops the head of the
highest-priority non-empty queue: PAID first, then FREE, then ANON, FIFO
within each queue.  (2) The admitted token transitions to in-service with its
remaining service time reset to the fixed per-request service time (1), and
the emitted event is a SCHEDULE with reason PRIORITY_SCHEDULE naming the
token.  (3) A whole scheduling phase admits exactly
`min (spare capacity) (total queued)` tokens — the prefix of the
priority-ordered concatenation paid ++ free ++ anon — moving them to
in-service, leaving the remaining suffix queued, and emitting one SCHEDULE
event per admitted token in that order.  (4) Consequently, whenever a
higher-priority token and a lower-priority token are both queued at a tick
boundary of a successful run, every SCHEDULE event of the lower one is
preceded in the trace by a SCHEDULE event of the higher one, whose tick is no
later. -/
theorem strict_priority :
    (∀ s : SimState, popNextQueued s = none ↔
      s.paidQueue = [] ∧ s.freeQueue = [] ∧ s.anonQueue = []) ∧
    ((∀ (s : SimState) (i : Nat) (rest : List Nat), s.paidQueue = i :: rest →
        popNextQueued s = some (i, { s with paidQueue := rest })) ∧
      (∀ (s : SimState) (i : Nat) (rest : List Nat), s.paidQueue = [] →
        s.freeQueue = i :: rest →
        popNextQueued s = some (i, { s with freeQueue := rest })) ∧
      (∀ (s : SimState) (i : Nat) (rest : List Nat), s.paidQueue = [] →
        s.freeQueue = [] → s.anonQueue = i :: rest →
        popNextQueued s = some (i, { s with anonQueue := rest }))) ∧
    (serviceTime = 1 ∧
      (∀ t : Token, (admitToken t).state = StateProcessing ∧
        (admitToken t).stageId = StageService ∧
        (admitToken t).serviceRemaining = serviceTime ∧
        (admitToken t).id = t.id ∧ (admitToken t).cls = t.cls ∧
        (admitToken t).arrivalTick = t.arrivalTick) ∧
      (∀ (tick : Nat) (t : Token), (schedEvent tick t).etype = EventSchedule ∧
        (schedEvent tick t).reasonCode = ReasonPrioritySchedule ∧
        (schedEvent tick t).tokenId = t.id ∧ (schedEvent tick t).tick = tick ∧
        (schedEvent tick t).cls = t.cls)) ∧
    (∀ (tick : Nat) (s : SimState), Inv s →
      ((idsOf s).take (capacity - s.inService.length)).length =
        min (capacity - s.inService.length) (idsOf s).length ∧
      (schedule tick s).inService =
        s.inService ++ (idsOf s).take (capacity - s.inService.length) ∧
      (schedule tick s).paidQueue ++ (schedule tick s).freeQueue ++
          (schedule tick s).anonQueue =
        (idsOf s).drop (capacity - s.inService.length) ∧
      (schedule tick s).events = s.events ++
        ((idsOf s).take (capacity - s.inService.length)).map
          (fun j => schedEvent tick (tokAt s j)) ∧
      (∀ j ∈ (idsOf s).take (capacity - s.inService.length),
        tokAt (schedule tick s) j = admitToken (tokAt s j)) ∧
      (∀ j, j ∉ (idsOf s).take (capacity - s.inService.length) →
        tokAt (schedule tick s) j = tokAt s j)) ∧
    (∀ (picks : Nat → String) (cfg : Config) (art : Artifact),
      RunWith picks cfg = Except.ok art →
      ∀ n, n ≤ TickCount → ∀ a b : Nat, HigherPair (stateAfter picks n) a b →
      ∀ jb, IsSchedOf art.events jb b →
        ∃ ja, ja < jb ∧ IsSchedOf art.events ja a ∧
          ∀ hja : ja < art.events.length, ∀ hjb : jb < art.events.length,
            (art.events.get ⟨ja, hja⟩).tick ≤ (art.events.get ⟨jb, hjb⟩).tick) := by
  refine ⟨?_, ⟨?_, ?_, ?_⟩, ⟨rfl, ?_, ?_⟩, ?_, ?_⟩
  · intro s
    rw [popNextQueued_none_iff]
    unfold idsOf
    simp [List.append_eq_nil]
  · intro s i rest h
    unfold popNextQueued
    rw [h]
  · intro s i rest h1 h2
    unfold popNextQueued
    rw [h1, h2]
  · intro s i rest h1 h2 h3
    unfold popNextQueued
    rw [h1, h2, h3]
  · intro t
    exact ⟨rfl, rfl, rfl, rfl, rfl, rfl⟩
  · intro tick t
    exact ⟨rfl, rfl, rfl, rfl, rfl⟩
  · intro tick s hs
    obtain ⟨-, -, -, jpq, jfq, jaq, jsv, jev, -, jin, jout⟩ :=
      scheduleLoop_spec tick (capacity - s.inService.length) s hs.queues_nodup hs.queues_lt
    have hred : schedule tick s = scheduleLoop tick (capacity - s.inService.length) s := rfl
    refine ⟨List.length_take _ _, ?_, ?_, ?_, ?_, ?_⟩
    · rw [hred]
      exact jsv
    · rw [hred, jpq, jfq, jaq]
      exact idsOf_drop s (capacity - s.inService.length)
    · rw [hred]
      exact jev
    · intro j hj
      rw [hred]
      exact jin j hj
    · intro j hj
      rw [hred]
      exact jout j hj
  · intro picks cfg art hok n hn a b hp jb hjb
    have hevs : art.events = (runSim picks).events := by
      by_cases h : cfg.scenarioId = "" ∨ cfg.scenarioId = ScenarioID
      · rw [RunWith_ok picks cfg h] at hok
        injection hok with hart
        rw [← hart]
      · push_neg at h
        rw [RunWith_error picks cfg h.1 h.2] at hok
        cases hok
    rw [hevs] at hjb
    have hjb' : IsSchedOf (stateAfter picks TickCount).events jb b := hjb
    rcases stateAfter_priority picks a b n hp TickCount hn with hleft | ⟨ja, hja, hQ⟩
    · obtain ⟨-, hbmem⟩ := higherPair_mem hleft
      exact absurd hjb'
        (no_sched_of_queued (stateAfter_inv picks TickCount) hbmem jb)
    · have hjalt : ja < jb := hQ jb hjb'
      have hjaart : IsSchedOf art.events ja a := by
        rw [hevs]
        exact hja
      refine ⟨ja, hjalt, hjaart, ?_⟩
      intro hjaL hjbL
      obtain ⟨hpw, -⟩ := stateAfter_events_sorted picks TickCount
      have hjaL' : ja < (runSim picks).events.length := by rw [← hevs]; exact hjaL
      have hjbL' : jb < (runSim picks).events.length := by rw [← hevs]; exact hjbL
      have hkey : evKey ((runSim picks).events.get ⟨ja, hjaL'⟩) ≤
          evKey ((runSim picks).events.get ⟨jb, hjbL'⟩) :=
        List.pairwise_iff_get.1 hpw ⟨ja, hjaL'⟩ ⟨jb, hjbL'⟩ hjalt
      have hga : art.events.get ⟨ja, hjaL⟩ = (runSim picks).events.get ⟨ja, hjaL'⟩ := by
        simp only [List.get_eq_getElem]
        exact List.getElem_of_eq hevs hjaL
      have hgb : art.events.get ⟨jb, hjbL⟩ = (runSim picks).events.get ⟨jb, hjbL'⟩ := by
        simp only [List.get_eq_getElem]
        exact List.getElem_of_eq hevs hjbL
      rw [hga, hgb]
      have hra := phaseRank_le_two ((runSim picks).events.get ⟨ja, hjaL'⟩)
      have hrb := phaseRank_le_two ((runSim picks).events.get ⟨jb, hjbL'⟩)
      unfold evKey at hkey
      omega

/-- Witness for C3: a two-token state (one PAID, one ANON, both queued) on
which the scheduler admits the PAID token first. -/
theorem strict_priority_witness :
    ∃ s : SimState, Inv s ∧ s.paidQueue = [0] ∧ s.anonQueue = [1] ∧
      popNextQueued s = some (0, { s with paidQueue := [] }) ∧
      (schedule 0 s).inService =
        s.inService ++ (idsOf s).take (capacity - s.inService.length) ∧
      (idsOf s).take (capacity - s.inService.length) = [0, 1] := by
  have hInv : Inv {
      nextID := 2,
      tokens := [
        { id := tokenName 0, cls := ClassPaid, state := StateQueued,
          stageId := StageQueue, queueIndex := 0, serviceRemaining := 0, arrivalTick := 0 },
        { id := tokenName 1, cls := ClassAnon, state := StateQueued,
          stageId := StageQueue, queueIndex := 1, serviceRemaining := 0, arrivalTick := 0 }],
      paidQueue := [0], freeQueue := [], anonQueue := [1], inService := [],
      snapshots := [], events := [], rngIndex := 0 } := by
    refine ⟨by decide, ?_, by decide, by decide, by decide, by decide, by decide,
      by decide, by decide, by decide, by decide, by decide, by decide⟩
    intro i hi
    have hi' : i < 2 := hi
    interval_cases i
    · rfl
    · rfl
  refine ⟨_, hInv, rfl, rfl, ?_, ?_, ?_⟩
  · exact (strict_priority.2.1).1 _ 0 [] rfl
  · exact ((strict_priority.2.2.2.1) 0 _ hInv).2.1
  · decide

end Finit
